import Mathlib

/-!
# rdb-go: the streaming decoder of Redis snapshot files

A shallow embedding of `parser.go`, `int_set.go`, `zipmap.go`, `types.go` and
`error.go`.  A byte source is the list of bytes it still has to deliver; every
read returns its result together with the bytes left, also when it fails, since
the decoder keeps no error flag and a later call goes on from where the failed
read stopped.  The helpers of the repository that the five files call but do not
contain (the byte reader primitives, the sequence iterator, the mappers) are
modelled from the specification and marked as such.
-/

namespace Rdb

/-- A Go `[]byte` or `string`: a sequence of bytes. -/
abbrev Bytes := List UInt8

/-! ## Errors (error.go, and the standard library's sentinels) -/

/-- The error values the decoder can return.  `EOF` is `io.EOF`, the exhaustion
marker; `ErrUnexpectedEOF` is `io.ErrUnexpectedEOF`; `wrapped` is
`fmt.Errorf("...: %w", err)`, which is never `==` to the error it wraps. -/
inductive Err where
  | EOF
  | ErrUnexpectedEOF
  | invalidMagicString
  | invalidVersion (text : Bytes)
  | unsupportedVersion (version : Int)
  | unsupportedDataType (dataType : UInt8)
  | unexpectedZipMapEnd (key : Bytes)
  | IntSetEncodingError (Encoding : Nat)
  | LengthEncodingError (Encoding : UInt8)
  | StringEncodingError (Encoding : Nat)
  | lzfOutOfBounds
  | wrapped (msg : String) (inner : Err)
  deriving DecidableEq, Repr

/-! ## Constants (parser.go, lines 12-56) -/

def opCodeModuleAux : UInt8 := 247
def opCodeIdle : UInt8 := 248
def opCodeFreq : UInt8 := 249
def opCodeAux : UInt8 := 250
def opCodeResizeDB : UInt8 := 251
def opCodeExpireTimeMS : UInt8 := 252
def opCodeExpireTime : UInt8 := 253
def opCodeSelectDB : UInt8 := 254
def opCodeEOF : UInt8 := 255

def typeString : UInt8 := 0
def typeList : UInt8 := 1
def typeSet : UInt8 := 2
def typeZSet : UInt8 := 3
def typeHash : UInt8 := 4
def typeZSet2 : UInt8 := 5
def typeModule : UInt8 := 6
def typeModule2 : UInt8 := 7
def typeHashZipMap : UInt8 := 9
def typeListZipList : UInt8 := 10
def typeSetIntSet : UInt8 := 11
def typeZSetZipList : UInt8 := 12
def typeHashZipList : UInt8 := 13
def typeListQuickList : UInt8 := 14
def typeStreamListPacks : UInt8 := 15

/-- The bytes of `"REDIS"`. -/
def magicString : Bytes := [0x52, 0x45, 0x44, 0x49, 0x53]

def minVersion : Int := 1
def maxVersion : Int := 9

/-! ## Byte reader primitives -/

/-- Go's `io.ReadFull(r, buf)` with `len(buf) = n` over a finite byte source:
it fills the buffer, or fails with `io.EOF` when no byte was read and with
`io.ErrUnexpectedEOF` when the source ended after some but not all bytes.  A
failed read has consumed what was there. -/
def readFull (n : Nat) (r : Bytes) : Except Err Bytes × Bytes :=
  if n ≤ r.length then (.ok (r.take n), r.drop n)
  else if r.isEmpty then (.error .EOF, [])
  else (.error .ErrUnexpectedEOF, [])

/-- Modelled from the spec: `readByte`, absent from the source files; one byte
read in full from the byte source. -/
def readByte (r : Bytes) : Except Err UInt8 × Bytes :=
  match r with
  | [] => (.error .EOF, [])
  | b :: rest => (.ok b, rest)

/-- The unsigned value of a little-endian byte sequence. -/
def leNat : Bytes → Nat
  | [] => 0
  | b :: rest => b.toNat + 256 * leNat rest

/-- The unsigned value of a big-endian byte sequence. -/
def beNat (bs : Bytes) : Nat :=
  bs.foldl (fun acc b => acc * 256 + b.toNat) 0

/-- Reinterpretation of an unsigned `bits`-bit value as a two's complement
signed integer (Go's `int16(x)`, `int32(x)`, `int64(x)` on the same width). -/
def toSigned (bits : Nat) (n : Nat) : Int :=
  if n % 2 ^ bits < 2 ^ (bits - 1) then ((n % 2 ^ bits : Nat) : Int)
  else ((n % 2 ^ bits : Nat) : Int) - ((2 ^ bits : Nat) : Int)

/-- Modelled from the spec: `readUint32`, absent from the source files; four
bytes, little-endian ("==254 means read a 4-byte LE length follows"). -/
def readUint32 (r : Bytes) : Except Err Nat × Bytes :=
  match readFull 4 r with
  | (.error e, r1) => (.error e, r1)
  | (.ok bs, r1) => (.ok (leNat bs), r1)

/-- Modelled from the spec: the length encoding of section 4.1, absent from the
source files.  The top two bits of the first byte select a 6-bit length, a
14-bit length, a special encoding (the flag is `true` and the value is a
string-encoding selector), or, for the bytes 0x80 and 0x81, a 32-bit and a
64-bit big-endian length.  Every other first byte is an error. -/
def readLengthWithEncoding (r : Bytes) : Except Err (Nat × Bool) × Bytes :=
  match readByte r with
  | (.error e, r1) => (.error e, r1)
  | (.ok first, r1) =>
    if first.toNat / 64 = 3 then (.ok (first.toNat % 64, true), r1)
    else if first.toNat / 64 = 0 then (.ok (first.toNat % 64, false), r1)
    else if first.toNat / 64 = 1 then
      match readByte r1 with
      | (.error e, r2) => (.error e, r2)
      | (.ok next, r2) => (.ok ((first.toNat % 64) * 256 + next.toNat, false), r2)
    else if first = 0x80 then
      match readFull 4 r1 with
      | (.error e, r2) => (.error e, r2)
      | (.ok bs, r2) => (.ok (beNat bs, false), r2)
    else if first = 0x81 then
      match readFull 8 r1 with
      | (.error e, r2) => (.error e, r2)
      | (.ok bs, r2) => (.ok (beNat bs, false), r2)
    else (.error (.LengthEncodingError first), r1)

/-- Modelled from the spec: `readLength`, absent from the source files; the
length encoding with the flag dropped, as the `int64` the callers in parser.go
store (`p.db`, `p.idle`). -/
def readLength (r : Bytes) : Except Err Int × Bytes :=
  match readLengthWithEncoding r with
  | (.error e, r1) => (.error e, r1)
  | (.ok (n, _), r1) => (.ok (toSigned 64 n), r1)

/-- The decimal rendering of an integer, as ASCII bytes. -/
def decimal (i : Int) : Bytes :=
  let digits : Bytes := (Nat.toDigits 10 i.natAbs).map (fun c => UInt8.ofNat c.toNat)
  if i < 0 then 0x2D :: digits else digits

/-- One back-reference of LZF: `count` bytes copied one at a time from position
`pos` of the output onto its end, so that source and target may overlap. -/
def lzfCopy : Nat → Nat → Bytes → Option Bytes
  | 0, _, out => some out
  | count + 1, pos, out =>
    match out.get? pos with
    | none => none
    | some b => lzfCopy count (pos + 1) (out ++ [b])

/-- Modelled from the spec: LZF decompression (section 4.1), absent from the
source files.  A control byte below 32 starts a literal run of that many bytes
plus one; any other control byte is a back-reference whose length is its top
three bits (plus an extra byte when they are 7) plus two, and whose offset is
its low five bits and the next byte.  The output is checked against the
declared length `ulen`. -/
def lzfLoop : Nat → Bytes → Bytes → Nat → Except Err Bytes
  | 0, _, out, _ => .ok out
  | _ + 1, [], out, _ => .ok out
  | fuel + 1, ctrl :: rest, out, ulen =>
    if ctrl.toNat < 32 then
      if ctrl.toNat + 1 ≤ rest.length ∧ out.length + ctrl.toNat + 1 ≤ ulen then
        lzfLoop fuel (rest.drop (ctrl.toNat + 1)) (out ++ rest.take (ctrl.toNat + 1)) ulen
      else .error .lzfOutOfBounds
    else
      let len0 := ctrl.toNat / 32
      let (len, rest1) : Nat × Option Bytes :=
        if len0 = 7 then
          match rest with
          | [] => (0, none)
          | extra :: rest1 => (len0 + extra.toNat, some rest1)
        else (len0, some rest)
      match rest1 with
      | none => .error .lzfOutOfBounds
      | some [] => .error .lzfOutOfBounds
      | some (low :: rest2) =>
        let offset := (ctrl.toNat % 32) * 256 + low.toNat
        if offset + 1 ≤ out.length ∧ out.length + len + 2 ≤ ulen then
          match lzfCopy (len + 2) (out.length - offset - 1) out with
          | none => .error .lzfOutOfBounds
          | some out1 => lzfLoop fuel rest2 out1 ulen
        else .error .lzfOutOfBounds

/-- Modelled from the spec: see `lzfLoop`. -/
def lzfDecompress (input : Bytes) (ulen : Nat) : Except Err Bytes :=
  lzfLoop (input.length + 1) input [] ulen

/-- Modelled from the spec: `readString`, absent from the source files; the
string encoding of section 4.1.  An ordinary length is followed by that many
raw bytes; the selectors 0, 1, 2 are a signed integer of 1, 2, 4 little-endian
bytes rendered in decimal; selector 3 is an LZF-compressed blob; every other
selector is an error. -/
def readString (r : Bytes) : Except Err Bytes × Bytes :=
  match readLengthWithEncoding r with
  | (.error e, r1) => (.error e, r1)
  | (.ok (n, false), r1) => readFull n r1
  | (.ok (sel, true), r1) =>
    if sel = 0 then
      match readFull 1 r1 with
      | (.error e, r2) => (.error e, r2)
      | (.ok bs, r2) => (.ok (decimal (toSigned 8 (leNat bs))), r2)
    else if sel = 1 then
      match readFull 2 r1 with
      | (.error e, r2) => (.error e, r2)
      | (.ok bs, r2) => (.ok (decimal (toSigned 16 (leNat bs))), r2)
    else if sel = 2 then
      match readFull 4 r1 with
      | (.error e, r2) => (.error e, r2)
      | (.ok bs, r2) => (.ok (decimal (toSigned 32 (leNat bs))), r2)
    else if sel = 3 then
      match readLengthWithEncoding r1 with
      | (.error e, r2) => (.error e, r2)
      | (.ok (clen, _), r2) =>
        match readLengthWithEncoding r2 with
        | (.error e, r3) => (.error e, r3)
        | (.ok (ulen, _), r3) =>
          match readFull clen r3 with
          | (.error e, r4) => (.error e, r4)
          | (.ok cbytes, r4) => (lzfDecompress cbytes ulen, r4)
    else (.error (.StringEncodingError sel), r1)

/-- Modelled from the spec: `readStringEncoding` of the `reader` package that
int_set.go imports, absent from the source files; the same string encoding,
returning the bytes of the packed blob. -/
def readStringEncoding (r : Bytes) : Except Err Bytes × Bytes :=
  readString r

/-- A Go `time.Time`, as milliseconds since the Unix epoch. -/
structure Time where
  unixMilli : Nat
  deriving DecidableEq, Repr

/-- Modelled from the spec: `readSecondsTime`, absent from the source files;
"4-byte little-endian unsigned epoch seconds". -/
def readSecondsTime (r : Bytes) : Except Err Time × Bytes :=
  match readFull 4 r with
  | (.error e, r1) => (.error e, r1)
  | (.ok bs, r1) => (.ok ⟨leNat bs * 1000⟩, r1)

/-- Modelled from the spec: `readMillisecondsTime`, absent from the source
files; "8-byte little-endian unsigned epoch milliseconds". -/
def readMillisecondsTime (r : Bytes) : Except Err Time × Bytes :=
  match readFull 8 r with
  | (.error e, r1) => (.error e, r1)
  | (.ok bs, r1) => (.ok ⟨leNat bs⟩, r1)

/-! ## Records (types.go) -/

/-- DataKey contains the database, the key and the expiry of data. -/
structure DataKey where
  Database : Int
  Key : Bytes
  Expiry : Option Time
  deriving DecidableEq, Repr

/-- The score of a sorted-set member.  Floating point is outside the embedding:
a legacy score keeps the ASCII bytes of its decimal text and a binary score the
64 bits of its IEEE-754 pattern. -/
inductive Score where
  | nan
  | posInf
  | negInf
  | text (ascii : Bytes)
  | bits (pattern : Nat)
  deriving DecidableEq, Repr

/-- HashValue of zipmap.go: a field and its value. -/
structure HashValue where
  Index : Bytes
  Value : Bytes
  deriving DecidableEq, Repr

/-- The element values an iterator hands to its mapper (Go's `interface{}`): an
integer of an intset with the width of its Go type, a string, a hash pair, a
sorted-set member with its score. -/
inductive Value where
  | int (bits : Nat) (v : Int)
  | str (s : Bytes)
  | hash (h : HashValue)
  | sortedSet (member : Bytes) (score : Score)
  deriving DecidableEq, Repr

structure collectionHead where
  DataKey : DataKey
  Length : Int
  deriving DecidableEq, Repr

/-- The entry of types.go; zipmap.go names the same four fields
`collectionElement`. -/
structure collectionEntry where
  DataKey : DataKey
  Index : Int
  Length : Int
  Value : Value
  deriving DecidableEq, Repr

/-- The slice of types.go has `DataKey` and `Value`; zipmap.go also sets a
`Length`, which a literal that omits it leaves at Go's zero value. -/
structure collectionSlice where
  DataKey : DataKey
  Length : Int := 0
  Value : List Value
  deriving DecidableEq, Repr

structure Aux where
  Key : Bytes
  Value : Bytes
  deriving DecidableEq, Repr

/-- StringData contains the key and the value of string data. -/
structure StringData where
  DataKey : DataKey
  Value : Bytes
  deriving DecidableEq, Repr

/-- What a call to `Next` can hand to the consumer (Go's `interface{}`). -/
inductive Record where
  | aux (a : Aux)
  | stringData (s : StringData)
  | head (h : collectionHead)
  | entry (e : collectionEntry)
  | slice (s : collectionSlice)
  deriving DecidableEq, Repr

/-- The mapper interface of types.go (zipmap.go calls `MapEntry` by the name
`MapElement`). -/
structure collectionMapper where
  MapHead : collectionHead → Except Err Record
  MapEntry : collectionEntry → Except Err Record
  MapSlice : collectionSlice → Except Err Record

/-- Modelled from the spec: the default mapper of section 4.6, absent from the
source files, which "simply returns the argument". -/
def defaultMapper : collectionMapper where
  MapHead h := .ok (.head h)
  MapEntry e := .ok (.entry e)
  MapSlice s := .ok (.slice s)

/-- Modelled from the spec: `listMapper`, absent from the source files. -/
def listMapper : collectionMapper := defaultMapper

/-- Modelled from the spec: `setMapper`, absent from the source files. -/
def setMapper : collectionMapper := defaultMapper

/-- Modelled from the spec: `sortedSetMapper`, absent from the source files. -/
def sortedSetMapper : collectionMapper := defaultMapper

/-- Modelled from the spec: `hashMapper`, absent from the source files. -/
def hashMapper : collectionMapper := defaultMapper

/-! ## IntSet iterator (int_set.go) -/

/-- The iterator of int_set.go.  Its `Reader` is a reference to a byte source
shared with whoever built the iterator, so `Next` takes the bytes left in that
source and returns them updated; `buf` is the packed blob still to be read. -/
structure intSetIterator where
  DataKey : DataKey
  Mapper : collectionMapper
  buf : Option Bytes := none
  done : Bool := false
  encoding : Nat := 0
  index : Int := 0
  length : Int := 0
  values : List Value := []

/-- Modelled from the spec: `ReadUint32` of the `reader` package, absent from
the source files; four little-endian bytes of the buffer. -/
def ReadUint32 (buf : Bytes) : Except Err Nat × Bytes :=
  readUint32 buf

/-- Modelled from the spec: `ReadInt16`, `ReadInt32`, `ReadInt64` of the
`reader` package, absent from the source files; a little-endian signed integer
of `width` bytes. -/
def ReadInt (width : Nat) (buf : Bytes) : Except Err Value × Bytes :=
  match readFull width buf with
  | (.error e, b1) => (.error e, b1)
  | (.ok bs, b1) => (.ok (.int (8 * width) (toSigned (8 * width) (leNat bs))), b1)

/-- The method `readValue` of int_set.go, lines 100-111, on the buffer. -/
def intSetIterator.readValue (i : intSetIterator) (buf : Bytes) :
    Except Err Value × Bytes :=
  if i.encoding = 8 then ReadInt 8 buf
  else if i.encoding = 4 then ReadInt 4 buf
  else if i.encoding = 2 then ReadInt 2 buf
  else (.error (.IntSetEncodingError i.encoding), buf)

/-- The method `Next` of int_set.go, lines 23-98. -/
def intSetIterator.Next (i : intSetIterator) (r : Bytes) :
    Except Err Record × intSetIterator × Bytes :=
  if i.done then (.error .EOF, i, r)
  else
    match i.buf with
    | none =>
      match readStringEncoding r with
      | (.error e, r1) => (.error (.wrapped "failed to read intset buffer" e), i, r1)
      | (.ok buf, r1) =>
        match ReadUint32 buf with
        | (.error e, b1) =>
          (.error (.wrapped "failed to read intset encoding" e),
            { i with buf := some b1, encoding := 0 }, r1)
        | (.ok encoding, b1) =>
          match ReadUint32 b1 with
          | (.error e, b2) =>
            (.error (.wrapped "failed to read intset length" e),
              { i with buf := some b2, encoding := encoding }, r1)
          | (.ok length, b2) =>
            let i1 := { i with buf := some b2, encoding := encoding, length := (length : Int) }
            match i1.Mapper.MapHead { DataKey := i1.DataKey, Length := i1.length } with
            | .error e => (.error (.wrapped "failed to map head in intset" e), i1, r1)
            | .ok head => (.ok head, i1, r1)
    | some buf =>
      if i.index = i.length then
        let i1 := { i with done := true, buf := none }
        match i1.Mapper.MapSlice { DataKey := i1.DataKey, Value := i1.values } with
        | .error e => (.error (.wrapped "failed to map slice in intset" e), i1, r)
        | .ok slice => (.ok slice, i1, r)
      else
        match i.readValue buf with
        | (.error e, b1) => (.error e, { i with buf := some b1 }, r)
        | (.ok value, b1) =>
          let i1 := { i with buf := some b1 }
          match i1.Mapper.MapEntry
              { DataKey := i1.DataKey, Index := i1.index, Length := i1.length, Value := value } with
          | .error e => (.error (.wrapped "failed to map entry in intset" e), i1, r)
          | .ok entry =>
            (.ok entry, { i1 with index := i1.index + 1, values := i1.values ++ [value] }, r)

/-! ## ZipMap iterator (zipmap.go) -/

/-- The iterator of zipmap.go; `Reader` is threaded as for `intSetIterator`. -/
structure zipMapIterator where
  DataKey : DataKey
  Mapper : collectionMapper
  buf : Option Bytes := none
  index : Int := 0
  length : Int := 0
  done : Bool := false
  values : List Value := []

/-- The method `readLength` of zipmap.go, lines 119-141, on the buffer. -/
def zipMapIterator.readLength (buf : Bytes) : Except Err Int × Bytes :=
  match readByte buf with
  | (.error e, b1) => (.error e, b1)
  | (.ok first, b1) =>
    if first.toNat < 254 then (.ok (first.toNat : Int), b1)
    else if first = 254 then
      match readUint32 b1 with
      | (.error e, b2) => (.error e, b2)
      | (.ok length, b2) => (.ok (length : Int), b2)
    else (.error .EOF, b1)

/-- The method `Next` of zipmap.go, lines 23-117. -/
def zipMapIterator.Next (z : zipMapIterator) (r : Bytes) :
    Except Err Record × zipMapIterator × Bytes :=
  if z.done then (.error .EOF, z, r)
  else
    match z.buf with
    | none =>
      match readString r with
      | (.error e, r1) => (.error e, z, r1)
      | (.ok buf, r1) =>
        match readByte buf with
        | (.error e, b1) => (.error e, { z with buf := some b1 }, r1)
        | (.ok length, b1) =>
          let z1 := { z with buf := some b1, length := (length.toNat : Int) }
          (z1.Mapper.MapHead { DataKey := z1.DataKey, Length := z1.length }, z1, r1)
    | some buf =>
      match zipMapIterator.readLength buf with
      | (.error e, b1) =>
        if e = .EOF then
          let z1 := { z with done := true, buf := none }
          (z1.Mapper.MapSlice
            { DataKey := z1.DataKey, Length := z1.length, Value := z1.values }, z1, r)
        else (.error e, { z with buf := some b1 }, r)
      | (.ok keyLength, b1) =>
        match readFull keyLength.toNat b1 with
        | (.error e, b2) => (.error e, { z with buf := some b2 }, r)
        | (.ok keyBuf, b2) =>
          match zipMapIterator.readLength b2 with
          | (.error e, b3) =>
            if e = .EOF then (.error (.unexpectedZipMapEnd keyBuf), { z with buf := some b3 }, r)
            else (.error e, { z with buf := some b3 }, r)
          | (.ok valueLength, b3) =>
            match readByte b3 with
            | (.error e, b4) => (.error e, { z with buf := some b4 }, r)
            | (.ok _, b4) =>
              match readFull valueLength.toNat b4 with
              | (.error e, b5) => (.error e, { z with buf := some b5 }, r)
              | (.ok valueBuf, b5) =>
                let z1 := { z with buf := some b5 }
                let value : Value := .hash { Index := keyBuf, Value := valueBuf }
                match z1.Mapper.MapEntry
                    { DataKey := z1.DataKey, Index := z1.index, Length := z1.length,
                      Value := value } with
                | .error e => (.error e, z1, r)
                | .ok element =>
                  (.ok element,
                    { z1 with index := z1.index + 1, values := z1.values ++ [value] }, r)

/-! ## Sequence iterator (modelled from section 4.4 of the spec) -/

/-- The element readers parser.go plugs into the sequence iterator:
`stringValueReader`, `sortedSetValueReader` with the data type, and
`hashValueReader`. -/
inductive valueReader where
  | string
  | sortedSet (type : UInt8)
  | hash
  deriving DecidableEq, Repr

/-- Modelled from the spec: the score readers, absent from the source files.
The legacy form is a length byte, 253, 254 and 255 standing for NaN and the two
infinities, followed by that many ASCII bytes; the binary form is eight bytes,
little-endian. -/
def readScore (type : UInt8) (r : Bytes) : Except Err Score × Bytes :=
  if type = typeZSet2 then
    match readFull 8 r with
    | (.error e, r1) => (.error e, r1)
    | (.ok bs, r1) => (.ok (.bits (leNat bs)), r1)
  else
    match readByte r with
    | (.error e, r1) => (.error e, r1)
    | (.ok l, r1) =>
      if l = 253 then (.ok .nan, r1)
      else if l = 254 then (.ok .posInf, r1)
      else if l = 255 then (.ok .negInf, r1)
      else
        match readFull l.toNat r1 with
        | (.error e, r2) => (.error e, r2)
        | (.ok bs, r2) => (.ok (.text bs), r2)

/-- Modelled from the spec: the element readers of section 4.4, absent from the
source files.  The string reader is one `readString`, the sorted-set reader a
`readString` and a score, the hash reader two `readString`s. -/
def valueReader.ReadValue (v : valueReader) (r : Bytes) : Except Err Value × Bytes :=
  match v with
  | .string =>
    match readString r with
    | (.error e, r1) => (.error e, r1)
    | (.ok s, r1) => (.ok (.str s), r1)
  | .sortedSet type =>
    match readString r with
    | (.error e, r1) => (.error e, r1)
    | (.ok member, r1) =>
      match readScore type r1 with
      | (.error e, r2) => (.error e, r2)
      | (.ok score, r2) => (.ok (.sortedSet member score), r2)
  | .hash =>
    match readString r with
    | (.error e, r1) => (.error e, r1)
    | (.ok field, r1) =>
      match readString r1 with
      | (.error e, r2) => (.error e, r2)
      | (.ok value, r2) => (.ok (.hash { Index := field, Value := value }), r2)

/-- The fields parser.go sets on a `seqIterator` (lines 239-274) and the
progress of the iteration. -/
structure seqIterator where
  DataKey : DataKey
  ValueReader : valueReader
  Mapper : collectionMapper
  started : Bool := false
  done : Bool := false
  index : Int := 0
  length : Int := 0
  values : List Value := []

/-- Modelled from the spec: the sequence iterator of section 4.4, absent from
the source files.  It "reads a length L, then for i in 0..L-1 calls the
injected element reader", emitting the head, the entries and then the slice;
once the slice is out it answers with the exhaustion marker. -/
def seqIterator.Next (s : seqIterator) (r : Bytes) :
    Except Err Record × seqIterator × Bytes :=
  if s.done then (.error .EOF, s, r)
  else if !s.started then
    match readLength r with
    | (.error e, r1) => (.error e, s, r1)
    | (.ok length, r1) =>
      let s1 := { s with started := true, length := length }
      (s1.Mapper.MapHead { DataKey := s1.DataKey, Length := s1.length }, s1, r1)
  else if s.index = s.length then
    let s1 := { s with done := true }
    (s1.Mapper.MapSlice { DataKey := s1.DataKey, Value := s1.values }, s1, r)
  else
    match s.ValueReader.ReadValue r with
    | (.error e, r1) => (.error e, s, r1)
    | (.ok value, r1) =>
      match s.Mapper.MapEntry
          { DataKey := s.DataKey, Index := s.index, Length := s.length, Value := value } with
      | .error e => (.error e, s, r1)
      | .ok entry =>
        (.ok entry, { s with index := s.index + 1, values := s.values ++ [value] }, r1)

/-! ## Parser (parser.go) -/

/-- The implementations of the `iterator` interface that parser.go builds. -/
inductive iterator where
  | seq (s : seqIterator)
  | zipMap (z : zipMapIterator)

/-- The method `Next` of the `iterator` interface. -/
def iterator.Next (it : iterator) (r : Bytes) : Except Err Record × iterator × Bytes :=
  match it with
  | .seq s =>
    match s.Next r with
    | (res, s1, r1) => (res, .seq s1, r1)
  | .zipMap z =>
    match z.Next r with
    | (res, z1, r1) => (res, .zipMap z1, r1)

/-- The key an iterator was built with. -/
def iterator.DataKey (it : iterator) : DataKey :=
  match it with
  | .seq s => s.DataKey
  | .zipMap z => z.DataKey

/-- The struct `Parser` of parser.go, lines 58-68; `reader` is the bytes the
byte source has not delivered yet. -/
structure Parser where
  reader : Bytes
  db : Int
  initialized : Bool := false
  expiry : Option Time := none
  dataType : Option UInt8 := none
  idle : Int := 0
  freq : UInt8 := 0
  key : Bytes := []
  iterator : Option iterator := none

def NewParser (r : Bytes) : Parser :=
  { reader := r, db := -1 }

/-- Go's `strconv.Atoi` on a string shorter than 19 bytes (its only use here is
on 4 bytes): an optional sign, then at least one character, all of them decimal
digits. -/
def Atoi (s : Bytes) : Option Int :=
  match s with
  | [] => none
  | c :: rest =>
    let digits : Bytes := if c = 0x2D ∨ c = 0x2B then rest else s
    if digits.isEmpty then none
    else if digits.all (fun ch => 0x30 ≤ ch.toNat ∧ ch.toNat ≤ 0x39) then
      let n : Nat := digits.foldl (fun acc ch => acc * 10 + (ch.toNat - 0x30)) 0
      some (if c = 0x2D then -(n : Int) else (n : Int))
    else none

/-- The method `verifyMagicString` of parser.go, lines 170-182. -/
def verifyMagicString (r : Bytes) : Option Err × Bytes :=
  match readFull magicString.length r with
  | (.error e, r1) => (some e, r1)
  | (.ok buf, r1) =>
    if buf ≠ magicString then (some .invalidMagicString, r1)
    else (none, r1)

/-- The method `verifyVersion` of parser.go, lines 184-202. -/
def verifyVersion (r : Bytes) : Option Err × Bytes :=
  match readFull 4 r with
  | (.error e, r1) => (some e, r1)
  | (.ok buf, r1) =>
    match Atoi buf with
    | none => (some (.invalidVersion buf), r1)
    | some version =>
      if version < minVersion ∨ version > maxVersion then
        (some (.unsupportedVersion version), r1)
      else (none, r1)

/-- One pass through the body of `Next`: it either returns to the caller or
ends in the tail call `return p.Next()`. -/
inductive Step where
  | ret (result : Except Err Record) (p : Parser)
  | loop (p : Parser)

/-- The method `readData` of parser.go, lines 204-289, entered with
`*p.dataType = dt`. -/
def Parser.readData (p : Parser) (dt : UInt8) : Step :=
  match p.iterator with
  | some it =>
    match it.Next p.reader with
    | (.error e, it1, r1) =>
      if e = .EOF then .loop { p with reader := r1, dataType := none, iterator := none }
      else .ret (.error e) { p with reader := r1, iterator := some it1 }
    | (.ok value, it1, r1) => .ret (.ok value) { p with reader := r1, iterator := some it1 }
  | none =>
    let key : DataKey := { Key := p.key, Expiry := p.expiry, Database := p.db }
    if dt = typeString then
      match readString p.reader with
      | (.error e, r1) => .ret (.error e) { p with reader := r1 }
      | (.ok value, r1) =>
        .ret (.ok (.stringData { DataKey := key, Value := value }))
          { p with reader := r1, dataType := none }
    else if dt = typeList then
      .loop { p with iterator := some (.seq
        { DataKey := key, ValueReader := .string, Mapper := listMapper }) }
    else if dt = typeSet then
      .loop { p with iterator := some (.seq
        { DataKey := key, ValueReader := .string, Mapper := setMapper }) }
    else if dt = typeZSet ∨ dt = typeZSet2 then
      .loop { p with iterator := some (.seq
        { DataKey := key, ValueReader := .sortedSet dt, Mapper := sortedSetMapper }) }
    else if dt = typeHash then
      .loop { p with iterator := some (.seq
        { DataKey := key, ValueReader := .hash, Mapper := hashMapper }) }
    else if dt = typeHashZipMap then
      .loop { p with iterator := some (.zipMap { DataKey := key, Mapper := hashMapper }) }
    else .ret (.error (.unsupportedDataType dt)) p

/-- The end of `Next`, lines 162-167, reached by every byte that is not one of
the opcodes handled above it: read the key, record the data type, call `Next`.
An assignment `p.key, err = ...` stores the helper's value also when it fails;
that value is taken to be Go's zero value. -/
def Parser.readKey (p : Parser) (dataType : UInt8) (r : Bytes) : Step :=
  match readString r with
  | (.error e, r1) => .ret (.error e) { p with reader := r1, key := [] }
  | (.ok key, r1) => .loop { p with reader := r1, key := key, dataType := some dataType }

/-- The start of the method `Next`, parser.go lines 78-88: a parser that is not
initialized verifies the magic string and the version; the error of a failed
check is what `Next` returns. -/
def Parser.header (p : Parser) : Option Err × Parser :=
  if !p.initialized then
    match verifyMagicString p.reader with
    | (some e, r1) => (some e, { p with reader := r1 })
    | (none, r1) =>
      match verifyVersion r1 with
      | (some e, r2) => (some e, { p with reader := r2 })
      | (none, r2) => (none, { p with reader := r2, initialized := true })
  else (none, p)

/-- The rest of the method `Next`, parser.go lines 90-167, up to its return or
its tail call.  The fields an opcode assigns (`p.expiry`, `p.idle`, `p.freq`,
`p.db`) are assigned also when the read fails, to the zero value a Go helper
returns next to an error. -/
def Parser.body (p : Parser) : Step :=
  match p.dataType with
  | some dt => p.readData dt
  | none =>
    match readByte p.reader with
    | (.error e, r1) => .ret (.error e) { p with reader := r1 }
    | (.ok dataType, r1) =>
      if dataType = opCodeExpireTimeMS then
        match readMillisecondsTime r1 with
        | (.error e, r2) => .ret (.error e) { p with reader := r2, expiry := none }
        | (.ok t, r2) => .loop { p with reader := r2, expiry := some t }
      else if dataType = opCodeExpireTime then
        match readSecondsTime r1 with
        | (.error e, r2) => .ret (.error e) { p with reader := r2, expiry := none }
        | (.ok t, r2) => .loop { p with reader := r2, expiry := some t }
      else if dataType = opCodeIdle then
        match readLength r1 with
        | (.error e, r2) => .ret (.error e) { p with reader := r2, idle := 0 }
        | (.ok idle, r2) => .loop { p with reader := r2, idle := idle }
      else if dataType = opCodeFreq then
        match readByte r1 with
        | (.error e, r2) => .ret (.error e) { p with reader := r2, freq := 0 }
        | (.ok freq, r2) => .loop { p with reader := r2, freq := freq }
      else if dataType = opCodeSelectDB then
        match readLength r1 with
        | (.error e, r2) => .ret (.error e) { p with reader := r2, db := 0 }
        | (.ok db, r2) => .loop { p with reader := r2, db := db }
      else if dataType = opCodeAux then
        match readString r1 with
        | (.error e, r2) => .ret (.error e) { p with reader := r2 }
        | (.ok key, r2) =>
          match readString r2 with
          | (.error e, r3) => .ret (.error e) { p with reader := r3 }
          | (.ok value, r3) =>
            .ret (.ok (.aux { Key := key, Value := value })) { p with reader := r3 }
      else if dataType = opCodeResizeDB then p.readKey dataType r1
      else if dataType = opCodeModuleAux then p.readKey dataType r1
      else if dataType = opCodeEOF then .ret (.error .EOF) { p with reader := r1 }
      else p.readKey dataType r1

/-- One pass through the body of the method `Next` of parser.go, lines 77-168,
up to its return or its tail call. -/
def Parser.step (p0 : Parser) : Step :=
  match p0.header with
  | (some e, p) => .ret (.error e) p
  | (none, p) => p.body

/-- The method `Next` with its tail calls unrolled at most `fuel` times:
`none` when the fuel runs out before `Next` returns. -/
def Parser.NextFuel : Nat → Parser → Option (Except Err Record × Parser)
  | 0, _ => none
  | fuel + 1, p =>
    match p.step with
    | .ret result p1 => some (result, p1)
    | .loop p1 => Parser.NextFuel fuel p1

/-- The method `Next` of parser.go: the outcome of the call and the parser it
leaves.  Between two passes through the body either an input byte is consumed
or the parser moves from "data type set" to "iterator set" to "both cleared",
so three passes per byte left and three more are enough. -/
def Parser.Next (p : Parser) : Option (Except Err Record × Parser) :=
  p.NextFuel (3 * p.reader.length + 3)

/-! ## Drivers and the layouts the properties speak about -/

/-- The results of `n` successive calls to `Next` on an intset iterator. -/
def intSetIterator.run : Nat → intSetIterator → Bytes → List (Except Err Record)
  | 0, _, _ => []
  | n + 1, i, r => (i.Next r).1 :: intSetIterator.run n (i.Next r).2.1 (i.Next r).2.2

/-- The `i`-th little-endian signed integer of `width` bytes in the payload of
an intset blob, as the Go value of that width. -/
def intSetValue (width : Nat) (payload : Bytes) (i : Nat) : Value :=
  .int (8 * width) (toSigned (8 * width) (leNat ((payload.drop (i * width)).take width)))

/-- The results of `n` successive calls to `Next` on a zipmap iterator. -/
def zipMapIterator.run : Nat → zipMapIterator → Bytes → List (Except Err Record)
  | 0, _, _ => []
  | n + 1, z, r => (z.Next r).1 :: zipMapIterator.run n (z.Next r).2.1 (z.Next r).2.2

/-- The length a zipmap length field stands for: one byte below 254, or the
byte 254 followed by four little-endian bytes. -/
def zipMapLengthOf (enc : Bytes) : Option Nat :=
  match enc with
  | [b] => if b.toNat < 254 then some b.toNat else none
  | [b, b0, b1, b2, b3] => if b = 254 then some (leNat [b0, b1, b2, b3]) else none
  | _ => none

/-- One key/value pair of a zipmap blob as the blob lays it out. -/
structure zipMapPair where
  keyLength : Bytes
  key : Bytes
  valueLength : Bytes
  free : UInt8
  value : Bytes
  deriving DecidableEq, Repr

/-- The two length fields of the pair announce the lengths of its key and of
its value. -/
def zipMapPair.wellFormed (p : zipMapPair) : Prop :=
  zipMapLengthOf p.keyLength = some p.key.length ∧
    zipMapLengthOf p.valueLength = some p.value.length

instance (p : zipMapPair) : Decidable p.wellFormed := by
  unfold zipMapPair.wellFormed; exact inferInstance

/-- The bytes of one pair: key length, key, value length, free byte, value. -/
def zipMapPair.bytes (p : zipMapPair) : Bytes :=
  p.keyLength ++ p.key ++ p.valueLength ++ [p.free] ++ p.value

/-- The hash element a pair decodes to. -/
def zipMapPair.element (p : zipMapPair) : Value :=
  .hash { Index := p.key, Value := p.value }

/-- The bytes of the pairs one after the other. -/
def zipMapPairs : List zipMapPair → Bytes
  | [] => []
  | p :: ps => p.bytes ++ zipMapPairs ps

/-- A zipmap blob: the hint byte, the pairs, the terminator 0xFF. -/
def zipMapBlob (hint : UInt8) (pairs : List zipMapPair) : Bytes :=
  hint :: (zipMapPairs pairs ++ [0xFF])

/-- The entries an iterator with key `key` and announced length `length`
emits for `pairs`, the first of them with index `j`. -/
def zipMapEntries (key : DataKey) (length : Int) : Nat → List zipMapPair →
    List (Except Err Record)
  | _, [] => []
  | j, p :: ps =>
    .ok (.entry { DataKey := key, Index := (j : Int), Length := length, Value := p.element })
      :: zipMapEntries key length (j + 1) ps

/-- The results of `n` successive calls to `Parser.Next`, each on the parser
the call before it left; `none` where a call ran out of fuel. -/
def Parser.run : Nat → Parser → List (Option (Except Err Record))
  | 0, _ => []
  | n + 1, p =>
    match p.Next with
    | none => [none]
    | some (res, p1) => some res :: Parser.run n p1

/-- The nine header bytes `REDIS0009`. -/
def header9 : Bytes := magicString ++ [0x30, 0x30, 0x30, 0x39]

/-- The parser a pass through the body of `Next` leaves. -/
def Step.parser : Step → Parser
  | .ret _ p => p
  | .loop p => p

/-- The key a record carries; an `Aux` record carries none. -/
def Record.DataKey? : Record → Option DataKey
  | .aux _ => none
  | .stringData s => some s.DataKey
  | .head h => some h.DataKey
  | .entry e => some e.DataKey
  | .slice s => some s.DataKey

/-- The mapper an iterator was built with. -/
def iterator.Mapper (it : iterator) : collectionMapper :=
  match it with
  | .seq s => s.Mapper
  | .zipMap z => z.Mapper

/-- The bytes at which a pass through the body of `Next` arrives once the
header is behind it: the unread bytes of an initialized parser, the bytes after
a valid nine-byte header of a parser that is not, nothing when the header is
rejected. -/
def Parser.afterHeader (p : Parser) : Option Bytes :=
  match p.header with
  | (some _, _) => none
  | (none, p1) => some p1.reader

/-- What the input says about database selection in one pass, read off the
bytes and not off `p.db`, as the amended property C4 counts it: when no data
type is pending and the byte after the header is the SelectDB opcode 0xFE, the
pass consumes that opcode and the value it reads is the length that follows; a
length that does not decode counts as the value 0.  Any other pass consumes no
SelectDB opcode.  `Parser.selectDBRead` is the count without that clause. -/
def Parser.selectDBConsumed (p : Parser) : Option Int :=
  match p.dataType, p.afterHeader with
  | none, some (b :: rest) =>
    if b = opCodeSelectDB then
      match readLength rest with
      | (.ok v, _) => some v
      | (.error _, _) => some 0
    else none
  | _, _ => none

/-- The value read by the most recent SelectDB opcode once the pass from `p`
is over, `sel` being that value before the pass. -/
def Parser.selected (sel : Int) (p : Parser) : Int :=
  (p.selectDBConsumed).getD sel

/-- `Tracked sel p`: the parser `p` is met in some sequence of calls to `Next`
that starts from `NewParser`, at the start of a pass through the body of
`Next`, and `sel` is the value read by the most recent SelectDB opcode consumed
up to there, -1 when none was (0 when the length after that opcode did not
decode, see `Parser.selectDBConsumed`). -/
inductive Tracked : Int → Parser → Prop where
  | new (r : Bytes) : Tracked (-1) (NewParser r)
  | pass (sel : Int) (p : Parser) : Tracked sel p → Tracked (p.selected sel) p.step.parser

/-- The value read by the most recent SelectDB opcode once the call
`p.NextFuel fuel` is over, `sel` being that value before the call: the passes
of the call are followed with `Parser.selected`. -/
def Parser.selectedAfter : Nat → Int → Parser → Int
  | 0, sel, _ => sel
  | fuel + 1, sel, p =>
    match p.step with
    | .ret _ _ => p.selected sel
    | .loop p1 => Parser.selectedAfter fuel (p.selected sel) p1

/-- What the passes keep true of a parser whose SelectDB opcodes have selected
`sel`: `p.db` is `sel`, an iterator is there only while a data type is pending,
and it was built with a key of database `sel` and with the default mapper. -/
def Parser.Inv (sel : Int) (p : Parser) : Prop :=
  p.db = sel ∧ (p.dataType = none → p.iterator = none) ∧
    ∀ it, p.iterator = some it → it.DataKey.Database = sel ∧ it.Mapper = defaultMapper

/-- An ASCII decimal digit, `'0'` to `'9'`. -/
def isDigit (b : UInt8) : Prop :=
  0x30 ≤ b.toNat ∧ b.toNat ≤ 0x39

instance (b : UInt8) : Decidable (isDigit b) := by
  unfold isDigit; exact inferInstance

/-- The number a sequence of ASCII decimal digits writes. -/
def digitsValue : Bytes → Nat → Nat
  | [], acc => acc
  | b :: rest, acc => digitsValue rest (acc * 10 + (b.toNat - 0x30))

/-- The four bytes are four ASCII decimal digits whose number is in the range
of supported versions, 1 to 9. -/
def fourDigitVersion (b0 b1 b2 b3 : UInt8) : Prop :=
  isDigit b0 ∧ isDigit b1 ∧ isDigit b2 ∧ isDigit b3 ∧
    1 ≤ digitsValue [b0, b1, b2, b3] 0 ∧ digitsValue [b0, b1, b2, b3] 0 ≤ 9

/-- The four bytes are a plus sign and three ASCII decimal digits whose number
is in the range of supported versions, 1 to 9. -/
def plusSignVersion (b0 b1 b2 b3 : UInt8) : Prop :=
  b0 = 0x2B ∧ isDigit b1 ∧ isDigit b2 ∧ isDigit b3 ∧
    1 ≤ digitsValue [b1, b2, b3] 0 ∧ digitsValue [b1, b2, b3] 0 ≤ 9

instance (b0 b1 b2 b3 : UInt8) : Decidable (fourDigitVersion b0 b1 b2 b3) := by
  unfold fourDigitVersion; exact inferInstance

instance (b0 b1 b2 b3 : UInt8) : Decidable (plusSignVersion b0 b1 b2 b3) := by
  unfold plusSignVersion; exact inferInstance

/-- The call returned an error and no record. -/
def returnedError : Option (Except Err Record) → Bool
  | some (.error _) => true
  | _ => false

/-- The index an emitted entry carries; nothing for any other outcome. -/
def entryIndex : Except Err Record → Option Int
  | .ok (.entry e) => some e.Index
  | _ => none

/-- How far the parser is from reading the next opcode byte: 2 with a data type
pending and no iterator yet, 1 with an iterator in use, 0 with no data type
pending. -/
def Parser.phase (p : Parser) : Nat :=
  match p.dataType, p.iterator with
  | none, _ => 0
  | some _, some _ => 1
  | some _, none => 2

/-- The measure that every tail call of `Next` lowers: three for each unread
byte, plus the phase. -/
def Parser.measure (p : Parser) : Nat :=
  3 * p.reader.length + p.phase

/-- The error is the unsupported-data-type error of `readData`. -/
def Err.isUnsupportedDataType : Err → Bool
  | .unsupportedDataType _ => true
  | _ => false

/-- A read from `r` that leaves no more bytes than it found and does not fail
with the unsupported-data-type error. -/
def goodRead {α : Type} (out : Except Err α × Bytes) (r : Bytes) : Prop :=
  out.2.length ≤ r.length ∧ ∀ e, out.1 = .error e → e.isUnsupportedDataType = false

/-- The value a SelectDB opcode reads in one pass, counting only a value that
was read: when no data type is pending and the byte after the header is the
SelectDB opcode 0xFE, the length that follows, provided it decodes; a pass
that consumes no SelectDB opcode, or one whose length does not decode, reads no
value. -/
def Parser.selectDBRead (p : Parser) : Option Int :=
  match p.dataType, p.afterHeader with
  | none, some (b :: rest) =>
    if b = opCodeSelectDB then
      match readLength rest with
      | (.ok v, _) => some v
      | (.error _, _) => none
    else none
  | _, _ => none

/-- The last value a SelectDB opcode read once the call `p.NextFuel fuel` is
over, `sel` being that value before the call: the passes of the call are
followed with `Parser.selectDBRead`. -/
def Parser.readAfter : Nat → Int → Parser → Int
  | 0, sel, _ => sel
  | fuel + 1, sel, p =>
    match p.step with
    | .ret _ _ => (p.selectDBRead).getD sel
    | .loop p1 => Parser.readAfter fuel ((p.selectDBRead).getD sel) p1

/-- What one pass does to the pending expiry, read off the input bytes and not
off `p.expiry`: when no data type is pending and the byte after the header is
an expiry opcode (0xFC with a time in milliseconds, 0xFD with a time in
seconds), the pass reads that opcode and the time after it becomes the pending
expiry (no expiry when the time does not decode); any other pass reads no
expiry opcode. -/
def Parser.expiryConsumed (p : Parser) : Option (Option Time) :=
  match p.dataType, p.afterHeader with
  | none, some (b :: rest) =>
    if b = opCodeExpireTimeMS then
      match readMillisecondsTime rest with
      | (.ok t, _) => some (some t)
      | (.error _, _) => some none
    else if b = opCodeExpireTime then
      match readSecondsTime rest with
      | (.ok t, _) => some (some t)
      | (.error _, _) => some none
    else none
  | _, _ => none

/-- The pending expiry once the call `p.NextFuel fuel` is over, `exp` being the
pending expiry before the call: it changes at the passes that read an expiry
opcode and at no other. -/
def Parser.pendingAfter : Nat → Option Time → Parser → Option Time
  | 0, exp, _ => exp
  | fuel + 1, exp, p =>
    match p.step with
    | .ret _ _ => (p.expiryConsumed).getD exp
    | .loop p1 => Parser.pendingAfter fuel ((p.expiryConsumed).getD exp) p1

/-- Some pass of the call `p.NextFuel fuel` reads an expiry opcode. -/
def Parser.readsExpiry : Nat → Parser → Bool
  | 0, _ => false
  | fuel + 1, p =>
    (p.expiryConsumed).isSome ||
      match p.step with
      | .ret _ _ => false
      | .loop p1 => Parser.readsExpiry fuel p1

/-! ## Properties of the intset iterator -/

theorem readFull_ok (n : Nat) (r : Bytes) (h : n ≤ r.length) :
    readFull n r = (.ok (r.take n), r.drop n) := by
  simp [readFull, h]

theorem readFull_append (a b : Bytes) : readFull a.length (a ++ b) = (.ok a, b) := by
  simp [readFull]

theorem intSet_next_done (i : intSetIterator) (r : Bytes) (h : i.done = true) :
    i.Next r = (.error .EOF, i, r) := by
  simp [intSetIterator.Next, h]

theorem intSet_run_done (m : Nat) : ∀ (i : intSetIterator) (r : Bytes), i.done = true →
    intSetIterator.run m i r = List.replicate m (.error .EOF) := by
  induction m with
  | zero => intros; rfl
  | succ m ih =>
    intro i r h
    simp [intSetIterator.run, intSet_next_done i r h, ih i r h, List.replicate_succ]

theorem intSet_next_slice (i : intSetIterator) (r buf : Bytes) (hd : i.done = false)
    (hb : i.buf = some buf) (hm : i.Mapper = defaultMapper) (hi : i.index = i.length) :
    i.Next r = (.ok (.slice { DataKey := i.DataKey, Value := i.values }),
      { i with done := true, buf := none }, r) := by
  simp [intSetIterator.Next, hd, hb, hm, hi, defaultMapper]

theorem intSet_readValue (e : Nat) (he : e = 2 ∨ e = 4 ∨ e = 8) (i : intSetIterator)
    (hi : i.encoding = e) (buf : Bytes) (h : e ≤ buf.length) :
    i.readValue buf = (.ok (intSetValue e buf 0), buf.drop e) := by
  rcases he with rfl | rfl | rfl <;>
    simp [intSetIterator.readValue, hi, ReadInt, readFull_ok _ _ h, intSetValue]

theorem intSet_next_entry (e : Nat) (he : e = 2 ∨ e = 4 ∨ e = 8) (i : intSetIterator)
    (r buf : Bytes) (hd : i.done = false) (hb : i.buf = some buf)
    (hm : i.Mapper = defaultMapper) (hi : i.index ≠ i.length) (henc : i.encoding = e)
    (h : e ≤ buf.length) :
    i.Next r =
      (.ok (.entry
        { DataKey := i.DataKey, Index := i.index, Length := i.length,
          Value := intSetValue e buf 0 }),
        { i with
          buf := some (buf.drop e), index := i.index + 1,
          values := i.values ++ [intSetValue e buf 0] }, r) := by
  simp [intSetIterator.Next, hd, hb, hm, hi, defaultMapper, intSet_readValue e he i henc buf h]

theorem intSet_run_entries (e : Nat) (he : e = 2 ∨ e = 4 ∨ e = 8) (key : DataKey) (r : Bytes)
    (m : Nat) : ∀ (k j : Nat) (vals : List Value) (buf : Bytes), k * e ≤ buf.length →
    intSetIterator.run (k + 1 + m)
      { DataKey := key, Mapper := defaultMapper, buf := some buf, done := false,
        encoding := e, index := (j : Int), length := ((j + k : Nat) : Int), values := vals } r
    = (List.range k).map (fun t => .ok (.entry
          { DataKey := key, Index := ((j + t : Nat) : Int), Length := ((j + k : Nat) : Int),
            Value := intSetValue e buf t }))
      ++ [.ok (.slice { DataKey := key, Value := vals ++ (List.range k).map (intSetValue e buf) })]
      ++ List.replicate m (.error .EOF) := by
  intro k
  induction k with
  | zero =>
    intro j vals buf _
    rw [show 0 + 1 + m = m + 1 by omega, intSetIterator.run,
      intSet_next_slice _ r buf rfl rfl rfl rfl]
    simp [intSet_run_done]
  | succ k ih =>
    intro j vals buf hlen
    have hle : e ≤ buf.length := by
      have : e ≤ (k + 1) * e := Nat.le_mul_of_pos_left e (Nat.succ_pos k)
      omega
    have hrest : k * e ≤ (buf.drop e).length := by
      simp only [List.length_drop]
      have : (k + 1) * e = k * e + e := by ring
      omega
    have hne : ((j : Nat) : Int) ≠ ((j + (k + 1) : Nat) : Int) := by
      intro h; have := Int.ofNat.inj h; omega
    have hshift : ∀ t, intSetValue e (buf.drop e) t = intSetValue e buf (t + 1) := by
      intro t
      simp [intSetValue, List.drop_drop, Nat.add_mul, Nat.add_comm]
    have hrun := ih (j + 1) (vals ++ [intSetValue e buf 0]) (buf.drop e) hrest
    have hidx : ((j : Nat) : Int) + 1 = ((j + 1 : Nat) : Int) := by push_cast; ring
    have hlen2 : j + (k + 1) = j + 1 + k := by omega
    rw [show k + 1 + 1 + m = (k + 1 + m) + 1 by omega, intSetIterator.run,
      intSet_next_entry e he _ r buf rfl rfl rfl hne rfl hle]
    simp only [hidx, hlen2]
    rw [hrun]
    simp [List.range_succ_eq_map, hshift, Nat.add_assoc, Nat.add_comm 1, Function.comp_def]

theorem intSet_next_head (key : DataKey) (r r1 encBytes lenBytes payload : Bytes)
    (henc : encBytes.length = 4) (hlen : lenBytes.length = 4)
    (hread : readStringEncoding r = (.ok (encBytes ++ lenBytes ++ payload), r1)) :
    intSetIterator.Next { DataKey := key, Mapper := defaultMapper } r =
      (.ok (.head { DataKey := key, Length := (leNat lenBytes : Int) }),
        { DataKey := key, Mapper := defaultMapper, buf := some payload,
          encoding := leNat encBytes, length := (leNat lenBytes : Int) }, r1) := by
  have h1 : readFull 4 (encBytes ++ lenBytes ++ payload) = (.ok encBytes, lenBytes ++ payload) := by
    have := readFull_append encBytes (lenBytes ++ payload)
    rw [henc] at this; simpa using this
  have h2 : readFull 4 (lenBytes ++ payload) = (.ok lenBytes, payload) := by
    have := readFull_append lenBytes payload
    rw [hlen] at this; exact this
  rw [List.append_assoc] at h1
  simp [intSetIterator.Next, hread, ReadUint32, readUint32, h1, h2, defaultMapper]

/-- C1: for an intset blob made of a 4-byte little-endian encoding `e` in
{2, 4, 8}, a 4-byte little-endian length `L` and at least `L * e` further bytes,
the successive calls to `intSetIterator.Next` with the mapper that returns its
argument yield one head with Length `L`, then for `i = 0..L-1` in order the entry
with Index `i`, Length `L` and the `i`-th `e`-byte little-endian signed integer,
then one slice with those `L` integers in order, then the exhaustion marker on
every further call; all records carry the iterator's DataKey. -/
theorem intSet_emits_head_entries_slice (e L : Nat) (he : e = 2 ∨ e = 4 ∨ e = 8)
    (encBytes lenBytes payload : Bytes)
    (henc : encBytes.length = 4) (hencv : leNat encBytes = e)
    (hlen : lenBytes.length = 4) (hlenv : leNat lenBytes = L)
    (hpay : L * e ≤ payload.length)
    (key : DataKey) (r r1 : Bytes)
    (hread : readStringEncoding r = (.ok (encBytes ++ lenBytes ++ payload), r1)) (m : Nat) :
    intSetIterator.run (L + 2 + m) { DataKey := key, Mapper := defaultMapper } r =
      [.ok (.head { DataKey := key, Length := (L : Int) })]
      ++ (List.range L).map (fun i => .ok (.entry
          { DataKey := key, Index := (i : Int), Length := (L : Int),
            Value := intSetValue e payload i }))
      ++ [.ok (.slice { DataKey := key, Value := (List.range L).map (intSetValue e payload) })]
      ++ List.replicate m (.error .EOF) := by
  subst hencv hlenv
  rw [show leNat lenBytes + 2 + m = (leNat lenBytes + 1 + m) + 1 by omega, intSetIterator.run,
    intSet_next_head key r r1 encBytes lenBytes payload henc hlen hread]
  have := intSet_run_entries (leNat encBytes) he key r1 m (leNat lenBytes) 0 [] payload hpay
  simp only [Nat.zero_add, Nat.cast_zero] at this
  rw [this]
  simp

theorem intSet_emits_head_entries_slice_witness :
    intSetIterator.run (3 + 2 + 1)
        { DataKey := ⟨0, [0x6B], none⟩, Mapper := defaultMapper }
        [14, 2, 0, 0, 0, 3, 0, 0, 0, 1, 0, 2, 0, 0xFF, 0xFF, 0xAA] =
      [.ok (.head { DataKey := ⟨0, [0x6B], none⟩, Length := 3 })]
      ++ (List.range 3).map (fun i => .ok (.entry
          { DataKey := ⟨0, [0x6B], none⟩, Index := (i : Int), Length := 3,
            Value := intSetValue 2 [1, 0, 2, 0, 0xFF, 0xFF] i }))
      ++ [.ok (.slice
            { DataKey := ⟨0, [0x6B], none⟩,
              Value := (List.range 3).map (intSetValue 2 [1, 0, 2, 0, 0xFF, 0xFF]) })]
      ++ List.replicate 1 (.error .EOF) :=
  intSet_emits_head_entries_slice 2 3 (Or.inl rfl) [2, 0, 0, 0] [3, 0, 0, 0]
    [1, 0, 2, 0, 0xFF, 0xFF] rfl rfl rfl rfl (by decide) ⟨0, [0x6B], none⟩
    [14, 2, 0, 0, 0, 3, 0, 0, 0, 1, 0, 2, 0, 0xFF, 0xFF, 0xAA] [0xAA] (by rfl) 1

/-! ## Properties of the zipmap iterator -/

theorem zipMap_readLength_ok (enc rest : Bytes) (n : Nat) (h : zipMapLengthOf enc = some n) :
    zipMapIterator.readLength (enc ++ rest) = (.ok (n : Int), rest) := by
  match enc, h with
  | [b], h =>
    simp only [zipMapLengthOf] at h
    split at h
    · rename_i hb
      simp only [Option.some.injEq] at h
      subst h
      simp [zipMapIterator.readLength, readByte, hb]
    · simp at h
  | [b, b0, b1, b2, b3], h =>
    simp only [zipMapLengthOf] at h
    split at h
    · rename_i hb
      simp only [Option.some.injEq] at h
      subst h hb
      have h254 : ¬ (254 % UInt8.size < 254) := by decide
      simp [zipMapIterator.readLength, readByte, h254, readUint32, readFull]
    · simp at h
  | [], h => simp [zipMapLengthOf] at h
  | [_, _], h => simp [zipMapLengthOf] at h
  | [_, _, _], h => simp [zipMapLengthOf] at h
  | [_, _, _, _], h => simp [zipMapLengthOf] at h
  | _ :: _ :: _ :: _ :: _ :: _ :: _, h => simp [zipMapLengthOf] at h

theorem zipMap_readLength_end (rest : Bytes) :
    zipMapIterator.readLength (0xFF :: rest) = (.error .EOF, rest) := by
  have h1 : ¬ (UInt8.toNat 0xFF < 254) := by decide
  have h2 : ¬ ((0xFF : UInt8) = 254) := by decide
  simp [zipMapIterator.readLength, readByte, h1, h2]

theorem zipMap_next_done (z : zipMapIterator) (r : Bytes) (h : z.done = true) :
    z.Next r = (.error .EOF, z, r) := by
  simp [zipMapIterator.Next, h]

theorem zipMap_run_done (m : Nat) : ∀ (z : zipMapIterator) (r : Bytes), z.done = true →
    zipMapIterator.run m z r = List.replicate m (.error .EOF) := by
  induction m with
  | zero => intros; rfl
  | succ m ih =>
    intro z r h
    simp [zipMapIterator.run, zipMap_next_done z r h, ih z r h, List.replicate_succ]

theorem zipMap_next_head (key : DataKey) (r r1 body : Bytes) (hint : UInt8)
    (hread : readString r = (.ok (hint :: body), r1)) :
    zipMapIterator.Next { DataKey := key, Mapper := defaultMapper } r =
      (.ok (.head { DataKey := key, Length := (hint.toNat : Int) }),
        { DataKey := key, Mapper := defaultMapper, buf := some body,
          length := (hint.toNat : Int) }, r1) := by
  simp [zipMapIterator.Next, hread, readByte, defaultMapper]

theorem zipMap_next_slice (z : zipMapIterator) (r rest : Bytes) (hd : z.done = false)
    (hb : z.buf = some (0xFF :: rest)) (hm : z.Mapper = defaultMapper) :
    z.Next r =
      (.ok (.slice { DataKey := z.DataKey, Length := z.length, Value := z.values }),
        { z with done := true, buf := none }, r) := by
  simp [zipMapIterator.Next, hd, hb, hm, zipMap_readLength_end, defaultMapper]

theorem zipMap_next_entry (z : zipMapIterator) (r rest : Bytes) (p : zipMapPair)
    (hp : p.wellFormed) (hd : z.done = false) (hb : z.buf = some (p.bytes ++ rest))
    (hm : z.Mapper = defaultMapper) :
    z.Next r =
      (.ok (.entry
        { DataKey := z.DataKey, Index := z.index, Length := z.length, Value := p.element }),
        { z with
          buf := some rest, index := z.index + 1, values := z.values ++ [p.element] }, r) := by
  obtain ⟨hk, hv⟩ := hp
  have e1 : p.bytes ++ rest
      = p.keyLength ++ (p.key ++ (p.valueLength ++ (p.free :: (p.value ++ rest)))) := by
    simp [zipMapPair.bytes]
  have k1 := zipMap_readLength_ok p.keyLength
    (p.key ++ (p.valueLength ++ (p.free :: (p.value ++ rest)))) _ hk
  have k2 := readFull_append p.key (p.valueLength ++ (p.free :: (p.value ++ rest)))
  have k3 := zipMap_readLength_ok p.valueLength (p.free :: (p.value ++ rest)) _ hv
  have k4 := readFull_append p.value rest
  simp [zipMapIterator.Next, hd, hb, hm, e1, k1, k2, k3, k4, readByte, defaultMapper,
    zipMapPair.element]

theorem zipMap_run_entries (key : DataKey) (len : Int) (r : Bytes) (m : Nat) :
    ∀ (pairs : List zipMapPair) (j : Nat) (vals : List Value),
    (∀ p ∈ pairs, p.wellFormed) →
    zipMapIterator.run (pairs.length + 1 + m)
      { DataKey := key, Mapper := defaultMapper, buf := some (zipMapPairs pairs ++ [0xFF]),
        index := (j : Int), length := len, values := vals } r
    = zipMapEntries key len j pairs
      ++ [.ok (.slice
            { DataKey := key, Length := len, Value := vals ++ pairs.map zipMapPair.element })]
      ++ List.replicate m (.error .EOF) := by
  intro pairs
  induction pairs with
  | nil =>
    intro j vals _
    rw [show ([] : List zipMapPair).length + 1 + m = m + 1 by simp; omega, zipMapIterator.run,
      zipMap_next_slice _ r [] rfl rfl rfl]
    simp [zipMap_run_done, zipMapEntries]
  | cons p ps ih =>
    intro j vals hwf
    have hp : p.wellFormed := hwf p (List.mem_cons_self _ _)
    have hps : ∀ q ∈ ps, q.wellFormed := fun q hq => hwf q (List.mem_cons_of_mem _ hq)
    have hidx : ((j : Nat) : Int) + 1 = ((j + 1 : Nat) : Int) := by push_cast; ring
    rw [show (p :: ps).length + 1 + m = (ps.length + 1 + m) + 1 by simp; omega,
      zipMapIterator.run,
      zipMap_next_entry _ r (zipMapPairs ps ++ [0xFF]) p hp rfl
        (by simp [zipMapPairs]) rfl]
    simp only [hidx]
    rw [ih (j + 1) (vals ++ [p.element]) hps]
    simp [zipMapEntries]

/-- C2: for a zipmap blob made of a hint byte `h`, `n` pairs (key length, key
bytes, value length, one free byte, value bytes, each length one byte below 254
or the byte 254 and four little-endian bytes) and the terminator 0xFF, the
successive calls to `zipMapIterator.Next` with the mapper that returns its
argument yield one head with Length `h`, then for `i = 0..n-1` in order the
entry with Index `i` whose value is the pair of the `i`-th key and value bytes,
then one slice holding those `n` pairs in order, then the exhaustion marker on
every further call. -/
theorem zipMap_emits_head_entries_slice (hint : UInt8) (pairs : List zipMapPair)
    (hwf : ∀ p ∈ pairs, p.wellFormed) (key : DataKey) (r r1 : Bytes)
    (hread : readString r = (.ok (zipMapBlob hint pairs), r1)) (m : Nat) :
    zipMapIterator.run (pairs.length + 2 + m) { DataKey := key, Mapper := defaultMapper } r =
      [.ok (.head { DataKey := key, Length := (hint.toNat : Int) })]
      ++ zipMapEntries key (hint.toNat : Int) 0 pairs
      ++ [.ok (.slice
            { DataKey := key, Length := (hint.toNat : Int),
              Value := pairs.map zipMapPair.element })]
      ++ List.replicate m (.error .EOF) := by
  rw [show pairs.length + 2 + m = (pairs.length + 1 + m) + 1 by omega, zipMapIterator.run,
    zipMap_next_head key r r1 _ hint hread]
  have := zipMap_run_entries key (hint.toNat : Int) r1 m pairs 0 [] hwf
  simp only [Nat.cast_zero] at this
  rw [this]
  simp

theorem zipMap_emits_head_entries_slice_witness :
    zipMapIterator.run (2 + 2 + 1) { DataKey := ⟨0, [0x68], none⟩, Mapper := defaultMapper }
        [15, 2, 1, 0x61, 1, 0, 0x78, 254, 1, 0, 0, 0, 0x62, 0, 0, 0xFF, 0xAA] =
      [.ok (.head { DataKey := ⟨0, [0x68], none⟩, Length := 2 })]
      ++ zipMapEntries ⟨0, [0x68], none⟩ 2 0
          [⟨[1], [0x61], [1], 0, [0x78]⟩, ⟨[254, 1, 0, 0, 0], [0x62], [0], 0, []⟩]
      ++ [.ok (.slice
            { DataKey := ⟨0, [0x68], none⟩, Length := 2,
              Value := [.hash ⟨[0x61], [0x78]⟩, .hash ⟨[0x62], []⟩] })]
      ++ List.replicate 1 (.error .EOF) :=
  zipMap_emits_head_entries_slice 2
    [⟨[1], [0x61], [1], 0, [0x78]⟩, ⟨[254, 1, 0, 0, 0], [0x62], [0], 0, []⟩]
    (by decide) ⟨0, [0x68], none⟩
    [15, 2, 1, 0x61, 1, 0, 0x78, 254, 1, 0, 0, 0, 0x62, 0, 0, 0xFF, 0xAA] [0xAA] (by rfl) 1

/-! ## Properties of the parser -/

theorem NextFuel_ret (n : Nat) (p p1 : Parser) (res : Except Err Record)
    (h : p.step = .ret res p1) : p.NextFuel (n + 1) = some (res, p1) := by
  simp [Parser.NextFuel, h]

theorem NextFuel_loop (n : Nat) (p p1 : Parser) (h : p.step = .loop p1) :
    p.NextFuel (n + 1) = p1.NextFuel n := by
  simp [Parser.NextFuel, h]

theorem header_initialized (p : Parser) (h : p.initialized = true) : p.header = (none, p) := by
  simp [Parser.header, h]

theorem step_initialized (p : Parser) (h : p.initialized = true) : p.step = p.body := by
  simp [Parser.step, header_initialized p h]

/-- The step of an initialized parser with no data type pending whose input
starts with a byte that is none of the nine opcodes: the key is read. -/
theorem step_dataType (p : Parser) (b : UInt8) (rest : Bytes)
    (hinit : p.initialized = true) (hdt : p.dataType = none) (hr : p.reader = b :: rest)
    (hb : b.toNat < 247) : p.step = p.readKey b rest := by
  have h1 : b ≠ opCodeExpireTimeMS := by rintro rfl; revert hb; decide
  have h2 : b ≠ opCodeExpireTime := by rintro rfl; revert hb; decide
  have h3 : b ≠ opCodeIdle := by rintro rfl; revert hb; decide
  have h4 : b ≠ opCodeFreq := by rintro rfl; revert hb; decide
  have h5 : b ≠ opCodeSelectDB := by rintro rfl; revert hb; decide
  have h6 : b ≠ opCodeAux := by rintro rfl; revert hb; decide
  have h7 : b ≠ opCodeResizeDB := by rintro rfl; revert hb; decide
  have h8 : b ≠ opCodeModuleAux := by rintro rfl; revert hb; decide
  have h9 : b ≠ opCodeEOF := by rintro rfl; revert hb; decide
  simp [step_initialized p hinit, Parser.body, hdt, hr, readByte,
    h1, h2, h3, h4, h5, h6, h7, h8, h9]

theorem step_pending (p : Parser) (dt : UInt8) (hinit : p.initialized = true)
    (hdt : p.dataType = some dt) : p.step = p.readData dt := by
  simp [step_initialized p hinit, Parser.body, hdt]

/-- The two passes of `Next` over data-type byte 0, a key and a value. -/
theorem Next_typeString (p : Parser) (rest k v r1 r2 : Bytes)
    (hinit : p.initialized = true) (hdt : p.dataType = none) (hit : p.iterator = none)
    (hr : p.reader = typeString :: rest)
    (hk : readString rest = (.ok k, r1)) (hv : readString r1 = (.ok v, r2)) :
    p.Next = some
      (.ok (.stringData
        { DataKey := { Database := p.db, Key := k, Expiry := p.expiry }, Value := v }),
        { p with reader := r2, key := k, dataType := none }) := by
  have s1 : p.step = .loop { p with reader := r1, key := k, dataType := some typeString } := by
    rw [step_dataType p typeString rest hinit hdt hr (by decide)]
    simp [Parser.readKey, hk]
  have s2 : Parser.step { p with reader := r1, key := k, dataType := some typeString }
      = .ret (.ok (.stringData
          { DataKey := { Database := p.db, Key := k, Expiry := p.expiry }, Value := v }))
        { p with reader := r2, key := k, dataType := none } := by
    rw [step_pending { p with reader := r1, key := k, dataType := some typeString }
      typeString hinit rfl]
    simp [Parser.readData, hit, hv]
  rw [Parser.Next, show 3 * p.reader.length + 3 = (3 * p.reader.length + 1) + 1 + 1 by omega,
    NextFuel_loop _ _ _ s1, NextFuel_ret _ _ _ _ s2]

/-- C3: for an initialized parser that is between keys (no data type pending,
no iterator) with database `p.db` and pending expiry `p.expiry`, if the input
goes on with the data-type byte 0, an encoded key `k` and an encoded value `v`,
then `Next` returns the record `StringData` with that database, key `k`, that
expiry and value `v`, and the parser it leaves has consumed exactly these bytes
and has no data type pending, so that the next call reads a fresh opcode
byte. -/
theorem Next_string_record (p : Parser) (rest k v r1 r2 : Bytes)
    (hinit : p.initialized = true) (hdt : p.dataType = none) (hit : p.iterator = none)
    (hr : p.reader = typeString :: rest)
    (hk : readString rest = (.ok k, r1)) (hv : readString r1 = (.ok v, r2)) :
    p.Next = some
      (.ok (.stringData
        { DataKey := { Database := p.db, Key := k, Expiry := p.expiry }, Value := v }),
        { p with reader := r2, key := k, dataType := none }) := by
  have s1 : p.step = .loop { p with reader := r1, key := k, dataType := some typeString } := by
    rw [step_dataType p typeString rest hinit hdt hr (by decide)]
    simp [Parser.readKey, hk]
  have s2 : Parser.step { p with reader := r1, key := k, dataType := some typeString }
      = .ret (.ok (.stringData
          { DataKey := { Database := p.db, Key := k, Expiry := p.expiry }, Value := v }))
        { p with reader := r2, key := k, dataType := none } := by
    rw [step_pending { p with reader := r1, key := k, dataType := some typeString }
      typeString hinit rfl]
    simp [Parser.readData, hit, hv]
  rw [Parser.Next, show 3 * p.reader.length + 3 = (3 * p.reader.length + 1) + 1 + 1 by omega,
    NextFuel_loop _ _ _ s1, NextFuel_ret _ _ _ _ s2]

theorem Next_string_record_witness :
    Parser.Next
        { reader := [0, 3, 0x66, 0x6F, 0x6F, 3, 0x62, 0x61, 0x72, 0xFF], db := 0,
          initialized := true, expiry := some ⟨1700000000000⟩ } =
      some
        (.ok (.stringData
          { DataKey := { Database := 0, Key := [0x66, 0x6F, 0x6F],
                         Expiry := some ⟨1700000000000⟩ },
            Value := [0x62, 0x61, 0x72] }),
          { reader := [0xFF], db := 0, initialized := true, expiry := some ⟨1700000000000⟩,
            key := [0x66, 0x6F, 0x6F], dataType := none }) :=
  Next_string_record
    { reader := [0, 3, 0x66, 0x6F, 0x6F, 3, 0x62, 0x61, 0x72, 0xFF], db := 0,
      initialized := true, expiry := some ⟨1700000000000⟩ }
    [3, 0x66, 0x6F, 0x6F, 3, 0x62, 0x61, 0x72, 0xFF] [0x66, 0x6F, 0x6F] [0x62, 0x61, 0x72]
    [3, 0x62, 0x61, 0x72, 0xFF] [0xFF] rfl rfl rfl rfl (by rfl) (by rfl)



/-! ### The selected database -/

theorem seq_next_key (s : seqIterator) (r : Bytes) (hm : s.Mapper = defaultMapper) :
    (s.Next r).2.1.DataKey = s.DataKey ∧ (s.Next r).2.1.Mapper = defaultMapper ∧
      ∀ rec, (s.Next r).1 = .ok rec → rec.DataKey? = some s.DataKey := by
  simp only [seqIterator.Next, hm, defaultMapper]
  repeat' split
  all_goals simp_all [defaultMapper, Record.DataKey?]

theorem zipMap_next_key (z : zipMapIterator) (r : Bytes) (hm : z.Mapper = defaultMapper) :
    (z.Next r).2.1.DataKey = z.DataKey ∧ (z.Next r).2.1.Mapper = defaultMapper ∧
      ∀ rec, (z.Next r).1 = .ok rec → rec.DataKey? = some z.DataKey := by
  simp only [zipMapIterator.Next, hm, defaultMapper]
  repeat' split
  all_goals simp_all [defaultMapper, Record.DataKey?]

theorem iterator_next_key (it : iterator) (r : Bytes) (hm : it.Mapper = defaultMapper) :
    (it.Next r).2.1.DataKey = it.DataKey ∧ (it.Next r).2.1.Mapper = defaultMapper ∧
      ∀ rec, (it.Next r).1 = .ok rec → rec.DataKey? = some it.DataKey := by
  cases it with
  | seq s => simpa [iterator.Next, iterator.DataKey, iterator.Mapper] using seq_next_key s r hm
  | zipMap z =>
    simpa [iterator.Next, iterator.DataKey, iterator.Mapper] using zipMap_next_key z r hm

/-- The header check touches nothing but the reader and the flag. -/
theorem header_fields (p : Parser) :
    (p.header).2.db = p.db ∧ (p.header).2.dataType = p.dataType ∧
      (p.header).2.iterator = p.iterator ∧ (p.header).2.expiry = p.expiry ∧
      (p.header).2.key = p.key := by
  unfold Parser.header
  repeat' split
  all_goals simp

theorem readData_inv (sel : Int) (p : Parser) (dt : UInt8) (hdt : p.dataType = some dt)
    (h : p.Inv sel) :
    (p.readData dt).parser.Inv sel ∧
      ∀ res p1, p.readData dt = .ret (.ok res) p1 → ∀ k, res.DataKey? = some k →
        k.Database = sel := by
  obtain ⟨hdb, _, hit⟩ := h
  cases hi : p.iterator with
  | some it =>
    obtain ⟨hk, hm⟩ := hit it hi
    obtain ⟨k1, k2, k3⟩ := iterator_next_key it p.reader hm
    rcases hn : it.Next p.reader with ⟨res, it1, r1⟩
    rw [hn] at k1 k2 k3
    simp only at k1 k2 k3
    cases res with
    | error e =>
      by_cases he : e = .EOF
      · simp [Parser.readData, hi, hn, he, Parser.Inv, Step.parser, hdb]
      · simp [Parser.readData, hi, hn, he, Parser.Inv, Step.parser, hdb, hdt]
        exact ⟨by rw [k1]; exact hk, k2⟩
    | ok v =>
      simp only [Parser.readData, hi, hn, Step.parser, Parser.Inv, hdb, hdt, Step.ret.injEq,
        Except.ok.injEq]
      refine ⟨⟨trivial, by simp, ?_⟩, ?_⟩
      · intro it2 h2
        simp only [Option.some.injEq] at h2
        subst h2
        exact ⟨by rw [k1]; exact hk, k2⟩
      · rintro res p1 ⟨rfl, -⟩ k hk2
        have := k3 v rfl
        rw [this] at hk2
        simp only [Option.some.injEq] at hk2
        rw [← hk2]; exact hk
  | none =>
    simp only [Parser.readData, hi]
    repeat' split
    all_goals
      simp_all [Parser.Inv, Step.parser, Record.DataKey?, iterator.DataKey, iterator.Mapper,
        listMapper, setMapper, sortedSetMapper, hashMapper]


theorem readKey_inv (sel : Int) (p : Parser) (b : UInt8) (r : Bytes)
    (h : p.Inv sel) (hdt : p.dataType = none) :
    (p.readKey b r).parser.Inv sel ∧
      ∀ res p1, p.readKey b r = .ret (.ok res) p1 → res.DataKey? = none := by
  obtain ⟨hdb, hnone, hit⟩ := h
  have hi := hnone hdt
  unfold Parser.readKey
  split <;> simp [Parser.Inv, Step.parser, hdb, hi]

theorem body_none_inv (sel : Int) (p : Parser) (hdt : p.dataType = none) (h : p.Inv sel) :
    p.body.parser.Inv
        (match p.reader with
          | b :: rest =>
            if b = opCodeSelectDB then
              match readLength rest with
              | (.ok v, _) => v
              | (.error _, _) => 0
            else sel
          | [] => sel) ∧
      ∀ res p1, p.body = .ret (.ok res) p1 → res.DataKey? = none := by
  obtain ⟨hdb, hnone, hit⟩ := h
  have hi := hnone hdt
  cases hr : p.reader with
  | nil => simp [Parser.body, hdt, hr, readByte, Parser.Inv, Step.parser, hdb, hi]
  | cons b rest =>
    have hk := readKey_inv sel p b rest ⟨hdb, hnone, hit⟩ hdt
    simp only [Parser.body, hdt, hr, readByte]
    by_cases h5 : b = opCodeSelectDB
    · subst h5
      have e1 : (opCodeSelectDB = opCodeExpireTimeMS) = False := eq_false (by decide)
      have e2 : (opCodeSelectDB = opCodeExpireTime) = False := eq_false (by decide)
      have e3 : (opCodeSelectDB = opCodeIdle) = False := eq_false (by decide)
      have e4 : (opCodeSelectDB = opCodeFreq) = False := eq_false (by decide)
      simp only [e1, e2, e3, e4, if_true, if_false]
      split <;> simp_all [Parser.Inv, Step.parser]
    · simp only [h5, if_false]
      repeat' split
      all_goals first
        | exact hk
        | simp [Parser.Inv, Step.parser, hdb, hi, Record.DataKey?]

theorem step_inv (sel : Int) (p : Parser) (h : p.Inv sel) :
    p.step.parser.Inv (p.selected sel) ∧
      ∀ res p1, p.step = .ret (.ok res) p1 → ∀ k, res.DataKey? = some k →
        k.Database = sel ∧ p.selected sel = sel := by
  obtain ⟨f1, f2, f3, -, -⟩ := header_fields p
  rcases hh : p.header with ⟨oe, p'⟩
  rw [hh] at f1 f2 f3
  simp only at f1 f2 f3
  have h' : p'.Inv sel := by
    obtain ⟨hdb, hnone, hit⟩ := h
    exact ⟨by rw [f1]; exact hdb, by rw [f2, f3]; exact hnone, by rw [f3]; exact hit⟩
  cases oe with
  | some e =>
    have hs : p.selected sel = sel := by
      simp [Parser.selected, Parser.selectDBConsumed, Parser.afterHeader, hh]
    simp [Parser.step, hh, hs, Step.parser, h']
  | none =>
    cases hdt : p'.dataType with
    | some dt =>
      have hs : p.selected sel = sel := by
        simp [Parser.selected, Parser.selectDBConsumed, Parser.afterHeader, hh, ← f2, hdt]
      have := readData_inv sel p' dt hdt h'
      simp only [Parser.step, hh, hs, Parser.body, hdt]
      exact ⟨this.1, fun res p1 h1 k hk => ⟨this.2 res p1 h1 k hk, trivial⟩⟩
    | none =>
      have := body_none_inv sel p' hdt h'
      have hs : p.selected sel = (match p'.reader with
          | b :: rest =>
            if b = opCodeSelectDB then
              match readLength rest with
              | (.ok v, _) => v
              | (.error _, _) => 0
            else sel
          | [] => sel) := by
        simp only [Parser.selected, Parser.selectDBConsumed, Parser.afterHeader, hh, ← f2, hdt]
        repeat' split
        all_goals simp_all
      rw [hs]
      simp only [Parser.step, hh]
      refine ⟨this.1, fun res p1 h1 k hk => ?_⟩
      rw [this.2 res p1 h1] at hk
      exact absurd hk (by simp)


theorem tracked_inv (sel : Int) (p : Parser) (h : Tracked sel p) : p.Inv sel := by
  induction h with
  | new r => simp [Parser.Inv, NewParser]
  | pass sel p _ ih => exact (step_inv sel p ih).1

theorem tracked_call (fuel : Nat) : ∀ (sel : Int) (p : Parser), Tracked sel p →
    ∀ res p1, p.NextFuel fuel = some (res, p1) →
      Tracked (p.selectedAfter fuel sel) p1 ∧
        ∀ rec, res = .ok rec → ∀ k, rec.DataKey? = some k →
          k.Database = p.selectedAfter fuel sel := by
  induction fuel with
  | zero => intro sel p _ res p1 h; simp [Parser.NextFuel] at h
  | succ fuel ih =>
    intro sel p ht res p1 h
    have hp := Tracked.pass sel p ht
    have hinv := step_inv sel p (tracked_inv sel p ht)
    cases hs : p.step with
    | ret res' p' =>
      simp only [Parser.NextFuel, hs, Option.some.injEq, Prod.mk.injEq] at h
      obtain ⟨rfl, rfl⟩ := h
      simp only [hs, Step.parser] at hp
      refine ⟨by simpa [Parser.selectedAfter, hs] using hp, ?_⟩
      rintro rec rfl k hk
      obtain ⟨h1, h2⟩ := hinv.2 rec p' hs k hk
      simp only [Parser.selectedAfter, hs, h2, h1]
    | loop p' =>
      simp only [Parser.NextFuel, hs] at h
      simp only [hs, Step.parser] at hp
      simpa [Parser.selectedAfter, hs] using ih _ p' hp res p1 h


/-- A pass reads a value with its SelectDB opcode whenever it consumes one,
unless it returns an error. -/
theorem step_selectDB_read (p : Parser) :
    p.selectDBConsumed = p.selectDBRead ∨ ∃ e p1, p.step = .ret (.error e) p1 := by
  obtain ⟨-, f2, -, -, -⟩ := header_fields p
  rcases hh : p.header with ⟨oe, p'⟩
  rw [hh] at f2
  simp only at f2
  cases oe with
  | some e => exact Or.inr ⟨e, p', by simp [Parser.step, hh]⟩
  | none =>
    cases hdt : p.dataType with
    | some dt => exact Or.inl (by simp [Parser.selectDBConsumed, Parser.selectDBRead, hdt])
    | none =>
      cases hr : p'.reader with
      | nil =>
        exact Or.inl (by
          simp [Parser.selectDBConsumed, Parser.selectDBRead, hdt, Parser.afterHeader, hh, hr])
      | cons b rest =>
        by_cases hb : b = opCodeSelectDB
        · rcases hl : readLength rest with ⟨(e | v), r2⟩
          · refine Or.inr ⟨e, { p' with reader := r2, db := 0 }, ?_⟩
            have e1 : (opCodeSelectDB = opCodeExpireTimeMS) = False := eq_false (by decide)
            have e2 : (opCodeSelectDB = opCodeExpireTime) = False := eq_false (by decide)
            have e3 : (opCodeSelectDB = opCodeIdle) = False := eq_false (by decide)
            have e4 : (opCodeSelectDB = opCodeFreq) = False := eq_false (by decide)
            rw [hdt] at f2
            simp only [Parser.step, hh, Parser.body, f2, hr, readByte, hb, e1, e2, e3, e4,
              if_true, if_false, hl]
          · exact Or.inl (by
              simp [Parser.selectDBConsumed, Parser.selectDBRead, hdt, Parser.afterHeader, hh,
                hr, hb, hl])
        · exact Or.inl (by
            simp [Parser.selectDBConsumed, Parser.selectDBRead, hdt, Parser.afterHeader, hh,
              hr, hb])

/-- In a call that returns a record every SelectDB opcode consumed has read a
value. -/
theorem call_selectDB_read (fuel : Nat) : ∀ (sel : Int) (p p1 : Parser) (rec : Record),
    p.NextFuel fuel = some (.ok rec, p1) → p.selectedAfter fuel sel = p.readAfter fuel sel := by
  induction fuel with
  | zero => intro sel p p1 rec h; simp [Parser.NextFuel] at h
  | succ fuel ih =>
    intro sel p p1 rec h
    cases hs : p.step with
    | ret res p' =>
      simp only [Parser.NextFuel, hs, Option.some.injEq, Prod.mk.injEq] at h
      obtain ⟨rfl, rfl⟩ := h
      rcases step_selectDB_read p with heq | ⟨e, p2, he⟩
      · simp [Parser.selectedAfter, Parser.readAfter, hs, Parser.selected, heq]
      · rw [hs] at he; simp at he
    | loop p' =>
      simp only [Parser.NextFuel, hs] at h
      rcases step_selectDB_read p with heq | ⟨e, p2, he⟩
      · simp only [Parser.selectedAfter, Parser.readAfter, hs, Parser.selected, heq]
        exact ih _ p' p1 rec h
      · rw [hs] at he; simp at he

/-- C4, counterexample: after the header a SelectDB opcode selects database 5,
a second SelectDB opcode has the length byte 0x82, which decodes to nothing,
and a string key follows.  The first call returns the length-encoding error;
the second call returns the key with Database 0, while the last value a
SelectDB opcode read is 5. -/
theorem database_after_failed_selectDB_counterexample :
    (NewParser (header9 ++ [0xFE, 5, 0xFE, 0x82, 0, 1, 0x6B, 1, 0x76])).Next =
        some (.error (.LengthEncodingError 0x82),
          { reader := [0, 1, 0x6B, 1, 0x76], db := 0, initialized := true }) ∧
      (NewParser (header9 ++ [0xFE, 5, 0xFE, 0x82, 0, 1, 0x6B, 1, 0x76])).readAfter
          (3 * (header9 ++ [0xFE, 5, 0xFE, 0x82, 0, 1, 0x6B, 1, 0x76]).length + 3) (-1) = 5 ∧
      Parser.Next { reader := [0, 1, 0x6B, 1, 0x76], db := 0, initialized := true } =
        some (.ok (.stringData { DataKey := ⟨0, [0x6B], none⟩, Value := [0x76] }),
          { reader := [], db := 0, initialized := true, key := [0x6B] }) ∧
      Parser.readAfter (3 * 5 + 3) 5
          { reader := [0, 1, 0x6B, 1, 0x76], db := 0, initialized := true } = 5 := by
  refine ⟨?_, ?_, ?_, ?_⟩ <;> rfl


/-- C4, amended: in every sequence of calls to `Next` that starts from
`NewParser`, with `sel` the value read by the most recent SelectDB opcode
(0xFE) consumed so far and -1 when none was, where a SelectDB opcode whose
length does not decode counts as having read 0 (the call that meets it returns
the error), the parser's database is `sel`, the key handed to the sub-iterator
in use has Database `sel`, and every record with a DataKey that a call to `Next`
returns (a `StringData`, or a head, entry or slice carrying the key its iterator
was built with) has for Database the value read by the most recent SelectDB
opcode consumed up to that call.  In a call that returns a record every SelectDB
opcode consumed has read its value, so the count moves as the last value read
does.  The parser the call leaves is tracked in the same way, so the statement
holds for the next call as well. -/
theorem dataKey_database_is_last_selectDB (sel : Int) (p : Parser) (h : Tracked sel p) :
    p.db = sel ∧
      (∀ it, p.iterator = some it → it.DataKey.Database = sel) ∧
      ∀ res p1, p.Next = some (res, p1) →
        Tracked (p.selectedAfter (3 * p.reader.length + 3) sel) p1 ∧
          ∀ rec, res = .ok rec →
            p.selectedAfter (3 * p.reader.length + 3) sel
                = p.readAfter (3 * p.reader.length + 3) sel ∧
              ∀ k, rec.DataKey? = some k →
                k.Database = p.selectedAfter (3 * p.reader.length + 3) sel := by
  have hinv := tracked_inv sel p h
  refine ⟨hinv.1, fun it hit => (hinv.2.2 it hit).1, fun res p1 hn => ?_⟩
  obtain ⟨t1, t2⟩ := tracked_call _ sel p h res p1 hn
  refine ⟨t1, fun rec hrec => ⟨?_, t2 rec hrec⟩⟩
  subst hrec
  exact call_selectDB_read _ sel p p1 rec hn

theorem dataKey_database_is_last_selectDB_witness :
    (NewParser (header9 ++ [0xFE, 5, 0, 1, 0x6B, 1, 0x76])).db = -1 ∧
      (∀ it, (NewParser (header9 ++ [0xFE, 5, 0, 1, 0x6B, 1, 0x76])).iterator = some it →
        it.DataKey.Database = -1) ∧
      ∀ res p1, (NewParser (header9 ++ [0xFE, 5, 0, 1, 0x6B, 1, 0x76])).Next = some (res, p1) →
        Tracked ((NewParser (header9 ++ [0xFE, 5, 0, 1, 0x6B, 1, 0x76])).selectedAfter
            (3 * (NewParser (header9 ++ [0xFE, 5, 0, 1, 0x6B, 1, 0x76])).reader.length + 3)
            (-1)) p1 ∧
          ∀ rec, res = .ok rec →
            (NewParser (header9 ++ [0xFE, 5, 0, 1, 0x6B, 1, 0x76])).selectedAfter
                (3 * (NewParser (header9 ++ [0xFE, 5, 0, 1, 0x6B, 1, 0x76])).reader.length + 3)
                (-1)
              = (NewParser (header9 ++ [0xFE, 5, 0, 1, 0x6B, 1, 0x76])).readAfter
                (3 * (NewParser (header9 ++ [0xFE, 5, 0, 1, 0x6B, 1, 0x76])).reader.length + 3)
                (-1) ∧
            ∀ k, rec.DataKey? = some k →
              k.Database = (NewParser (header9 ++ [0xFE, 5, 0, 1, 0x6B, 1, 0x76])).selectedAfter
                (3 * (NewParser (header9 ++ [0xFE, 5, 0, 1, 0x6B, 1, 0x76])).reader.length + 3)
                (-1) :=
  dataKey_database_is_last_selectDB (-1)
    (NewParser (header9 ++ [0xFE, 5, 0, 1, 0x6B, 1, 0x76])) (Tracked.new _)

/-- The run behind the witness of C4: the first call selects database 5 and
returns the string record of that database. -/
theorem selectDB_example :
    (NewParser (header9 ++ [0xFE, 5, 0, 1, 0x6B, 1, 0x76])).Next =
        some (.ok (.stringData
          { DataKey := { Database := 5, Key := [0x6B], Expiry := none }, Value := [0x76] }),
          { reader := [], db := 5, initialized := true, key := [0x6B] }) ∧
      (NewParser (header9 ++ [0xFE, 5, 0, 1, 0x6B, 1, 0x76])).selectedAfter
        (3 * (NewParser (header9 ++ [0xFE, 5, 0, 1, 0x6B, 1, 0x76])).reader.length + 3) (-1)
        = 5 := by
  constructor <;> rfl



/-! ### Pending expiry -/

/-- The method `readData` assigns the reader, the data type and the iterator,
never the pending expiry. -/
theorem readData_expiry (p : Parser) (dt : UInt8) :
    (p.readData dt).parser.expiry = p.expiry := by
  unfold Parser.readData
  repeat' split
  all_goals simp [Step.parser]

/-- C5, counterexample: after the header an ExpireTime opcode of one second is
followed by the string keys `a` and `c`; no expiry opcode precedes `c`, yet the
record of `c` carries the expiry of one second too. -/
theorem expiry_cleared_counterexample :
    Parser.run 2
        (NewParser (header9 ++ [0xFD, 1, 0, 0, 0, 0, 1, 0x61, 1, 0x62, 0, 1, 0x63, 1, 0x64])) =
      [some (.ok (.stringData
          { DataKey := { Database := -1, Key := [0x61], Expiry := some ⟨1000⟩ },
            Value := [0x62] })),
        some (.ok (.stringData
          { DataKey := { Database := -1, Key := [0x63], Expiry := some ⟨1000⟩ },
            Value := [0x64] }))] := by
  rfl

/-- Two string keys in a row: for an initialized parser between keys whose
input goes on with two string keys and no expiry opcode, both `StringData`
records carry the pending expiry `p.expiry` and the parser still holds it after
each of them; and no path of `readData`, the end of a collection included,
assigns the pending expiry. -/
theorem expiry_two_string_keys (p : Parser) (rest k1 v1 k2 v2 r1 r2 r3 r4 : Bytes)
    (hinit : p.initialized = true) (hdt : p.dataType = none) (hit : p.iterator = none)
    (hr : p.reader = typeString :: rest)
    (hk1 : readString rest = (.ok k1, r1)) (hv1 : readString r1 = (.ok v1, typeString :: r2))
    (hk2 : readString r2 = (.ok k2, r3)) (hv2 : readString r3 = (.ok v2, r4)) :
    (∃ p1 p2,
      p.Next = some
        (.ok (.stringData
          { DataKey := { Database := p.db, Key := k1, Expiry := p.expiry }, Value := v1 }), p1) ∧
      p1.expiry = p.expiry ∧
      p1.Next = some
        (.ok (.stringData
          { DataKey := { Database := p.db, Key := k2, Expiry := p.expiry }, Value := v2 }), p2) ∧
      p2.expiry = p.expiry) ∧
    ∀ (q : Parser) (dt : UInt8), (q.readData dt).parser.expiry = q.expiry := by
  refine ⟨⟨_, _, Next_typeString p rest k1 v1 r1 (typeString :: r2) hinit hdt hit hr hk1 hv1,
    rfl, Next_typeString _ r2 k2 v2 r3 r4 hinit rfl hit rfl hk2 hv2, rfl⟩, readData_expiry⟩

theorem readData_expiry_key (p : Parser) (dt : UInt8)
    (h : ∀ it, p.iterator = some it → it.Mapper = defaultMapper ∧ it.DataKey.Expiry = p.expiry) :
    (∀ it, (p.readData dt).parser.iterator = some it → it.DataKey.Expiry = p.expiry) ∧
      ∀ res p1, p.readData dt = .ret (.ok res) p1 → ∀ k, res.DataKey? = some k →
        k.Expiry = p.expiry := by
  cases hi : p.iterator with
  | some it =>
    obtain ⟨hm, hk⟩ := h it hi
    obtain ⟨k1, k2, k3⟩ := iterator_next_key it p.reader hm
    rcases hn : it.Next p.reader with ⟨res, it1, r1⟩
    rw [hn] at k1 k2 k3
    simp only at k1 k2 k3
    cases res with
    | error e =>
      by_cases he : e = .EOF
      · simp [Parser.readData, hi, hn, he, Step.parser]
      · simp [Parser.readData, hi, hn, he, Step.parser]
        rw [k1]; exact hk
    | ok v =>
      simp only [Parser.readData, hi, hn, Step.parser, Step.ret.injEq, Except.ok.injEq]
      refine ⟨?_, ?_⟩
      · intro it2 h2
        simp only [Option.some.injEq] at h2
        subst h2
        rw [k1]; exact hk
      · rintro res p1 ⟨rfl, -⟩ k hk2
        have := k3 v rfl
        rw [this] at hk2
        simp only [Option.some.injEq] at hk2
        rw [← hk2]; exact hk
  | none =>
    simp only [Parser.readData, hi]
    repeat' split
    all_goals
      simp_all [Step.parser, Record.DataKey?, iterator.DataKey]


theorem readKey_expiry (p : Parser) (b : UInt8) (r : Bytes) :
    (p.readKey b r).parser.expiry = p.expiry ∧ (p.readKey b r).parser.iterator = p.iterator := by
  unfold Parser.readKey
  split <;> simp [Step.parser]

theorem body_none_expiry (p : Parser) (hdt : p.dataType = none) :
    p.body.parser.expiry =
        (match p.reader with
          | b :: rest =>
            if b = opCodeExpireTimeMS then
              match readMillisecondsTime rest with
              | (.ok t, _) => some t
              | (.error _, _) => none
            else if b = opCodeExpireTime then
              match readSecondsTime rest with
              | (.ok t, _) => some t
              | (.error _, _) => none
            else p.expiry
          | [] => p.expiry) ∧
      p.body.parser.iterator = p.iterator := by
  cases hr : p.reader with
  | nil => simp [Parser.body, hdt, hr, readByte, Step.parser]
  | cons b rest =>
    have hk := readKey_expiry p b rest
    simp only [Parser.body, hdt, hr, readByte]
    by_cases h1 : b = opCodeExpireTimeMS
    · simp only [h1, if_true]
      rcases readMillisecondsTime rest with ⟨(e | t), r2⟩ <;> simp [Step.parser]
    · by_cases h2 : b = opCodeExpireTime
      · have e1 : (opCodeExpireTime = opCodeExpireTimeMS) = False := eq_false (by decide)
        simp only [h2, e1, if_true, if_false]
        rcases readSecondsTime rest with ⟨(e | t), r2⟩ <;> simp [Step.parser]
      · simp only [h1, h2, if_false]
        repeat' split
        all_goals first
          | exact hk
          | simp [Step.parser]


/-- One pass through `Next`: the pending expiry changes only by an expiry
opcode, the key of the iterator in use goes on carrying it, and a record with a
key is returned with the pending expiry, which the parser still holds. -/
theorem step_expiry (sel : Int) (p : Parser) (h : p.Inv sel)
    (he : ∀ it, p.iterator = some it → it.DataKey.Expiry = p.expiry) :
    p.step.parser.expiry = (p.expiryConsumed).getD p.expiry ∧
      (∀ it, p.step.parser.iterator = some it → it.DataKey.Expiry = p.step.parser.expiry) ∧
      ∀ res p1, p.step = .ret (.ok res) p1 → ∀ k, res.DataKey? = some k →
        k.Expiry = p1.expiry := by
  obtain ⟨f1, f2, f3, f4, -⟩ := header_fields p
  rcases hh : p.header with ⟨oe, p'⟩
  rw [hh] at f1 f2 f3 f4
  simp only at f1 f2 f3 f4
  have h' : p'.Inv sel := by
    obtain ⟨hdb, hnone, hit⟩ := h
    exact ⟨by rw [f1]; exact hdb, by rw [f2, f3]; exact hnone, by rw [f3]; exact hit⟩
  have he' : ∀ it, p'.iterator = some it →
      it.Mapper = defaultMapper ∧ it.DataKey.Expiry = p'.expiry := by
    intro it hit
    rw [f3] at hit
    exact ⟨(h.2.2 it hit).2, by rw [f4]; exact he it hit⟩
  cases oe with
  | some e =>
    have hs : p.expiryConsumed = none := by
      simp [Parser.expiryConsumed, Parser.afterHeader, hh]
    simp only [Parser.step, hh, hs, Step.parser, Option.getD_none]
    refine ⟨f4, fun it hit => (he' it hit).2, ?_⟩
    intro res p1 h1
    simp at h1
  | none =>
    cases hdt : p'.dataType with
    | some dt =>
      have hs : p.expiryConsumed = none := by
        simp [Parser.expiryConsumed, ← f2, hdt]
      have hx := readData_expiry p' dt
      obtain ⟨k1, k2⟩ := readData_expiry_key p' dt he'
      simp only [Parser.step, hh, hs, Parser.body, hdt, Option.getD_none]
      refine ⟨by rw [hx, f4], fun it hit => by rw [hx]; exact k1 it hit, ?_⟩
      intro res p1 h1 k hk
      have := k2 res p1 h1 k hk
      rw [h1] at hx
      simp only [Step.parser] at hx
      rw [hx]; exact this
    | none =>
      obtain ⟨b1, b2⟩ := body_none_expiry p' hdt
      have b3 := (body_none_inv sel p' hdt h').2
      have hi : p'.iterator = none := h'.2.1 hdt
      have hs : (p.expiryConsumed).getD p.expiry = (match p'.reader with
          | b :: rest =>
            if b = opCodeExpireTimeMS then
              match readMillisecondsTime rest with
              | (.ok t, _) => some t
              | (.error _, _) => none
            else if b = opCodeExpireTime then
              match readSecondsTime rest with
              | (.ok t, _) => some t
              | (.error _, _) => none
            else p'.expiry
          | [] => p'.expiry) := by
        simp only [Parser.expiryConsumed, Parser.afterHeader, hh, ← f2, hdt, f4]
        repeat' split
        all_goals simp_all
      rw [hs]
      simp only [Parser.step, hh]
      refine ⟨b1, ?_, ?_⟩
      · intro it hit
        rw [b2, hi] at hit
        simp at hit
      · intro res p1 h1 k hk
        rw [b3 res p1 h1] at hk
        simp at hk

theorem tracked_expiry (sel : Int) (p : Parser) (h : Tracked sel p) :
    ∀ it, p.iterator = some it → it.DataKey.Expiry = p.expiry := by
  induction h with
  | new r => simp [NewParser]
  | pass sel p ht ih => exact (step_expiry sel p (tracked_inv sel p ht) ih).2.1

theorem call_expiry (fuel : Nat) : ∀ (sel : Int) (p : Parser), Tracked sel p →
    ∀ res p1, p.NextFuel fuel = some (res, p1) →
      p1.expiry = p.pendingAfter fuel p.expiry ∧
        ∀ rec, res = .ok rec → ∀ k, rec.DataKey? = some k → k.Expiry = p1.expiry := by
  induction fuel with
  | zero => intro sel p _ res p1 h; simp [Parser.NextFuel] at h
  | succ fuel ih =>
    intro sel p ht res p1 h
    have hp := Tracked.pass sel p ht
    obtain ⟨s1, -, s3⟩ := step_expiry sel p (tracked_inv sel p ht) (tracked_expiry sel p ht)
    cases hs : p.step with
    | ret res' p' =>
      simp only [Parser.NextFuel, hs, Option.some.injEq, Prod.mk.injEq] at h
      obtain ⟨rfl, rfl⟩ := h
      simp only [hs, Step.parser] at s1
      refine ⟨by simp only [Parser.pendingAfter, hs, s1], ?_⟩
      rintro rec rfl k hk
      exact s3 rec p' hs k hk
    | loop p' =>
      simp only [Parser.NextFuel, hs] at h
      simp only [hs, Step.parser] at hp s1
      have := ih _ p' hp res p1 h
      simpa [Parser.pendingAfter, hs, s1] using this

theorem pendingAfter_unread (fuel : Nat) : ∀ (exp : Option Time) (p : Parser),
    p.readsExpiry fuel = false → p.pendingAfter fuel exp = exp := by
  induction fuel with
  | zero => intro exp p _; rfl
  | succ fuel ih =>
    intro exp p h
    simp only [Parser.readsExpiry, Bool.or_eq_false_iff] at h
    obtain ⟨h1, h2⟩ := h
    have hn : p.expiryConsumed = none := by
      cases hc : p.expiryConsumed with
      | none => rfl
      | some v => simp [hc] at h1
    cases hs : p.step with
    | ret res p1 => simp [Parser.pendingAfter, hs, hn]
    | loop p1 =>
      rw [hs] at h2
      simp only [Parser.pendingAfter, hs, hn, Option.getD_none]
      exact ih exp p1 h2


/-- C5, amended: a pending expiry attaches to the next key and is not cleared
after it.  For every parser met in a sequence of calls from `NewParser`: the
key handed to the sub-iterator in use carries the pending expiry; a pass through
`Next` that reads no expiry opcode (an Idle, Freq, SelectDB or Aux opcode, a
key, the header, a string value, a step of a collection or its end) leaves the
pending expiry as it was, and a pass that reads one sets it to the time read;
and for every call to `Next`, the pending expiry after the call is the one
before it changed by the expiry opcodes the call read and by nothing else, it
is unchanged when the call read no expiry opcode, and a record with a DataKey
that the call returns carries the pending expiry, which the parser still holds
after the record. -/
theorem expiry_persists_after_key (sel : Int) (p : Parser) (h : Tracked sel p) :
    (∀ it, p.iterator = some it → it.DataKey.Expiry = p.expiry) ∧
      (p.expiryConsumed = none → p.step.parser.expiry = p.expiry) ∧
      (∀ t, p.expiryConsumed = some t → p.step.parser.expiry = t) ∧
      ∀ res p1, p.Next = some (res, p1) →
        p1.expiry = p.pendingAfter (3 * p.reader.length + 3) p.expiry ∧
          (p.readsExpiry (3 * p.reader.length + 3) = false → p1.expiry = p.expiry) ∧
          ∀ rec, res = .ok rec → ∀ k, rec.DataKey? = some k → k.Expiry = p1.expiry := by
  have hit := tracked_expiry sel p h
  obtain ⟨s1, -, -⟩ := step_expiry sel p (tracked_inv sel p h) hit
  refine ⟨hit, fun hn => by rw [s1, hn]; rfl, fun t ht => by rw [s1, ht]; rfl, ?_⟩
  intro res p1 hn
  obtain ⟨c1, c2⟩ := call_expiry _ sel p h res p1 hn
  exact ⟨c1, fun hr => by rw [c1, pendingAfter_unread _ _ p hr], c2⟩

theorem expiry_persists_after_key_witness :
    (∀ it, (NewParser (header9 ++ [0xFD, 1, 0, 0, 0, 0xF9, 7, 0, 1, 0x61, 1, 0x62])).iterator
        = some it →
      it.DataKey.Expiry = (NewParser (header9 ++ [0xFD, 1, 0, 0, 0, 0xF9, 7, 0, 1, 0x61, 1, 0x62])).expiry) ∧
      ((NewParser (header9 ++ [0xFD, 1, 0, 0, 0, 0xF9, 7, 0, 1, 0x61, 1, 0x62])).expiryConsumed
          = none →
        (NewParser (header9 ++ [0xFD, 1, 0, 0, 0, 0xF9, 7, 0, 1, 0x61, 1, 0x62])).step.parser.expiry
          = (NewParser (header9 ++ [0xFD, 1, 0, 0, 0, 0xF9, 7, 0, 1, 0x61, 1, 0x62])).expiry) ∧
      (∀ t, (NewParser (header9 ++ [0xFD, 1, 0, 0, 0, 0xF9, 7, 0, 1, 0x61, 1, 0x62])).expiryConsumed
          = some t →
        (NewParser (header9 ++ [0xFD, 1, 0, 0, 0, 0xF9, 7, 0, 1, 0x61, 1, 0x62])).step.parser.expiry
          = t) ∧
      ∀ res p1,
        (NewParser (header9 ++ [0xFD, 1, 0, 0, 0, 0xF9, 7, 0, 1, 0x61, 1, 0x62])).Next
          = some (res, p1) →
        p1.expiry =
            (NewParser (header9 ++ [0xFD, 1, 0, 0, 0, 0xF9, 7, 0, 1, 0x61, 1, 0x62])).pendingAfter
              (3 * (NewParser
                (header9 ++ [0xFD, 1, 0, 0, 0, 0xF9, 7, 0, 1, 0x61, 1, 0x62])).reader.length + 3)
              (NewParser (header9 ++ [0xFD, 1, 0, 0, 0, 0xF9, 7, 0, 1, 0x61, 1, 0x62])).expiry ∧
          ((NewParser (header9 ++ [0xFD, 1, 0, 0, 0, 0xF9, 7, 0, 1, 0x61, 1, 0x62])).readsExpiry
              (3 * (NewParser
                (header9 ++ [0xFD, 1, 0, 0, 0, 0xF9, 7, 0, 1, 0x61, 1, 0x62])).reader.length + 3)
              = false →
            p1.expiry
              = (NewParser (header9 ++ [0xFD, 1, 0, 0, 0, 0xF9, 7, 0, 1, 0x61, 1, 0x62])).expiry) ∧
          ∀ rec, res = .ok rec → ∀ k, rec.DataKey? = some k → k.Expiry = p1.expiry :=
  expiry_persists_after_key (-1)
    (NewParser (header9 ++ [0xFD, 1, 0, 0, 0, 0xF9, 7, 0, 1, 0x61, 1, 0x62])) (Tracked.new _)

/-- The run of an input with an ExpireTime opcode of one second, then an Aux
opcode, a SelectDB opcode, an Idle and a Freq opcode, the string key `a`, and
the zipmap key `c` with the one pair `k`/`v`: the expiry reaches `a` across the
opcodes in between, and the zipmap, which no expiry opcode precedes, carries it
on its head, entry and slice. -/
theorem expiry_example :
    Parser.run 5
        (NewParser (header9 ++ [0xFD, 1, 0, 0, 0, 0xFA, 1, 0x6B, 1, 0x76, 0xFE, 3, 0xF8, 9,
          0xF9, 7, 0, 1, 0x61, 1, 0x62, 9, 1, 0x63, 7, 1, 1, 0x6B, 1, 0, 0x76, 0xFF])) =
      [some (.ok (.aux { Key := [0x6B], Value := [0x76] })),
        some (.ok (.stringData
          { DataKey := { Database := 3, Key := [0x61], Expiry := some ⟨1000⟩ },
            Value := [0x62] })),
        some (.ok (.head
          { DataKey := { Database := 3, Key := [0x63], Expiry := some ⟨1000⟩ }, Length := 1 })),
        some (.ok (.entry
          { DataKey := { Database := 3, Key := [0x63], Expiry := some ⟨1000⟩ }, Index := 0,
            Length := 1, Value := .hash ⟨[0x6B], [0x76]⟩ })),
        some (.ok (.slice
          { DataKey := { Database := 3, Key := [0x63], Expiry := some ⟨1000⟩ }, Length := 1,
            Value := [.hash ⟨[0x6B], [0x76]⟩] }))] := by
  rfl

/-! ### The exhaustion marker -/

/-- C6, counterexample: the EOF opcode is followed by eight checksum bytes, the
first of them 0xFA; the first call returns the exhaustion marker and the second
call decodes the checksum as an Aux opcode and returns a record. -/
theorem exhaustion_repeats_counterexample :
    Parser.run 2 (NewParser (header9 ++ [0xFF, 0xFA, 0, 0, 0, 0, 0, 0, 0])) =
      [some (.error .EOF), some (.ok (.aux { Key := [], Value := [] }))] := by
  rfl

theorem header_fail (p p1 : Parser) (e : Err) (h : p.header = (some e, p1)) :
    p1.initialized = false := by
  revert h
  unfold Parser.header
  repeat' split
  all_goals simp_all
  all_goals (rintro - rfl; simp_all)

theorem readKey_dataType (p p1 : Parser) (b : UInt8) (r : Bytes) (res : Except Err Record)
    (h : p.readKey b r = .ret res p1) : p1.dataType = p.dataType := by
  revert h
  unfold Parser.readKey
  split <;> simp
  rintro - rfl; rfl

theorem body_none_ret (p p1 : Parser) (res : Except Err Record) (hdt : p.dataType = none)
    (h : p.body = .ret res p1) : p1.dataType = none := by
  have hk := fun b r => readKey_dataType p p1 b r res
  revert h
  simp only [Parser.body, hdt]
  repeat' split
  all_goals first
    | (intro h; rw [hk _ _ h, hdt])
    | (simp only [Step.ret.injEq, reduceCtorEq, false_implies, imp_self]; done)
    | (rintro ⟨-, rfl⟩; rfl)

theorem readData_eof (p p1 : Parser) (dt : UInt8) (hdt : p.dataType = some dt)
    (h : p.readData dt = .ret (.error .EOF) p1) :
    p1.dataType = some typeString ∧ p1.iterator = none := by
  revert h
  unfold Parser.readData
  repeat' split
  all_goals simp_all
  rintro - rfl
  exact ⟨rfl, rfl⟩

/-- The parser a pass leaves when it returns the exhaustion marker: it is not
initialized, or no data type is pending, or the string data type is pending
with no iterator. -/
theorem step_eof_state (p p1 : Parser) (h : p.step = .ret (.error .EOF) p1) :
    p1.initialized = false ∨ p1.dataType = none ∨
      (p1.dataType = some typeString ∧ p1.iterator = none) := by
  rcases hh : p.header with ⟨oe, p'⟩
  cases oe with
  | some e =>
    simp only [Parser.step, hh, Step.ret.injEq] at h
    obtain ⟨-, rfl⟩ := h
    exact Or.inl (header_fail p p' e hh)
  | none =>
    simp only [Parser.step, hh] at h
    cases hdt : p'.dataType with
    | none => exact Or.inr (Or.inl (body_none_ret p' p1 _ hdt h))
    | some dt =>
      simp only [Parser.body, hdt] at h
      exact Or.inr (Or.inr (readData_eof p' p1 dt hdt h))


theorem NextFuel_eof_state (fuel : Nat) : ∀ (p p1 : Parser),
    p.NextFuel fuel = some (.error .EOF, p1) →
    p1.initialized = false ∨ p1.dataType = none ∨
      (p1.dataType = some typeString ∧ p1.iterator = none) := by
  induction fuel with
  | zero => intro p p1 h; simp [Parser.NextFuel] at h
  | succ fuel ih =>
    intro p p1 h
    cases hs : p.step with
    | ret res p' =>
      simp only [Parser.NextFuel, hs, Option.some.injEq, Prod.mk.injEq] at h
      obtain ⟨rfl, rfl⟩ := h
      exact step_eof_state p p' hs
    | loop p' =>
      simp only [Parser.NextFuel, hs] at h
      exact ih p' p1 h

/-- With no input left, a parser in one of the three states of `step_eof_state`
answers with the exhaustion marker and stays as it is. -/
theorem Next_exhausted (p : Parser) (hr : p.reader = [])
    (hs : p.initialized = false ∨ p.dataType = none ∨
      (p.dataType = some typeString ∧ p.iterator = none)) :
    p.Next = some (.error .EOF, p) := by
  have hstep : p.step = .ret (.error .EOF) p := by
    obtain ⟨reader, db, initialized, expiry, dataType, idle, freq, key, iterator⟩ := p
    simp only at hr hs
    subst hr
    cases initialized with
    | false =>
      simp [Parser.step, Parser.header, verifyMagicString, readFull, magicString]
    | true =>
      rcases hs with h | h | ⟨h1, h2⟩
      · simp at h
      · subst h
        simp [Parser.step, Parser.header, Parser.body, readByte]
      · subst h1 h2
        simp [Parser.step, Parser.header, Parser.body, Parser.readData, readString,
          readLengthWithEncoding, readByte]
  rw [Parser.Next, show 3 * p.reader.length + 3 = (3 * p.reader.length + 2) + 1 by omega,
    NextFuel_ret _ _ _ _ hstep]

theorem run_exhausted (n : Nat) (p : Parser) (hr : p.reader = [])
    (hs : p.initialized = false ∨ p.dataType = none ∨
      (p.dataType = some typeString ∧ p.iterator = none)) :
    Parser.run n p = List.replicate n (some (.error .EOF)) := by
  induction n with
  | zero => rfl
  | succ n ih => simp [Parser.run, Next_exhausted p hr hs, ih, List.replicate_succ]

/-- C6, amended: once `Next` has returned the exhaustion marker with no input
byte left unread (the EOF opcode 0xFF was the last byte of the input, or the
input ended where a read began), every later call on the same parser returns
the exhaustion marker and no record.  `Next` does not consume the checksum
bytes after the EOF opcode; when they are there, the later calls decode them. -/
theorem exhaustion_repeats_when_input_is_spent (p p1 : Parser)
    (h : p.Next = some (.error .EOF, p1)) (hr : p1.reader = []) (n : Nat) :
    Parser.run n p1 = List.replicate n (some (.error .EOF)) :=
  run_exhausted n p1 hr (NextFuel_eof_state _ p p1 h)

theorem exhaustion_repeats_when_input_is_spent_witness :
    Parser.run 3 { reader := [], db := 0, initialized := true } =
      List.replicate 3 (some (.error .EOF)) :=
  exhaustion_repeats_when_input_is_spent
    (NewParser (header9 ++ [0xFE, 0, 0xFF])) { reader := [], db := 0, initialized := true }
    (by rfl) rfl 3



/-! ### Errors and later calls -/

/-- C7, counterexample: five bytes that are not the magic string are followed by
a valid header and an Aux opcode; the first call returns the invalid-magic-string
error and the second call resumes after the fault and returns a record. -/
theorem error_is_terminal_counterexample :
    Parser.run 2 (NewParser ([0x58, 0x58, 0x58, 0x58, 0x58] ++ header9 ++ [0xFA, 0, 0])) =
      [some (.error .invalidMagicString), some (.ok (.aux { Key := [], Value := [] }))] := by
  rfl

theorem seq_next_spent (s : seqIterator) (hs : s.started = false) (hd : s.done = false) :
    s.Next [] = (.error .EOF, s, []) := by
  simp [seqIterator.Next, hs, hd, readLength, readLengthWithEncoding, readByte]

theorem zipMap_next_spent (z : zipMapIterator) (hb : z.buf = none) (hd : z.done = false) :
    z.Next [] = (.error .EOF, z, []) := by
  simp [zipMapIterator.Next, hb, hd, readString, readLengthWithEncoding, readByte]

theorem NextFuel_spent_iterator (p : Parser) (dt : UInt8) (it : iterator)
    (hinit : p.initialized = true) (hr : p.reader = []) (hdt : p.dataType = some dt)
    (hit : p.iterator = some it) (hnext : it.Next [] = (.error .EOF, it, [])) :
    p.NextFuel 2 =
      some (.error .EOF, { p with reader := [], dataType := none, iterator := none }) := by
  have s1 : p.step = .loop { p with reader := [], dataType := none, iterator := none } := by
    simp [step_initialized p hinit, Parser.body, hdt, Parser.readData, hit, hr, hnext]
  have s2 : Parser.step { p with reader := [], dataType := none, iterator := none }
      = .ret (.error .EOF) { p with reader := [], dataType := none, iterator := none } := by
    rw [step_initialized { p with reader := [], dataType := none, iterator := none } hinit]
    simp [Parser.body, readByte]
  rw [NextFuel_loop _ _ _ s1, NextFuel_ret _ _ _ _ s2]

theorem Next_spent_collection (p : Parser) (dt : UInt8) (it : iterator)
    (hinit : p.initialized = true) (hr : p.reader = []) (hdt : p.dataType = some dt)
    (hstep : p.step = .loop { p with iterator := some it })
    (hnext : it.Next [] = (.error .EOF, it, [])) :
    ∃ e p1, p.Next = some (.error e, p1) ∧ p1.reader = [] ∧ p1.iterator = none := by
  refine ⟨.EOF, { p with reader := [], dataType := none, iterator := none }, ?_, ?_, ?_⟩
  · rw [Parser.Next, hr, show 3 * ([] : Bytes).length + 3 = 2 + 1 by rfl,
      NextFuel_loop _ _ _ hstep]
    exact NextFuel_spent_iterator { p with iterator := some it } dt it hinit hr hdt rfl hnext
  · rfl
  · rfl

theorem Next_spent_ret (p p1 : Parser) (e : Err) (hstep : p.step = .ret (.error e) p1)
    (hr : p1.reader = []) (hi : p1.iterator = none) :
    ∃ e p1, p.Next = some (.error e, p1) ∧ p1.reader = [] ∧ p1.iterator = none := by
  refine ⟨e, p1, ?_, hr, hi⟩
  rw [Parser.Next, show 3 * p.reader.length + 3 = (3 * p.reader.length + 2) + 1 by omega,
    NextFuel_ret _ _ _ _ hstep]

/-- With no input left and no iterator, a call to `Next` returns an error and
leaves the parser with no input and no iterator. -/
theorem Next_spent (p : Parser) (hr : p.reader = []) (hi : p.iterator = none) :
    ∃ e p1, p.Next = some (.error e, p1) ∧ p1.reader = [] ∧ p1.iterator = none := by
  cases hinit : p.initialized with
  | false =>
    refine Next_spent_ret p { p with reader := [] } .EOF ?_ rfl hi
    simp [Parser.step, Parser.header, hinit, hr, verifyMagicString, readFull, magicString]
  | true =>
    cases hdt : p.dataType with
    | none =>
      refine Next_spent_ret p { p with reader := [] } .EOF ?_ rfl hi
      simp [step_initialized p hinit, Parser.body, hdt, hr, readByte]
    | some dt =>
      by_cases h0 : dt = typeString
      · refine Next_spent_ret p { p with reader := [] } .EOF ?_ rfl hi
        simp [step_initialized p hinit, Parser.body, hdt, Parser.readData, hi, h0, hr,
          readString, readLengthWithEncoding, readByte]
      by_cases h1 : dt = typeList
      · refine Next_spent_collection p dt
          (.seq { DataKey := { Key := p.key, Expiry := p.expiry, Database := p.db }, ValueReader := .string, Mapper := listMapper })
          hinit hr hdt ?_
          (by simp [iterator.Next, seq_next_spent])
        · simp only [step_initialized p hinit, Parser.body, hdt, Parser.readData, hi, if_neg h0,
            if_pos h1]
      by_cases h2 : dt = typeSet
      · refine Next_spent_collection p dt
          (.seq { DataKey := { Key := p.key, Expiry := p.expiry, Database := p.db }, ValueReader := .string, Mapper := setMapper })
          hinit hr hdt ?_
          (by simp [iterator.Next, seq_next_spent])
        · simp only [step_initialized p hinit, Parser.body, hdt, Parser.readData, hi, if_neg h0,
            if_neg h1, if_pos h2]
      by_cases h3 : dt = typeZSet ∨ dt = typeZSet2
      · refine Next_spent_collection p dt
          (.seq { DataKey := { Key := p.key, Expiry := p.expiry, Database := p.db }, ValueReader := .sortedSet dt, Mapper := sortedSetMapper })
          hinit hr hdt ?_
          (by simp [iterator.Next, seq_next_spent])
        · simp only [step_initialized p hinit, Parser.body, hdt, Parser.readData, hi, if_neg h0,
            if_neg h1, if_neg h2, if_pos h3]
      by_cases h4 : dt = typeHash
      · refine Next_spent_collection p dt
          (.seq { DataKey := { Key := p.key, Expiry := p.expiry, Database := p.db }, ValueReader := .hash, Mapper := hashMapper })
          hinit hr hdt ?_
          (by simp [iterator.Next, seq_next_spent])
        · simp only [step_initialized p hinit, Parser.body, hdt, Parser.readData, hi, if_neg h0,
            if_neg h1, if_neg h2, if_neg h3, if_pos h4]
      by_cases h5 : dt = typeHashZipMap
      · refine Next_spent_collection p dt
          (.zipMap { DataKey := { Key := p.key, Expiry := p.expiry, Database := p.db }, Mapper := hashMapper })
          hinit hr hdt ?_
          (by simp [iterator.Next, zipMap_next_spent])
        · simp only [step_initialized p hinit, Parser.body, hdt, Parser.readData, hi, if_neg h0,
            if_neg h1, if_neg h2, if_neg h3, if_neg h4, if_pos h5]
      · refine Next_spent_ret p p (.unsupportedDataType dt) ?_ hr hi
        simp only [step_initialized p hinit, Parser.body, hdt, Parser.readData, hi, if_neg h0,
          if_neg h1, if_neg h2, if_neg h3, if_neg h4, if_neg h5]


theorem run_spent (n : Nat) : ∀ (p : Parser), p.reader = [] → p.iterator = none →
    (Parser.run n p).all returnedError = true := by
  induction n with
  | zero => intro p _ _; rfl
  | succ n ih =>
    intro p hr hi
    obtain ⟨e, p1, hn, hr1, hi1⟩ := Next_spent p hr hi
    simp only [Parser.run, hn, List.all_cons, returnedError, Bool.true_and]
    exact ih p1 hr1 hi1

/-- C7, amended: the parser keeps no error flag, so a later call goes on from
the bytes after the fault; but once `Next` has returned an error other than the
exhaustion marker and the fault has left no unread input and no collection
iterator in use, every later call on the same parser returns an error and never
a record. -/
theorem error_repeats_when_input_is_spent (p p1 : Parser) (e : Err)
    (_h : p.Next = some (.error e, p1)) (_he : e ≠ .EOF)
    (hr : p1.reader = []) (hi : p1.iterator = none) (n : Nat) :
    (Parser.run n p1).all returnedError = true :=
  run_spent n p1 hr hi

theorem error_repeats_when_input_is_spent_witness :
    (Parser.run 2 { reader := [], db := -1 }).all returnedError = true :=
  error_repeats_when_input_is_spent (NewParser [0x58, 0x58, 0x58, 0x58, 0x58])
    { reader := [], db := -1 } .invalidMagicString (by rfl) (by decide) rfl rfl 2

/-! ### Truncated input -/

/-- C8, counterexample: on the empty input no EOF opcode is ever read, and the
first call returns the exhaustion marker. -/
theorem truncation_counterexample :
    (NewParser []).Next = some (.error .EOF, NewParser []) := by
  rfl

/-- C8, amended: `Next` hands on the end of the byte source unchanged.  It
returns the exhaustion marker after reading an EOF opcode byte, and also when
the input ends exactly where a read begins: on the empty input, on an input
that ends right after the magic string, and at an opcode boundary of an
initialized parser with no data type pending.  An input cut inside the magic
string or inside the version, after at least one byte of it, gives
`io.ErrUnexpectedEOF`, which is not the exhaustion marker. -/
theorem truncation_outcomes (input : Bytes) (p : Parser) :
    (input = [] → (NewParser input).Next = some (.error .EOF, NewParser [])) ∧
    (0 < input.length → input.length < 5 →
      (NewParser input).Next = some (.error .ErrUnexpectedEOF, NewParser [])) ∧
    (input = magicString → (NewParser input).Next = some (.error .EOF, NewParser [])) ∧
    (∀ v : Bytes, input = magicString ++ v → 0 < v.length → v.length < 4 →
      (NewParser input).Next = some (.error .ErrUnexpectedEOF, NewParser [])) ∧
    (p.initialized = true → p.dataType = none → p.reader = [] →
      p.Next = some (.error .EOF, p)) ∧
    (∀ rest : Bytes, p.initialized = true → p.dataType = none → p.reader = opCodeEOF :: rest →
      p.Next = some (.error .EOF, { p with reader := rest })) ∧
    Err.ErrUnexpectedEOF ≠ Err.EOF := by
  refine ⟨?_, ?_, ?_, ?_, ?_, ?_, by decide⟩
  · rintro rfl; rfl
  · intro h0 h5
    have hne : input ≠ [] := by intro h; simp [h] at h0
    have hstep : (NewParser input).step = .ret (.error .ErrUnexpectedEOF) (NewParser []) := by
      simp [Parser.step, Parser.header, NewParser, verifyMagicString, readFull, magicString,
        Nat.not_le.mpr h5, hne]
    rw [Parser.Next, show 3 * (NewParser input).reader.length + 3
        = (3 * (NewParser input).reader.length + 2) + 1 by omega,
      NextFuel_ret _ _ _ _ hstep]
  · rintro rfl; rfl
  · rintro v rfl h0 h4
    have hne : v ≠ [] := by intro h; simp [h] at h0
    have hmagic : verifyMagicString (magicString ++ v) = (none, v) := by
      have := readFull_append magicString v
      simp [verifyMagicString, this]
    have hstep : (NewParser (magicString ++ v)).step
        = .ret (.error .ErrUnexpectedEOF) (NewParser []) := by
      simp [Parser.step, Parser.header, NewParser, hmagic, verifyVersion, readFull,
        Nat.not_le.mpr h4, hne]
    rw [Parser.Next, show 3 * (NewParser (magicString ++ v)).reader.length + 3
        = (3 * (NewParser (magicString ++ v)).reader.length + 2) + 1 by omega,
      NextFuel_ret _ _ _ _ hstep]
  · intro hinit hdt hr
    exact Next_exhausted p hr (Or.inr (Or.inl hdt))
  · intro rest hinit hdt hr
    have hstep : p.step = .ret (.error .EOF) { p with reader := rest } := by
      have e1 : (opCodeEOF = opCodeExpireTimeMS) = False := eq_false (by decide)
      have e2 : (opCodeEOF = opCodeExpireTime) = False := eq_false (by decide)
      have e3 : (opCodeEOF = opCodeIdle) = False := eq_false (by decide)
      have e4 : (opCodeEOF = opCodeFreq) = False := eq_false (by decide)
      have e5 : (opCodeEOF = opCodeSelectDB) = False := eq_false (by decide)
      have e6 : (opCodeEOF = opCodeAux) = False := eq_false (by decide)
      have e7 : (opCodeEOF = opCodeResizeDB) = False := eq_false (by decide)
      have e8 : (opCodeEOF = opCodeModuleAux) = False := eq_false (by decide)
      simp only [step_initialized p hinit, Parser.body, hdt, hr, readByte, e1, e2, e3, e4, e5,
        e6, e7, e8, if_false, if_true]
    rw [Parser.Next, show 3 * p.reader.length + 3 = (3 * p.reader.length + 2) + 1 by omega,
      NextFuel_ret _ _ _ _ hstep]

theorem truncation_outcomes_witness :
    (NewParser []).Next = some (.error .EOF, NewParser []) ∧
    (NewParser [0x52, 0x45]).Next = some (.error .ErrUnexpectedEOF, NewParser []) ∧
    (NewParser (magicString ++ [0x30, 0x30])).Next
      = some (.error .ErrUnexpectedEOF, NewParser []) ∧
    Parser.Next { reader := [], db := 0, initialized := true }
      = some (.error .EOF, { reader := [], db := 0, initialized := true }) ∧
    Parser.Next { reader := [0xFF, 0x01], db := 0, initialized := true }
      = some (.error .EOF, { reader := [0x01], db := 0, initialized := true }) :=
  ⟨(truncation_outcomes [] (NewParser [])).1 rfl,
    (truncation_outcomes [0x52, 0x45] (NewParser [])).2.1 (by decide) (by decide),
    (truncation_outcomes (magicString ++ [0x30, 0x30]) (NewParser [])).2.2.2.1 [0x30, 0x30] rfl
      (by decide) (by decide),
    (truncation_outcomes [] { reader := [], db := 0, initialized := true }).2.2.2.2.1
      rfl rfl rfl,
    (truncation_outcomes [] { reader := [0xFF, 0x01], db := 0, initialized := true }).2.2.2.2.2.1
      [0x01] rfl rfl rfl⟩



/-! ### The version check -/

theorem Atoi_four (b0 b1 b2 b3 : UInt8) :
    Atoi [b0, b1, b2, b3] =
      if b0 = 0x2D then
        (if isDigit b1 ∧ isDigit b2 ∧ isDigit b3 then
          some (-(digitsValue [b1, b2, b3] 0 : Int)) else none)
      else if b0 = 0x2B then
        (if isDigit b1 ∧ isDigit b2 ∧ isDigit b3 then
          some (digitsValue [b1, b2, b3] 0 : Int) else none)
      else
        (if isDigit b0 ∧ isDigit b1 ∧ isDigit b2 ∧ isDigit b3 then
          some (digitsValue [b0, b1, b2, b3] 0 : Int) else none) := by
  by_cases hm : b0 = 0x2D
  · subst hm
    simp [Atoi, isDigit, digitsValue]
  · by_cases hp : b0 = 0x2B
    · subst hp
      simp [Atoi, isDigit, digitsValue]
    · simp [Atoi, isDigit, digitsValue, hm, hp]

theorem verifyVersion_four (b0 b1 b2 b3 : UInt8) (rest : Bytes) :
    verifyVersion (b0 :: b1 :: b2 :: b3 :: rest) =
      match Atoi [b0, b1, b2, b3] with
      | none => (some (.invalidVersion [b0, b1, b2, b3]), rest)
      | some version =>
        if version < minVersion ∨ version > maxVersion then
          (some (.unsupportedVersion version), rest)
        else (none, rest) := by
  simp [verifyVersion, readFull]

/-- The version check on four bytes accepts exactly the two shapes. -/
theorem verifyVersion_accepts (b0 b1 b2 b3 : UInt8) (rest : Bytes) :
    (verifyVersion (b0 :: b1 :: b2 :: b3 :: rest) = (none, rest) ↔
      fourDigitVersion b0 b1 b2 b3 ∨ plusSignVersion b0 b1 b2 b3) ∧
    (verifyVersion (b0 :: b1 :: b2 :: b3 :: rest) = (none, rest) ∨
      ∃ e, verifyVersion (b0 :: b1 :: b2 :: b3 :: rest) = (some e, rest)) := by
  rw [verifyVersion_four, Atoi_four]
  have hplus : (0x2B : UInt8) ≠ 0x2D := by decide
  have hd2B : ¬ isDigit 0x2B := by decide
  have hd2D : ¬ isDigit 0x2D := by decide
  by_cases hm : b0 = 0x2D
  · subst hm
    simp only [if_true, fourDigitVersion, plusSignVersion, hd2D, false_and, hplus.symm,
      or_self, iff_false]
    by_cases hd : isDigit b1 ∧ isDigit b2 ∧ isDigit b3
    · simp only [hd, and_self, if_true, minVersion, maxVersion]
      have : (-(digitsValue [b1, b2, b3] 0 : Int)) < 1 := by omega
      simp [this]
    · simp [hd]
  · by_cases hp : b0 = 0x2B
    · subst hp
      simp only [hm, if_false, if_true, fourDigitVersion, plusSignVersion, hd2B, false_and,
        false_or, true_and]
      by_cases hd : isDigit b1 ∧ isDigit b2 ∧ isDigit b3
      · simp only [hd, and_self, if_true, minVersion, maxVersion, true_and]
        by_cases hv : ((digitsValue [b1, b2, b3] 0 : Nat) : Int) < 1 ∨
            ((digitsValue [b1, b2, b3] 0 : Nat) : Int) > 9
        · simp only [hv, if_true]
          refine ⟨?_, Or.inr ⟨_, rfl⟩⟩
          simp only [Prod.mk.injEq, reduceCtorEq, false_and, false_iff]
          omega
        · simp only [hv, if_false, true_iff]
          refine ⟨?_, Or.inl trivial⟩
          omega
      · simp only [hd, if_false]
        refine ⟨?_, Or.inr ⟨_, rfl⟩⟩
        simp only [Prod.mk.injEq, reduceCtorEq, false_and, false_iff]
        tauto
    · simp only [hm, hp, if_false, fourDigitVersion, plusSignVersion, false_and, or_false]
      by_cases hd : isDigit b0 ∧ isDigit b1 ∧ isDigit b2 ∧ isDigit b3
      · simp only [hd, and_self, if_true, minVersion, maxVersion, true_and]
        by_cases hv : ((digitsValue [b0, b1, b2, b3] 0 : Nat) : Int) < 1 ∨
            ((digitsValue [b0, b1, b2, b3] 0 : Nat) : Int) > 9
        · simp only [hv, if_true]
          refine ⟨?_, Or.inr ⟨_, rfl⟩⟩
          simp only [Prod.mk.injEq, reduceCtorEq, false_and, false_iff]
          omega
        · simp only [hv, if_false, true_iff]
          refine ⟨?_, Or.inl trivial⟩
          omega
      · simp only [hd, if_false]
        refine ⟨?_, Or.inr ⟨_, rfl⟩⟩
        simp only [Prod.mk.injEq, reduceCtorEq, false_and, false_iff]
        tauto


theorem verifyMagicString_ok (rest : Bytes) :
    verifyMagicString (magicString ++ rest) = (none, rest) := by
  have := readFull_append magicString rest
  simp [verifyMagicString, this]

/-- C9, counterexample: the four bytes `+009` are not four decimal digits, yet
the version check accepts them, and the first call goes on to return the Aux
record that follows the header. -/
theorem version_check_counterexample :
    verifyVersion [0x2B, 0x30, 0x30, 0x39] = (none, []) ∧
      ¬ fourDigitVersion 0x2B 0x30 0x30 0x39 ∧
      Parser.run 1 (NewParser (magicString ++ [0x2B, 0x30, 0x30, 0x39, 0xFA, 0, 0])) =
        [some (.ok (.aux { Key := [], Value := [] }))] := by
  refine ⟨by rfl, by decide, by rfl⟩

/-- C9, amended: after a correct magic string the version check passes if and
only if the next four bytes are four ASCII decimal digits whose number is in
1..9, or a plus sign followed by three ASCII decimal digits whose number is in
1..9 (`strconv.Atoi` takes a leading sign); for every other four bytes the first
call to `Next` returns an error, with the nine header bytes consumed, and no
record. -/
theorem version_check_accepts (b0 b1 b2 b3 : UInt8) (rest : Bytes) :
    (verifyVersion (b0 :: b1 :: b2 :: b3 :: rest) = (none, rest) ↔
      fourDigitVersion b0 b1 b2 b3 ∨ plusSignVersion b0 b1 b2 b3) ∧
    (¬ (fourDigitVersion b0 b1 b2 b3 ∨ plusSignVersion b0 b1 b2 b3) →
      ∃ e, (NewParser (magicString ++ b0 :: b1 :: b2 :: b3 :: rest)).Next =
        some (.error e, NewParser rest)) := by
  obtain ⟨hiff, hor⟩ := verifyVersion_accepts b0 b1 b2 b3 rest
  refine ⟨hiff, fun hno => ?_⟩
  rcases hor with hok | ⟨e, he⟩
  · exact absurd (hiff.mp hok) hno
  · refine ⟨e, ?_⟩
    have hstep : (NewParser (magicString ++ b0 :: b1 :: b2 :: b3 :: rest)).step
        = .ret (.error e) (NewParser rest) := by
      simp [Parser.step, Parser.header, NewParser, verifyMagicString_ok, he]
    rw [Parser.Next, show 3 * (NewParser (magicString ++ b0 :: b1 :: b2 :: b3 :: rest)).reader.length
        + 3 = (3 * (NewParser (magicString ++ b0 :: b1 :: b2 :: b3 :: rest)).reader.length + 2) + 1
        by omega,
      NextFuel_ret _ _ _ _ hstep]

theorem version_check_accepts_witness :
    (verifyVersion [0x30, 0x30, 0x31, 0x30, 0xFF] = (none, [0xFF]) ↔
      fourDigitVersion 0x30 0x30 0x31 0x30 ∨ plusSignVersion 0x30 0x30 0x31 0x30) ∧
    ∃ e, (NewParser (magicString ++ [0x30, 0x30, 0x31, 0x30, 0xFF])).Next =
      some (.error e, NewParser [0xFF]) :=
  ⟨(version_check_accepts 0x30 0x30 0x31 0x30 [0xFF]).1,
    (version_check_accepts 0x30 0x30 0x31 0x30 [0xFF]).2 (by decide)⟩

/-! ### The magic string -/

/-- C10: on every input of at least five bytes whose first five bytes are not
`REDIS`, the first call to `Next` returns the invalid-magic-string error, and no
record; and on every input that starts with `REDIS` the magic check succeeds
with exactly those five bytes consumed. -/
theorem magic_check (input : Bytes) :
    (5 ≤ input.length → input.take 5 ≠ magicString →
      (NewParser input).Next = some (.error .invalidMagicString, NewParser (input.drop 5))) ∧
    (∀ rest : Bytes, input = magicString ++ rest → verifyMagicString input = (none, rest)) := by
  constructor
  · intro hlen hne
    have hstep : (NewParser input).step
        = .ret (.error .invalidMagicString) (NewParser (input.drop 5)) := by
      have hne1 : ¬ List.take 5 input = [82, 69, 68, 73, 83] := by
        simpa [magicString] using hne
      simp [Parser.step, Parser.header, NewParser, verifyMagicString, readFull, magicString,
        hlen, hne1]
    rw [Parser.Next, show 3 * (NewParser input).reader.length + 3
        = (3 * (NewParser input).reader.length + 2) + 1 by omega,
      NextFuel_ret _ _ _ _ hstep]
  · rintro rest rfl
    exact verifyMagicString_ok rest

theorem magic_check_witness :
    (NewParser [0x52, 0x45, 0x44, 0x49, 0x58, 0x30]).Next =
        some (.error .invalidMagicString, NewParser [0x30]) ∧
      verifyMagicString (magicString ++ [0x30, 0x30, 0x30, 0x39])
        = (none, [0x30, 0x30, 0x30, 0x39]) :=
  ⟨(magic_check [0x52, 0x45, 0x44, 0x49, 0x58, 0x30]).1 (by decide) (by decide),
    (magic_check (magicString ++ [0x30, 0x30, 0x30, 0x39])).2 [0x30, 0x30, 0x30, 0x39] rfl⟩


/-! ## Invalid intset encodings -/

/-- C11, the code at the failing input: an intset blob with the encoding 3 and
the length 0.  The iterator returns the head and then the slice, and no
invalid-intset-encoding error: the encoding is looked at only in `readValue`,
which a blob with no value never reaches. -/
theorem intSet_bad_encoding_empty :
    intSetIterator.run 3 { DataKey := ⟨0, [0x6B], none⟩, Mapper := defaultMapper }
        [8, 3, 0, 0, 0, 0, 0, 0, 0] =
      [.ok (.head { DataKey := ⟨0, [0x6B], none⟩, Length := 0 }),
        .ok (.slice { DataKey := ⟨0, [0x6B], none⟩, Value := [] }),
        .error .EOF] := by
  rfl

/-- The sibling path of C11: with the same encoding 3 and one value announced,
the call after the head returns the invalid-intset-encoding error carrying the
encoding, and so does every call after it. -/
theorem intSet_bad_encoding_one_value :
    intSetIterator.run 3 { DataKey := ⟨0, [0x6B], none⟩, Mapper := defaultMapper }
        [11, 3, 0, 0, 0, 1, 0, 0, 0, 7, 0, 0] =
      [.ok (.head { DataKey := ⟨0, [0x6B], none⟩, Length := 1 }),
        .error (.IntSetEncodingError 3),
        .error (.IntSetEncodingError 3)] := by
  rfl


/-! ## Zipmap blobs that end early -/

/-- The calls over the pairs at the head of the buffer: one entry each, whatever
follows the pairs. -/
theorem zipMap_run_pairs (key : DataKey) (len : Int) (r tail : Bytes) (m : Nat) :
    ∀ (pairs : List zipMapPair) (j : Nat) (vals : List Value),
    (∀ p ∈ pairs, p.wellFormed) →
    zipMapIterator.run (pairs.length + m)
      { DataKey := key, Mapper := defaultMapper, buf := some (zipMapPairs pairs ++ tail),
        index := (j : Int), length := len, values := vals } r
    = zipMapEntries key len j pairs
      ++ zipMapIterator.run m
        { DataKey := key, Mapper := defaultMapper, buf := some tail,
          index := ((j + pairs.length : Nat) : Int), length := len,
          values := vals ++ pairs.map zipMapPair.element } r := by
  intro pairs
  induction pairs with
  | nil => intro j vals _; simp [zipMapPairs, zipMapEntries]
  | cons p ps ih =>
    intro j vals hwf
    have hp : p.wellFormed := hwf p (List.mem_cons_self _ _)
    have hps : ∀ q ∈ ps, q.wellFormed := fun q hq => hwf q (List.mem_cons_of_mem _ hq)
    have hidx : ((j : Nat) : Int) + 1 = ((j + 1 : Nat) : Int) := by push_cast; ring
    rw [show (p :: ps).length + m = (ps.length + m) + 1 by simp; omega,
      zipMapIterator.run,
      zipMap_next_entry _ r (zipMapPairs ps ++ tail) p hp rfl
        (by simp [zipMapPairs]) rfl]
    simp only [hidx]
    rw [ih (j + 1) (vals ++ [p.element]) hps]
    simp [zipMapEntries, Nat.add_assoc, Nat.add_comm 1]

/-- The call that finds the end of the zipmap where the value length of `key`
is due. -/
theorem zipMap_next_value_missing (z : zipMapIterator) (r keyLength key tail : Bytes)
    (hk : zipMapLengthOf keyLength = some key.length)
    (ht : tail = [] ∨ ∃ rest, tail = 0xFF :: rest)
    (hd : z.done = false) (hb : z.buf = some (keyLength ++ key ++ tail)) :
    (z.Next r).1 = .error (.unexpectedZipMapEnd key) := by
  have k1 := zipMap_readLength_ok keyLength (key ++ tail) _ hk
  have k2 := readFull_append key tail
  have k3 : ∃ b, zipMapIterator.readLength tail = (.error .EOF, b) := by
    rcases ht with rfl | ⟨rest, rfl⟩
    · exact ⟨[], by simp [zipMapIterator.readLength, readByte]⟩
    · exact ⟨rest, zipMap_readLength_end rest⟩
  obtain ⟨b, k3⟩ := k3
  simp [zipMapIterator.Next, hd, hb, List.append_assoc, k1, k2, k3]


/-! ### The announced length of a zipmap -/

theorem zipMapEntries_length (key : DataKey) (len : Int) :
    ∀ (pairs : List zipMapPair) (j : Nat), (zipMapEntries key len j pairs).length = pairs.length := by
  intro pairs
  induction pairs with
  | nil => intro j; rfl
  | cons p ps ih => intro j; simp [zipMapEntries, ih]

theorem zipMapEntries_index (key : DataKey) (len : Int) :
    ∀ (pairs : List zipMapPair) (j : Nat),
    (zipMapEntries key len j pairs).map entryIndex
      = (List.range pairs.length).map (fun i => some ((j + i : Nat) : Int)) := by
  intro pairs
  induction pairs with
  | nil => intro j; rfl
  | cons p ps ih =>
    intro j
    simp [zipMapEntries, entryIndex, ih, List.range_succ_eq_map, Function.comp_def,
      Nat.add_assoc, Nat.add_comm 1]

/-- The calls over a whole zipmap blob. -/
theorem zipMap_run_blob (hint : UInt8) (pairs : List zipMapPair)
    (hwf : ∀ p ∈ pairs, p.wellFormed) (key : DataKey) (r r1 : Bytes)
    (hread : readString r = (.ok (zipMapBlob hint pairs), r1)) :
    zipMapIterator.run (pairs.length + 2) { DataKey := key, Mapper := defaultMapper } r =
      [.ok (.head { DataKey := key, Length := (hint.toNat : Int) })]
      ++ zipMapEntries key (hint.toNat : Int) 0 pairs
      ++ [.ok (.slice
            { DataKey := key, Length := (hint.toNat : Int),
              Value := pairs.map zipMapPair.element })] := by
  rw [show pairs.length + 2 = (pairs.length + 1 + 0) + 1 by omega, zipMapIterator.run,
    zipMap_next_head key r r1 _ hint hread]
  have := zipMap_run_entries key (hint.toNat : Int) r1 0 pairs 0 [] hwf
  simp only [Nat.cast_zero] at this
  rw [this]
  simp

set_option maxRecDepth 100000 in
/-- C14, counterexample: a zipmap blob with the hint byte 254 and 255 pairs
(empty key, empty value).  The head announces the Length 254 and 255 entries
come between the head and the slice. -/
theorem zipMap_length_counterexample :
    zipMapIterator.run 257 { DataKey := ⟨0, [0x68], none⟩, Mapper := defaultMapper }
        ([0x42, 0xFF] ++ zipMapBlob 254 (List.replicate 255 ⟨[0], [], [0], 0, []⟩)) =
      [.ok (.head { DataKey := ⟨0, [0x68], none⟩, Length := 254 })]
      ++ zipMapEntries ⟨0, [0x68], none⟩ 254 0 (List.replicate 255 ⟨[0], [], [0], 0, []⟩)
      ++ [.ok (.slice
            { DataKey := ⟨0, [0x68], none⟩, Length := 254,
              Value := (List.replicate 255 ⟨[0], [], [0], 0, []⟩).map zipMapPair.element })] ∧
    (zipMapEntries ⟨0, [0x68], none⟩ 254 0
      (List.replicate 255 ⟨[0], [], [0], 0, []⟩)).length = 255 := by
  constructor
  · have h := zipMap_run_blob 254 (List.replicate 255 ⟨[0], [], [0], 0, []⟩)
      (by
        intro p hp
        rw [List.eq_of_mem_replicate hp]
        decide)
      ⟨0, [0x68], none⟩
      ([0x42, 0xFF] ++ zipMapBlob 254 (List.replicate 255 ⟨[0], [], [0], 0, []⟩)) []
      (by rfl)
    exact h
  · rw [zipMapEntries_length, List.length_replicate]

/-- C14, amended: for a well-formed zipmap collection of `n` pairs,
`zipMapIterator` emits exactly `n` entries between the head and the slice, with
the indices 0..n-1 in order.  The Length announced in the head is the hint byte
of the blob and is not counted again, so the number of entries equals it exactly
when the hint byte is `n`. -/
theorem zipMap_entries_count (hint : UInt8) (pairs : List zipMapPair)
    (hwf : ∀ p ∈ pairs, p.wellFormed) (key : DataKey) (r r1 : Bytes)
    (hread : readString r = (.ok (zipMapBlob hint pairs), r1)) :
    zipMapIterator.run (pairs.length + 2) { DataKey := key, Mapper := defaultMapper } r =
      [.ok (.head { DataKey := key, Length := (hint.toNat : Int) })]
      ++ zipMapEntries key (hint.toNat : Int) 0 pairs
      ++ [.ok (.slice
            { DataKey := key, Length := (hint.toNat : Int),
              Value := pairs.map zipMapPair.element })] ∧
    (zipMapEntries key (hint.toNat : Int) 0 pairs).length = pairs.length ∧
    (zipMapEntries key (hint.toNat : Int) 0 pairs).map entryIndex
      = (List.range pairs.length).map (fun (i : Nat) => some (i : Int)) ∧
    (((zipMapEntries key (hint.toNat : Int) 0 pairs).length : Int) = (hint.toNat : Int)
      ↔ hint.toNat = pairs.length) := by
  refine ⟨zipMap_run_blob hint pairs hwf key r r1 hread, zipMapEntries_length _ _ _ _, ?_, ?_⟩
  · simpa using zipMapEntries_index key (hint.toNat : Int) pairs 0
  · rw [zipMapEntries_length]
    constructor
    · intro h; exact (Int.ofNat.inj h).symm
    · intro h; rw [h]

theorem zipMap_entries_count_witness :
    zipMapIterator.run (1 + 2) { DataKey := ⟨0, [0x68], none⟩, Mapper := defaultMapper }
        [7, 254, 1, 0x61, 1, 0, 0x78, 0xFF] =
      [.ok (.head { DataKey := ⟨0, [0x68], none⟩, Length := 254 })]
      ++ zipMapEntries ⟨0, [0x68], none⟩ 254 0 [⟨[1], [0x61], [1], 0, [0x78]⟩]
      ++ [.ok (.slice
            { DataKey := ⟨0, [0x68], none⟩, Length := 254,
              Value := [.hash ⟨[0x61], [0x78]⟩] })] ∧
    (zipMapEntries ⟨0, [0x68], none⟩ 254 0 [⟨[1], [0x61], [1], 0, [0x78]⟩]).length = 1 ∧
    (zipMapEntries ⟨0, [0x68], none⟩ 254 0 [⟨[1], [0x61], [1], 0, [0x78]⟩]).map entryIndex
      = (List.range 1).map (fun (i : Nat) => some (i : Int)) ∧
    (((zipMapEntries ⟨0, [0x68], none⟩ 254 0 [⟨[1], [0x61], [1], 0, [0x78]⟩]).length : Int)
        = 254
      ↔ (254 : UInt8).toNat = 1) :=
  zipMap_entries_count 254 [⟨[1], [0x61], [1], 0, [0x78]⟩] (by decide) ⟨0, [0x68], none⟩
    [7, 254, 1, 0x61, 1, 0, 0x78, 0xFF] [] (by rfl)



/-! ### Data types outside the dispatch -/

/-- The pass of `readData` for a data type it has no case for. -/
theorem readData_unsupported (p : Parser) (dt : UInt8) (hit : p.iterator = none)
    (h0 : dt ≠ typeString) (h1 : dt ≠ typeList) (h2 : dt ≠ typeSet)
    (h3 : ¬ (dt = typeZSet ∨ dt = typeZSet2)) (h4 : dt ≠ typeHash) (h5 : dt ≠ typeHashZipMap) :
    p.readData dt = .ret (.error (.unsupportedDataType dt)) p := by
  simp only [Parser.readData, hit, if_neg h0, if_neg h1, if_neg h2, if_neg h3, if_neg h4,
    if_neg h5]

/-- Two passes: the key is read, then `readData` rejects the data type. -/
theorem Next_unsupported (p : Parser) (b : UInt8) (rest k r1 : Bytes)
    (hinit : p.initialized = true) (hdt : p.dataType = none) (hit : p.iterator = none)
    (hr : p.reader = b :: rest) (hb : b.toNat < 247)
    (h0 : b ≠ typeString) (h1 : b ≠ typeList) (h2 : b ≠ typeSet)
    (h3 : ¬ (b = typeZSet ∨ b = typeZSet2)) (h4 : b ≠ typeHash) (h5 : b ≠ typeHashZipMap)
    (hk : readString rest = (.ok k, r1)) :
    p.Next = some (.error (.unsupportedDataType b),
      { p with reader := r1, key := k, dataType := some b }) := by
  have s1 : p.step = .loop { p with reader := r1, key := k, dataType := some b } := by
    rw [step_dataType p b rest hinit hdt hr hb]
    simp [Parser.readKey, hk]
  have s2 : Parser.step { p with reader := r1, key := k, dataType := some b }
      = .ret (.error (.unsupportedDataType b))
        { p with reader := r1, key := k, dataType := some b } := by
    rw [step_pending { p with reader := r1, key := k, dataType := some b } b hinit rfl]
    exact readData_unsupported _ b hit h0 h1 h2 h3 h4 h5
  rw [Parser.Next, show 3 * p.reader.length + 3 = (3 * p.reader.length + 1) + 1 + 1 by omega,
    NextFuel_loop _ _ _ s1, NextFuel_ret _ _ _ _ s2]

/-- C17: for every byte `b` that is neither an opcode (247..255) nor a data-type
code of the dispatch table (0..7, 9..15), that is `b = 8` or `16 <= b <= 246`,
when an initialized parser between keys reads `b` followed by an encoded key,
`Next` returns the unsupported-data-type error for `b` and no record. -/
theorem Next_unknown_data_type (p : Parser) (b : UInt8) (rest k r1 : Bytes)
    (hinit : p.initialized = true) (hdt : p.dataType = none) (hit : p.iterator = none)
    (hr : p.reader = b :: rest)
    (hb : b.toNat = 8 ∨ (16 ≤ b.toNat ∧ b.toNat < 247))
    (hk : readString rest = (.ok k, r1)) :
    p.Next = some (.error (.unsupportedDataType b),
      { p with reader := r1, key := k, dataType := some b }) := by
  have hlt : b.toNat < 247 := by omega
  have h0 : b ≠ typeString := by rintro rfl; revert hb; decide
  have h1 : b ≠ typeList := by rintro rfl; revert hb; decide
  have h2 : b ≠ typeSet := by rintro rfl; revert hb; decide
  have h3 : ¬ (b = typeZSet ∨ b = typeZSet2) := by
    rintro (rfl | rfl) <;> revert hb <;> decide
  have h4 : b ≠ typeHash := by rintro rfl; revert hb; decide
  have h5 : b ≠ typeHashZipMap := by rintro rfl; revert hb; decide
  exact Next_unsupported p b rest k r1 hinit hdt hit hr hlt h0 h1 h2 h3 h4 h5 hk

theorem Next_unknown_data_type_witness :
    Parser.Next { reader := [8, 1, 0x6B, 0xFF], db := 0, initialized := true } =
      some (.error (.unsupportedDataType 8),
        { reader := [0xFF], db := 0, initialized := true, key := [0x6B], dataType := some 8 }) :=
  Next_unknown_data_type { reader := [8, 1, 0x6B, 0xFF], db := 0, initialized := true }
    8 [1, 0x6B, 0xFF] [0x6B] [0xFF] rfl rfl rfl rfl (by decide) (by rfl)

/-! ### The Aux opcode -/

/-- C18: for an initialized parser between keys, if the input goes on with the
Aux opcode 0xFA, an encoded string `k` and an encoded string `v`, then `Next`
returns exactly the record `Aux` with key `k` and value `v`, consumes exactly
those bytes, and leaves the database, the pending expiry, the pending data type
and the iterator of the parser as they were. -/
theorem Next_aux_record (p : Parser) (rest k v r1 r2 : Bytes)
    (hinit : p.initialized = true) (hdt : p.dataType = none)
    (hr : p.reader = opCodeAux :: rest)
    (hk : readString rest = (.ok k, r1)) (hv : readString r1 = (.ok v, r2)) :
    p.Next = some (.ok (.aux { Key := k, Value := v }), { p with reader := r2 }) := by
  have e1 : (opCodeAux = opCodeExpireTimeMS) = False := eq_false (by decide)
  have e2 : (opCodeAux = opCodeExpireTime) = False := eq_false (by decide)
  have e3 : (opCodeAux = opCodeIdle) = False := eq_false (by decide)
  have e4 : (opCodeAux = opCodeFreq) = False := eq_false (by decide)
  have e5 : (opCodeAux = opCodeSelectDB) = False := eq_false (by decide)
  have hstep : p.step = .ret (.ok (.aux { Key := k, Value := v })) { p with reader := r2 } := by
    simp only [step_initialized p hinit, Parser.body, hdt, hr, readByte, e1, e2, e3, e4, e5,
      if_false, if_true, hk, hv]
  rw [Parser.Next, show 3 * p.reader.length + 3 = (3 * p.reader.length + 2) + 1 by omega,
    NextFuel_ret _ _ _ _ hstep]

theorem Next_aux_record_witness :
    Parser.Next
        { reader := [0xFA, 2, 0x6B, 0x31, 1, 0x76, 0xFF], db := 3, initialized := true,
          expiry := some ⟨1000⟩ } =
      some (.ok (.aux { Key := [0x6B, 0x31], Value := [0x76] }),
        { reader := [0xFF], db := 3, initialized := true, expiry := some ⟨1000⟩ }) :=
  Next_aux_record
    { reader := [0xFA, 2, 0x6B, 0x31, 1, 0x76, 0xFF], db := 3, initialized := true,
      expiry := some ⟨1000⟩ }
    [2, 0x6B, 0x31, 1, 0x76, 0xFF] [0x6B, 0x31] [0x76] [1, 0x76, 0xFF] [0xFF]
    rfl rfl rfl (by rfl) (by rfl)

/-! ### The intset data type and the ResizeDB opcode -/

/-- C15, the code at the failing input: after the header, data-type byte 11, the
key `a` and a well-formed intset blob (encoding 2, the values 1, 2, 3).  The
first call returns the unsupported-data-type error, and so does the second:
`readData` has no case for 11. -/
theorem intset_data_type_not_dispatched :
    Parser.run 2
        (NewParser (header9 ++ [11, 1, 0x61, 14, 2, 0, 0, 0, 3, 0, 0, 0, 1, 0, 2, 0, 3, 0])) =
      [some (.error (.unsupportedDataType 11)), some (.error (.unsupportedDataType 11))] := by
  rfl

/-- C16, the code at the failing input: after the header, the ResizeDB opcode
0xFB, the two lengths 1 and 0, and the EOF opcode.  The opcode falls out of the
switch, the bytes `01 00` are read as a key of one byte, 0xFB is recorded as the
data type, and the call returns the unsupported-data-type error for 251. -/
theorem resizeDB_read_as_data_type :
    (NewParser (header9 ++ [0xFB, 1, 0, 0xFF])).Next =
      some (.error (.unsupportedDataType 251),
        { reader := [0xFF], db := -1, initialized := true, key := [0],
          dataType := some 251 }) := by
  rfl



/-! ### Zipmap blobs that end early, through the parser -/

/-- A call to `Next` while an iterator is in use and hands out a record. -/
theorem Next_iterator_ok (p : Parser) (dt : UInt8) (it it1 : iterator) (rec : Record)
    (r1 : Bytes) (hinit : p.initialized = true) (hdt : p.dataType = some dt)
    (hit : p.iterator = some it) (hn : it.Next p.reader = (.ok rec, it1, r1)) :
    p.Next = some (.ok rec, { p with reader := r1, iterator := some it1 }) := by
  have hstep : p.step = .ret (.ok rec) { p with reader := r1, iterator := some it1 } := by
    simp [step_initialized p hinit, Parser.body, hdt, Parser.readData, hit, hn]
  rw [Parser.Next, show 3 * p.reader.length + 3 = (3 * p.reader.length + 2) + 1 by omega,
    NextFuel_ret _ _ _ _ hstep]

/-- A call to `Next` while an iterator is in use and fails with an error that
is not the exhaustion marker. -/
theorem Next_iterator_error (p : Parser) (dt : UInt8) (it it1 : iterator) (e : Err)
    (r1 : Bytes) (hinit : p.initialized = true) (hdt : p.dataType = some dt)
    (hit : p.iterator = some it) (hn : it.Next p.reader = (.error e, it1, r1))
    (he : e ≠ .EOF) :
    p.Next = some (.error e, { p with reader := r1, iterator := some it1 }) := by
  have hstep : p.step = .ret (.error e) { p with reader := r1, iterator := some it1 } := by
    simp [step_initialized p hinit, Parser.body, hdt, Parser.readData, hit, hn, he]
  rw [Parser.Next, show 3 * p.reader.length + 3 = (3 * p.reader.length + 2) + 1 by omega,
    NextFuel_ret _ _ _ _ hstep]

theorem run_iterator_ok (p : Parser) (dt : UInt8) (it : iterator) (rec : Record)
    (hinit : p.initialized = true) (hdt : p.dataType = some dt)
    (hit : p.iterator = some it) (hn : (it.Next p.reader).1 = .ok rec) :
    Parser.run 1 p = [some (.ok rec)] := by
  rcases h : it.Next p.reader with ⟨res, it1, r1⟩
  rw [h] at hn
  simp only at hn
  subst hn
  simp [Parser.run, Next_iterator_ok p dt it it1 rec r1 hinit hdt hit h]

theorem run_iterator_error (p : Parser) (dt : UInt8) (it : iterator) (e : Err)
    (hinit : p.initialized = true) (hdt : p.dataType = some dt)
    (hit : p.iterator = some it) (hn : (it.Next p.reader).1 = .error e) (he : e ≠ .EOF) :
    Parser.run 1 p = [some (.error e)] := by
  rcases h : it.Next p.reader with ⟨res, it1, r1⟩
  rw [h] at hn
  simp only at hn
  subst hn
  simp [Parser.run, Next_iterator_error p dt it it1 e r1 hinit hdt hit h he]

/-- The first call over data-type byte 9, a key and a zipmap blob: three passes,
the last of which hands out the head. -/
theorem Next_zipMap_head (p : Parser) (rest k r1 r2 body : Bytes) (hint : UInt8)
    (hinit : p.initialized = true) (hdt : p.dataType = none) (hit : p.iterator = none)
    (hr : p.reader = typeHashZipMap :: rest)
    (hk : readString rest = (.ok k, r1))
    (hblob : readString r1 = (.ok (hint :: body), r2)) :
    p.Next = some
      (.ok (.head
        { DataKey := { Database := p.db, Key := k, Expiry := p.expiry },
          Length := (hint.toNat : Int) }),
        { p with
          reader := r2, key := k, dataType := some typeHashZipMap,
          iterator := some (.zipMap
            { DataKey := { Database := p.db, Key := k, Expiry := p.expiry },
              Mapper := defaultMapper, buf := some body, length := (hint.toNat : Int) }) }) := by
  have s1 : p.step = .loop { p with reader := r1, key := k, dataType := some typeHashZipMap } := by
    rw [step_dataType p typeHashZipMap rest hinit hdt hr (by decide)]
    simp [Parser.readKey, hk]
  have s2 : Parser.step { p with reader := r1, key := k, dataType := some typeHashZipMap }
      = .loop { p with
          reader := r1, key := k, dataType := some typeHashZipMap,
          iterator := some (.zipMap
            { DataKey := { Database := p.db, Key := k, Expiry := p.expiry },
              Mapper := defaultMapper }) } := by
    rw [step_pending { p with reader := r1, key := k, dataType := some typeHashZipMap }
      typeHashZipMap hinit rfl]
    have e0 : (typeHashZipMap = typeString) = False := eq_false (by decide)
    have e1 : (typeHashZipMap = typeList) = False := eq_false (by decide)
    have e2 : (typeHashZipMap = typeSet) = False := eq_false (by decide)
    have e3 : (typeHashZipMap = typeZSet ∨ typeHashZipMap = typeZSet2) = False :=
      eq_false (by decide)
    have e4 : (typeHashZipMap = typeHash) = False := eq_false (by decide)
    simp only [Parser.readData, hit, e0, e1, e2, e3, e4, if_false, if_true, hashMapper]
  have s3 : Parser.step { p with
          reader := r1, key := k, dataType := some typeHashZipMap,
          iterator := some (.zipMap
            { DataKey := { Database := p.db, Key := k, Expiry := p.expiry },
              Mapper := defaultMapper }) }
      = .ret (.ok (.head
          { DataKey := { Database := p.db, Key := k, Expiry := p.expiry },
            Length := (hint.toNat : Int) }))
        { p with
          reader := r2, key := k, dataType := some typeHashZipMap,
          iterator := some (.zipMap
            { DataKey := { Database := p.db, Key := k, Expiry := p.expiry },
              Mapper := defaultMapper, buf := some body, length := (hint.toNat : Int) }) } := by
    simp [Parser.step, Parser.header, hinit, Parser.body, Parser.readData, iterator.Next,
      zipMap_next_head _ r1 r2 body hint hblob]
  rw [Parser.Next, show 3 * p.reader.length + 3 = (3 * p.reader.length) + 1 + 1 + 1 by omega,
    NextFuel_loop _ _ _ s1, NextFuel_loop _ _ _ s2, NextFuel_ret _ _ _ _ s3]


/-- The calls of the parser over the pairs at the head of the buffer of its
zipmap iterator. -/
theorem Parser_run_zipMap_pairs (key : DataKey) (len : Int) (tail : Bytes) (m : Nat) :
    ∀ (pairs : List zipMapPair) (j : Nat) (vals : List Value) (p : Parser),
    (∀ q ∈ pairs, q.wellFormed) → p.initialized = true →
    p.dataType = some typeHashZipMap →
    p.iterator = some (.zipMap
      { DataKey := key, Mapper := defaultMapper, buf := some (zipMapPairs pairs ++ tail),
        index := (j : Int), length := len, values := vals }) →
    Parser.run (pairs.length + m) p
    = (zipMapEntries key len j pairs).map some
      ++ Parser.run m { p with
          iterator := some (.zipMap
            { DataKey := key, Mapper := defaultMapper, buf := some tail,
              index := ((j + pairs.length : Nat) : Int), length := len,
              values := vals ++ pairs.map zipMapPair.element }) } := by
  intro pairs
  induction pairs with
  | nil =>
    intro j vals p _ _ _ hit
    have : p = { p with
        iterator := some (.zipMap
          { DataKey := key, Mapper := defaultMapper, buf := some tail,
            index := ((j + 0 : Nat) : Int), length := len, values := vals ++ [] }) } := by
      cases p; simp_all [zipMapPairs]
    simp only [List.length_nil, Nat.zero_add, zipMapEntries, List.map_nil, List.nil_append,
      List.map_nil]
    rw [← this]
  | cons q qs ih =>
    intro j vals p hwf hinit hdt hit
    have hq : q.wellFormed := hwf q (List.mem_cons_self _ _)
    have hqs : ∀ x ∈ qs, x.wellFormed := fun x hx => hwf x (List.mem_cons_of_mem _ hx)
    have hidx : ((j : Nat) : Int) + 1 = ((j + 1 : Nat) : Int) := by push_cast; ring
    have hz := zipMap_next_entry
      { DataKey := key, Mapper := defaultMapper, buf := some (zipMapPairs (q :: qs) ++ tail),
        index := (j : Int), length := len, values := vals }
      p.reader (zipMapPairs qs ++ tail) q hq rfl (by simp [zipMapPairs]) rfl
    simp only at hz
    have hnext := Next_iterator_ok p typeHashZipMap
      (.zipMap
        { DataKey := key, Mapper := defaultMapper, buf := some (zipMapPairs (q :: qs) ++ tail),
          index := (j : Int), length := len, values := vals })
      (.zipMap
        { DataKey := key, Mapper := defaultMapper, buf := some (zipMapPairs qs ++ tail),
          index := (j : Int) + 1, length := len, values := vals ++ [q.element] })
      (.entry { DataKey := key, Index := (j : Int), Length := len, Value := q.element })
      p.reader hinit hdt hit (by simp only [iterator.Next, hz])
    rw [show (q :: qs).length + m = (qs.length + m) + 1 by simp; omega, Parser.run, hnext]
    simp only [hidx]
    have ih2 := ih (j + 1) (vals ++ [q.element])
      { p with
        reader := p.reader,
        iterator := some (.zipMap
          { DataKey := key, Mapper := defaultMapper, buf := some (zipMapPairs qs ++ tail),
            index := ((j + 1 : Nat) : Int), length := len, values := vals ++ [q.element] }) }
      hqs hinit hdt rfl
    rw [ih2]
    simp [zipMapEntries, Nat.add_assoc, Nat.add_comm 1]


theorem readFull_short (n : Nat) (part : Bytes) (h0 : 0 < part.length) (hn : part.length < n) :
    readFull n part = (.error .ErrUnexpectedEOF, []) := by
  have hne : part ≠ [] := by intro h; simp [h] at h0
  simp [readFull, Nat.not_le.mpr hn, hne]

/-- The buffer ends where a key length is due: the end counts as the terminator
and the slice comes out. -/
theorem zipMap_next_buffer_end (z : zipMapIterator) (r : Bytes) (hd : z.done = false)
    (hb : z.buf = some []) (hm : z.Mapper = defaultMapper) :
    z.Next r =
      (.ok (.slice { DataKey := z.DataKey, Length := z.length, Value := z.values }),
        { z with done := true, buf := none }, r) := by
  simp [zipMapIterator.Next, hd, hb, hm, zipMapIterator.readLength, readByte, defaultMapper]

/-- The buffer ends inside the bytes of a key. -/
theorem zipMap_next_key_cut (z : zipMapIterator) (r keyLength part : Bytes) (n : Nat)
    (hk : zipMapLengthOf keyLength = some n) (h0 : 0 < part.length) (hn : part.length < n)
    (hd : z.done = false) (hb : z.buf = some (keyLength ++ part)) :
    z.Next r = (.error .ErrUnexpectedEOF, { z with buf := some [] }, r) := by
  have k1 := zipMap_readLength_ok keyLength part _ hk
  have k2 := readFull_short n part h0 hn
  simp [zipMapIterator.Next, hd, hb, k1, k2]

/-- The buffer ends inside the bytes of a value. -/
theorem zipMap_next_value_cut (z : zipMapIterator) (r keyLength key valueLength part : Bytes)
    (free : UInt8) (n : Nat)
    (hk : zipMapLengthOf keyLength = some key.length)
    (hv : zipMapLengthOf valueLength = some n) (h0 : 0 < part.length) (hn : part.length < n)
    (hd : z.done = false)
    (hb : z.buf = some (keyLength ++ (key ++ (valueLength ++ (free :: part))))) :
    z.Next r = (.error .ErrUnexpectedEOF, { z with buf := some [] }, r) := by
  have k1 := zipMap_readLength_ok keyLength (key ++ (valueLength ++ (free :: part))) _ hk
  have k2 := readFull_append key (valueLength ++ (free :: part))
  have k3 := zipMap_readLength_ok valueLength (free :: part) _ hv
  have k4 := readFull_short n part h0 hn
  simp [zipMapIterator.Next, hd, hb, k1, k2, k3, k4, readByte]

/-- C12, counterexample: after the header, data-type byte 9, the key `a` and a
zipmap blob with one complete pair and no terminator.  The calls return the
head, the entry and then a slice: the truncated blob is completed.  With the
blob cut before the free byte of its pair, the second call returns the
exhaustion marker: the collection is taken to have ended. -/
theorem zipMap_truncated_counterexample :
    Parser.run 3 (NewParser (header9 ++ [9, 1, 0x61, 6, 2, 1, 0x6B, 1, 0, 0x76])) =
      [some (.ok (.head { DataKey := ⟨-1, [0x61], none⟩, Length := 2 })),
        some (.ok (.entry
          { DataKey := ⟨-1, [0x61], none⟩, Index := 0, Length := 2,
            Value := .hash ⟨[0x6B], [0x76]⟩ })),
        some (.ok (.slice
          { DataKey := ⟨-1, [0x61], none⟩, Length := 2,
            Value := [.hash ⟨[0x6B], [0x76]⟩] }))] ∧
    Parser.run 2 (NewParser (header9 ++ [9, 1, 0x61, 4, 2, 1, 0x6B, 1])) =
      [some (.ok (.head { DataKey := ⟨-1, [0x61], none⟩, Length := 2 })),
        some (.error .EOF)] := by
  constructor <;> rfl

/-- Through the parser: the call on which the zipmap iterator fails with
`io.ErrUnexpectedEOF` and leaves a spent buffer, and the call after it, which
returns the slice of what was decoded. -/
theorem Parser_run_zipMap_cut (p : Parser) (z : zipMapIterator)
    (hinit : p.initialized = true) (hdt : p.dataType = some typeHashZipMap)
    (hit : p.iterator = some (.zipMap z))
    (hn : z.Next p.reader = (.error .ErrUnexpectedEOF, { z with buf := some [] }, p.reader))
    (hd : z.done = false) (hm : z.Mapper = defaultMapper) :
    Parser.run 2 p =
      [some (.error .ErrUnexpectedEOF),
        some (.ok (.slice { DataKey := z.DataKey, Length := z.length, Value := z.values }))] := by
  have h1 := Next_iterator_error p typeHashZipMap (.zipMap z)
    (.zipMap { z with buf := some [] }) .ErrUnexpectedEOF p.reader hinit hdt hit
    (by simp only [iterator.Next, hn]) (by decide)
  have hz := zipMap_next_buffer_end { z with buf := some [] } p.reader hd rfl hm
  have h2 := run_iterator_ok
    { p with reader := p.reader, iterator := some (.zipMap { z with buf := some [] }) }
    typeHashZipMap (.zipMap { z with buf := some [] })
    (.slice { DataKey := z.DataKey, Length := z.length, Value := z.values })
    hinit hdt rfl (by simp only [iterator.Next, hz])
  rw [show (2 : Nat) = 1 + 1 from rfl, Parser.run, h1]
  simp only
  rw [h2]

/-- C12, amended: for a zipmap blob that ends without the terminator 0xFF,
decoded through `Next` with data type 9 after complete pairs, the truncated
blob is completed with a slice.  When the blob is exhausted where a key length
is due, the end of the blob counts as the terminator and that call returns the
slice of the pairs decoded.  When it is exhausted inside the bytes of a key or
inside the bytes of a value, after at least one of them, that call returns
`io.ErrUnexpectedEOF`, an error other than the exhaustion marker, in place of
an entry, and the call after it, which finds the buffer spent, returns the
slice of the pairs decoded before. -/
theorem zipMap_truncated (p : Parser) (rest k r1 r2 tail : Bytes) (hint : UInt8)
    (pairs : List zipMapPair) (hwf : ∀ q ∈ pairs, q.wellFormed)
    (hinit : p.initialized = true) (hdt : p.dataType = none) (hit : p.iterator = none)
    (hr : p.reader = typeHashZipMap :: rest)
    (hk : readString rest = (.ok k, r1))
    (hblob : readString r1 = (.ok (hint :: (zipMapPairs pairs ++ tail)), r2)) :
    (tail = [] →
      Parser.run (pairs.length + 2) p =
        [some (.ok (.head
          { DataKey := { Database := p.db, Key := k, Expiry := p.expiry },
            Length := (hint.toNat : Int) }))]
        ++ (zipMapEntries { Database := p.db, Key := k, Expiry := p.expiry }
              (hint.toNat : Int) 0 pairs).map some
        ++ [some (.ok (.slice
              { DataKey := { Database := p.db, Key := k, Expiry := p.expiry },
                Length := (hint.toNat : Int), Value := pairs.map zipMapPair.element }))]) ∧
    (∀ (keyLength part : Bytes) (n : Nat), tail = keyLength ++ part →
      zipMapLengthOf keyLength = some n → 0 < part.length → part.length < n →
      Parser.run (pairs.length + 3) p =
        [some (.ok (.head
          { DataKey := { Database := p.db, Key := k, Expiry := p.expiry },
            Length := (hint.toNat : Int) }))]
        ++ (zipMapEntries { Database := p.db, Key := k, Expiry := p.expiry }
              (hint.toNat : Int) 0 pairs).map some
        ++ [some (.error .ErrUnexpectedEOF),
            some (.ok (.slice
              { DataKey := { Database := p.db, Key := k, Expiry := p.expiry },
                Length := (hint.toNat : Int), Value := pairs.map zipMapPair.element }))]) ∧
    (∀ (keyLength key valueLength part : Bytes) (free : UInt8) (n : Nat),
      tail = keyLength ++ (key ++ (valueLength ++ (free :: part))) →
      zipMapLengthOf keyLength = some key.length → zipMapLengthOf valueLength = some n →
      0 < part.length → part.length < n →
      Parser.run (pairs.length + 3) p =
        [some (.ok (.head
          { DataKey := { Database := p.db, Key := k, Expiry := p.expiry },
            Length := (hint.toNat : Int) }))]
        ++ (zipMapEntries { Database := p.db, Key := k, Expiry := p.expiry }
              (hint.toNat : Int) 0 pairs).map some
        ++ [some (.error .ErrUnexpectedEOF),
            some (.ok (.slice
              { DataKey := { Database := p.db, Key := k, Expiry := p.expiry },
                Length := (hint.toNat : Int), Value := pairs.map zipMapPair.element }))]) ∧
    Err.ErrUnexpectedEOF ≠ Err.EOF := by
  have hhead := Next_zipMap_head p rest k r1 r2 (zipMapPairs pairs ++ tail) hint hinit hdt hit
    hr hk hblob
  have hrun : ∀ (m : Nat) xs, Parser.run m { p with
      reader := r2, key := k, dataType := some typeHashZipMap,
      iterator := some (.zipMap
        { DataKey := { Database := p.db, Key := k, Expiry := p.expiry },
          Mapper := defaultMapper, buf := some tail,
          index := ((0 + pairs.length : Nat) : Int), length := (hint.toNat : Int),
          values := [] ++ pairs.map zipMapPair.element }) } = xs →
      Parser.run (pairs.length + m + 1) p =
        [some (.ok (.head
          { DataKey := { Database := p.db, Key := k, Expiry := p.expiry },
            Length := (hint.toNat : Int) }))]
        ++ (zipMapEntries { Database := p.db, Key := k, Expiry := p.expiry }
              (hint.toNat : Int) 0 pairs).map some
        ++ xs := by
    intro m xs hx
    have hpairs := Parser_run_zipMap_pairs { Database := p.db, Key := k, Expiry := p.expiry }
      (hint.toNat : Int) tail m pairs 0 []
      { p with
        reader := r2, key := k, dataType := some typeHashZipMap,
        iterator := some (.zipMap
          { DataKey := { Database := p.db, Key := k, Expiry := p.expiry },
            Mapper := defaultMapper, buf := some (zipMapPairs pairs ++ tail),
            length := (hint.toNat : Int) }) }
      hwf hinit rfl rfl
    rw [Parser.run, hhead]
    simp only
    rw [hpairs, hx]
    simp
  refine ⟨?_, ?_, ?_, by decide⟩
  · rintro rfl
    apply hrun 1
    have hz := zipMap_next_buffer_end
      { DataKey := { Database := p.db, Key := k, Expiry := p.expiry },
        Mapper := defaultMapper, buf := some [],
        index := ((0 + pairs.length : Nat) : Int), length := (hint.toNat : Int),
        values := [] ++ pairs.map zipMapPair.element } r2 rfl rfl rfl
    simp only at hz
    have hn := run_iterator_ok
      { p with
        reader := r2, key := k, dataType := some typeHashZipMap,
        iterator := some (.zipMap
          { DataKey := { Database := p.db, Key := k, Expiry := p.expiry },
            Mapper := defaultMapper, buf := some [],
            index := ((0 + pairs.length : Nat) : Int), length := (hint.toNat : Int),
            values := [] ++ pairs.map zipMapPair.element }) }
      typeHashZipMap _
      (.slice
        { DataKey := { Database := p.db, Key := k, Expiry := p.expiry },
          Length := (hint.toNat : Int), Value := [] ++ pairs.map zipMapPair.element })
      hinit rfl rfl (by simp only [iterator.Next, hz])
    simpa using hn
  · rintro keyLength part n rfl hkl h0 hn
    apply hrun 2
    have hz := zipMap_next_key_cut
      { DataKey := { Database := p.db, Key := k, Expiry := p.expiry },
        Mapper := defaultMapper, buf := some (keyLength ++ part),
        index := ((0 + pairs.length : Nat) : Int), length := (hint.toNat : Int),
        values := [] ++ pairs.map zipMapPair.element } r2 keyLength part n hkl h0 hn rfl rfl
    have := Parser_run_zipMap_cut
      { p with
        reader := r2, key := k, dataType := some typeHashZipMap,
        iterator := some (.zipMap
          { DataKey := { Database := p.db, Key := k, Expiry := p.expiry },
            Mapper := defaultMapper, buf := some (keyLength ++ part),
            index := ((0 + pairs.length : Nat) : Int), length := (hint.toNat : Int),
            values := [] ++ pairs.map zipMapPair.element }) }
      _ hinit rfl rfl hz rfl rfl
    simpa using this
  · rintro keyLength key valueLength part free n rfl hkl hvl h0 hn
    apply hrun 2
    have hz := zipMap_next_value_cut
      { DataKey := { Database := p.db, Key := k, Expiry := p.expiry },
        Mapper := defaultMapper,
        buf := some (keyLength ++ (key ++ (valueLength ++ (free :: part)))),
        index := ((0 + pairs.length : Nat) : Int), length := (hint.toNat : Int),
        values := [] ++ pairs.map zipMapPair.element } r2 keyLength key valueLength part free n
      hkl hvl h0 hn rfl rfl
    have := Parser_run_zipMap_cut
      { p with
        reader := r2, key := k, dataType := some typeHashZipMap,
        iterator := some (.zipMap
          { DataKey := { Database := p.db, Key := k, Expiry := p.expiry },
            Mapper := defaultMapper,
            buf := some (keyLength ++ (key ++ (valueLength ++ (free :: part)))),
            index := ((0 + pairs.length : Nat) : Int), length := (hint.toNat : Int),
            values := [] ++ pairs.map zipMapPair.element }) }
      _ hinit rfl rfl hz rfl rfl
    simpa using this

theorem zipMap_truncated_witness :
    Parser.run (1 + 3)
        { reader := [9, 1, 0x61, 8, 2, 1, 0x62, 1, 0, 0x78, 3, 0x6B, 0xFF], db := 0,
          initialized := true } =
      [some (.ok (.head { DataKey := { Database := 0, Key := [0x61], Expiry := none },
                          Length := ((2 : UInt8).toNat : Int) }))]
      ++ (zipMapEntries { Database := 0, Key := [0x61], Expiry := none }
            ((2 : UInt8).toNat : Int) 0 [⟨[1], [0x62], [1], 0, [0x78]⟩]).map some
      ++ [some (.error .ErrUnexpectedEOF),
          some (.ok (.slice
            { DataKey := { Database := 0, Key := [0x61], Expiry := none },
              Length := ((2 : UInt8).toNat : Int),
              Value := [⟨[1], [0x62], [1], 0, [0x78]⟩].map zipMapPair.element }))] :=
  (zipMap_truncated
    { reader := [9, 1, 0x61, 8, 2, 1, 0x62, 1, 0, 0x78, 3, 0x6B, 0xFF], db := 0,
      initialized := true }
    [1, 0x61, 8, 2, 1, 0x62, 1, 0, 0x78, 3, 0x6B, 0xFF] [0x61]
    [8, 2, 1, 0x62, 1, 0, 0x78, 3, 0x6B, 0xFF] [0xFF] [3, 0x6B] 2
    [⟨[1], [0x62], [1], 0, [0x78]⟩]
    (by decide) rfl rfl rfl rfl (by rfl) (by rfl)).2.1 [3] [0x6B] 3 rfl rfl (by decide)
    (by decide)

/-! ### The calls after a zipmap error -/

/-- The call over a spent buffer and the calls after it: the slice of what was
decoded, then the exhaustion marker on every call. -/
theorem zipMap_run_after_end (z : zipMapIterator) (r : Bytes) (hd : z.done = false)
    (hb : z.buf = some []) (hm : z.Mapper = defaultMapper) (m : Nat) :
    zipMapIterator.run (m + 1) z r =
      .ok (.slice { DataKey := z.DataKey, Length := z.length, Value := z.values })
        :: List.replicate m (.error .EOF) := by
  rw [zipMapIterator.run, zipMap_next_buffer_end z r hd hb hm]
  simp only
  rw [zipMap_run_done m _ r rfl]

/-- The call that finds the end of the zipmap where the value length of `key`
is due, with the iterator it leaves: the buffer is kept, minus the terminator
byte when that is what was read, and the iterator is not done. -/
theorem zipMap_next_value_missing_state (z : zipMapIterator) (r keyLength key tail : Bytes)
    (hk : zipMapLengthOf keyLength = some key.length)
    (ht : tail = [] ∨ ∃ rest, tail = 0xFF :: rest)
    (hd : z.done = false) (hb : z.buf = some (keyLength ++ key ++ tail)) :
    z.Next r = (.error (.unexpectedZipMapEnd key), { z with buf := some (tail.drop 1) }, r) := by
  have k1 := zipMap_readLength_ok keyLength (key ++ tail) _ hk
  have k2 := readFull_append key tail
  have k3 : zipMapIterator.readLength tail = (.error .EOF, tail.drop 1) := by
    rcases ht with rfl | ⟨rest, rfl⟩
    · simp [zipMapIterator.readLength, readByte]
    · simpa using zipMap_readLength_end rest
  simp [zipMapIterator.Next, hd, hb, List.append_assoc, k1, k2, k3]

/-- The calls up to the first byte after the complete pairs. -/
theorem zipMap_run_to_tail (hint : UInt8) (pairs : List zipMapPair)
    (hwf : ∀ p ∈ pairs, p.wellFormed) (tail : Bytes) (dataKey : DataKey) (r r1 : Bytes)
    (hread : readString r = (.ok (hint :: (zipMapPairs pairs ++ tail)), r1)) (m : Nat) :
    zipMapIterator.run (pairs.length + m + 1) { DataKey := dataKey, Mapper := defaultMapper } r =
      [.ok (.head { DataKey := dataKey, Length := (hint.toNat : Int) })]
      ++ zipMapEntries dataKey (hint.toNat : Int) 0 pairs
      ++ zipMapIterator.run m
          { DataKey := dataKey, Mapper := defaultMapper, buf := some tail,
            index := (pairs.length : Int), length := (hint.toNat : Int),
            values := pairs.map zipMapPair.element } r1 := by
  rw [zipMapIterator.run, zipMap_next_head dataKey r r1 _ hint hread]
  have h1 := zipMap_run_pairs dataKey (hint.toNat : Int) r1 tail m pairs 0 [] hwf
  simp only [Nat.cast_zero, Nat.zero_add, List.nil_append] at h1
  rw [h1]
  simp


/-- C13, counterexample: a zipmap blob with the hint 2, the complete pair
`a`/`x`, the key `b` and then the terminator 0xFF where the value length of `b`
is due.  The third call returns the unexpected-end error naming `b`; the fourth
call returns a slice all the same. -/
theorem zipMap_value_missing_counterexample :
    zipMapIterator.run 4 { DataKey := ⟨0, [0x68], none⟩, Mapper := defaultMapper }
        [9, 2, 1, 0x61, 1, 0, 0x78, 1, 0x62, 0xFF] =
      [.ok (.head { DataKey := ⟨0, [0x68], none⟩, Length := 2 }),
        .ok (.entry
          { DataKey := ⟨0, [0x68], none⟩, Index := 0, Length := 2,
            Value := .hash ⟨[0x61], [0x78]⟩ }),
        .error (.unexpectedZipMapEnd [0x62]),
        .ok (.slice
          { DataKey := ⟨0, [0x68], none⟩, Length := 2,
            Value := [.hash ⟨[0x61], [0x78]⟩] })] := by
  rfl

/-- C13, amended: for a zipmap blob in which, after any number of complete
pairs, a key has been read and the byte where its value length is due is the
terminator 0xFF or is missing, the calls to `zipMapIterator.Next` yield the
head, the entries of the complete pairs, and then the unexpected-end-of-zipmap
error that names that key, in place of an entry for it.  The iterator does not
stop at the error: when the blob ends there, with or without the terminator
byte, the call after the error returns the slice of the pairs decoded before
the key, and every call after that the exhaustion marker, so no call returns an
entry for the key. -/
theorem zipMap_value_missing (hint : UInt8) (pairs : List zipMapPair)
    (hwf : ∀ p ∈ pairs, p.wellFormed) (keyLength key tail : Bytes)
    (hk : zipMapLengthOf keyLength = some key.length)
    (ht : tail = [] ∨ ∃ rest, tail = 0xFF :: rest)
    (dataKey : DataKey) (r r1 : Bytes)
    (hread : readString r
      = (.ok (hint :: (zipMapPairs pairs ++ (keyLength ++ key ++ tail))), r1)) :
    zipMapIterator.run (pairs.length + 2) { DataKey := dataKey, Mapper := defaultMapper } r =
        [.ok (.head { DataKey := dataKey, Length := (hint.toNat : Int) })]
        ++ zipMapEntries dataKey (hint.toNat : Int) 0 pairs
        ++ [.error (.unexpectedZipMapEnd key)] ∧
      (tail = [] ∨ tail = [0xFF] → ∀ m : Nat,
        zipMapIterator.run (pairs.length + 3 + m)
            { DataKey := dataKey, Mapper := defaultMapper } r =
          [.ok (.head { DataKey := dataKey, Length := (hint.toNat : Int) })]
          ++ zipMapEntries dataKey (hint.toNat : Int) 0 pairs
          ++ [.error (.unexpectedZipMapEnd key),
              .ok (.slice
                { DataKey := dataKey, Length := (hint.toNat : Int),
                  Value := pairs.map zipMapPair.element })]
          ++ List.replicate m (.error .EOF)) := by
  have hnext := zipMap_next_value_missing_state
    { DataKey := dataKey, Mapper := defaultMapper, buf := some (keyLength ++ key ++ tail),
      index := (pairs.length : Int), length := (hint.toNat : Int),
      values := pairs.map zipMapPair.element }
    r1 keyLength key tail hk ht rfl rfl
  constructor
  · rw [show pairs.length + 2 = pairs.length + 1 + 1 by omega,
      zipMap_run_to_tail hint pairs hwf _ dataKey r r1 hread 1]
    simp only [zipMapIterator.run, hnext]
  · intro ht2 m
    have hdrop : tail.drop 1 = [] := by
      rcases ht2 with rfl | rfl <;> rfl
    rw [show pairs.length + 3 + m = pairs.length + (m + 2) + 1 by omega,
      zipMap_run_to_tail hint pairs hwf _ dataKey r r1 hread (m + 2)]
    rw [show m + 2 = (m + 1) + 1 by omega, zipMapIterator.run, hnext]
    simp only [hdrop]
    rw [zipMap_run_after_end _ r1 rfl rfl rfl m]
    simp

theorem zipMap_value_missing_witness :
    zipMapIterator.run (1 + 2) { DataKey := ⟨0, [0x68], none⟩, Mapper := defaultMapper }
          [9, 2, 1, 0x61, 1, 0, 0x78, 1, 0x62, 0xFF] =
        [.ok (.head { DataKey := ⟨0, [0x68], none⟩, Length := ((2 : UInt8).toNat : Int) })]
        ++ zipMapEntries ⟨0, [0x68], none⟩ ((2 : UInt8).toNat : Int) 0
            [⟨[1], [0x61], [1], 0, [0x78]⟩]
        ++ [.error (.unexpectedZipMapEnd [0x62])] ∧
      zipMapIterator.run (1 + 3 + 2)
          { DataKey := ⟨0, [0x68], none⟩, Mapper := defaultMapper }
          [9, 2, 1, 0x61, 1, 0, 0x78, 1, 0x62, 0xFF] =
        [.ok (.head { DataKey := ⟨0, [0x68], none⟩, Length := ((2 : UInt8).toNat : Int) })]
        ++ zipMapEntries ⟨0, [0x68], none⟩ ((2 : UInt8).toNat : Int) 0
            [⟨[1], [0x61], [1], 0, [0x78]⟩]
        ++ [.error (.unexpectedZipMapEnd [0x62]),
            .ok (.slice
              { DataKey := ⟨0, [0x68], none⟩, Length := ((2 : UInt8).toNat : Int),
                Value := [⟨[1], [0x61], [1], 0, [0x78]⟩].map zipMapPair.element })]
        ++ List.replicate 2 (.error .EOF) :=
  ⟨(zipMap_value_missing 2 [⟨[1], [0x61], [1], 0, [0x78]⟩] (by decide) [1] [0x62] [0xFF]
      rfl (Or.inr ⟨[], rfl⟩) ⟨0, [0x68], none⟩
      [9, 2, 1, 0x61, 1, 0, 0x78, 1, 0x62, 0xFF] [] (by rfl)).1,
    (zipMap_value_missing 2 [⟨[1], [0x61], [1], 0, [0x78]⟩] (by decide) [1] [0x62] [0xFF]
      rfl (Or.inr ⟨[], rfl⟩) ⟨0, [0x68], none⟩
      [9, 2, 1, 0x61, 1, 0, 0x78, 1, 0x62, 0xFF] [] (by rfl)).2 (Or.inr rfl) 2⟩

/-! ### Termination -/

theorem readFull_good (n : Nat) (r : Bytes) : goodRead (readFull n r) r := by
  unfold readFull goodRead
  split
  · simp
  · split <;> simp [Err.isUnsupportedDataType]

theorem readByte_good (r : Bytes) : goodRead (readByte r) r := by
  cases r <;> simp [readByte, goodRead, Err.isUnsupportedDataType]

theorem readLengthWithEncoding_good (r : Bytes) : goodRead (readLengthWithEncoding r) r := by
  cases r with
  | nil => simp [readLengthWithEncoding, readByte, goodRead, Err.isUnsupportedDataType]
  | cons first r1 =>
    have hb := readByte_good r1
    have h4 := readFull_good 4 r1
    have h8 := readFull_good 8 r1
    simp only [goodRead] at hb h4 h8 ⊢
    unfold readLengthWithEncoding
    rw [show readByte (first :: r1) = (.ok first, r1) from rfl]
    simp only
    repeat' split
    all_goals simp_all [Err.isUnsupportedDataType]
    all_goals omega

theorem readLength_good (r : Bytes) : goodRead (readLength r) r := by
  have h := readLengthWithEncoding_good r
  simp only [goodRead] at h ⊢
  unfold readLength
  split <;> simp_all


theorem lzfLoop_error (fuel : Nat) : ∀ (input out : Bytes) (ulen : Nat) (e : Err),
    lzfLoop fuel input out ulen = .error e → e.isUnsupportedDataType = false := by
  induction fuel with
  | zero => intro input out ulen e h; simp [lzfLoop] at h
  | succ fuel ih =>
    intro input out ulen e h
    cases input with
    | nil => simp [lzfLoop] at h
    | cons ctrl rest =>
      simp only [lzfLoop] at h
      repeat' split at h
      all_goals first
        | exact ih _ _ _ _ h
        | (simp only [Except.error.injEq] at h; subst h; rfl)

theorem readString_good (r : Bytes) : goodRead (readString r) r := by
  have h0 := readLengthWithEncoding_good r
  unfold readString
  rcases hl : readLengthWithEncoding r with ⟨res, r1⟩
  rw [hl] at h0
  simp only [goodRead] at h0 ⊢
  cases res with
  | error e => simpa using h0
  | ok v =>
    obtain ⟨n, flag⟩ := v
    have hn := readFull_good n r1
    have h1 := readFull_good 1 r1
    have h2 := readFull_good 2 r1
    have h4 := readFull_good 4 r1
    have hc := readLengthWithEncoding_good r1
    simp only [goodRead] at hn h1 h2 h4 hc
    cases flag with
    | false => simp only; exact ⟨by omega, hn.2⟩
    | true =>
      simp only
      by_cases s0 : n = 0
      · rw [if_pos s0]
        rcases hf : readFull 1 r1 with ⟨x, y⟩
        rw [hf] at h1
        cases x <;> simp_all <;> omega
      by_cases s1 : n = 1
      · rw [if_neg s0, if_pos s1]
        rcases hf : readFull 2 r1 with ⟨x, y⟩
        rw [hf] at h2
        cases x <;> simp_all <;> omega
      by_cases s2 : n = 2
      · rw [if_neg s0, if_neg s1, if_pos s2]
        rcases hf : readFull 4 r1 with ⟨x, y⟩
        rw [hf] at h4
        cases x <;> simp_all <;> omega
      by_cases s3 : n = 3
      · rw [if_neg s0, if_neg s1, if_neg s2, if_pos s3]
        rcases hl2 : readLengthWithEncoding r1 with ⟨res2, r2⟩
        rw [hl2] at hc
        cases res2 with
        | error e => simp_all; omega
        | ok v2 =>
          obtain ⟨clen, f2⟩ := v2
          simp only
          have hu := readLengthWithEncoding_good r2
          simp only [goodRead] at hu
          rcases hl3 : readLengthWithEncoding r2 with ⟨res3, r3⟩
          rw [hl3] at hu
          cases res3 with
          | error e => simp_all; omega
          | ok v3 =>
            obtain ⟨ulen, f3⟩ := v3
            simp only
            have hf := readFull_good clen r3
            simp only [goodRead] at hf
            rcases hl4 : readFull clen r3 with ⟨res4, r4⟩
            rw [hl4] at hf
            cases res4 with
            | error e => simp_all; omega
            | ok cbytes =>
              simp only at hc hu hf ⊢
              refine ⟨by omega, ?_⟩
              intro e he
              exact lzfLoop_error _ _ _ _ _ he
      · rw [if_neg s0, if_neg s1, if_neg s2, if_neg s3]
        exact ⟨by simp only; omega, by simp [Err.isUnsupportedDataType]⟩


theorem readSecondsTime_good (r : Bytes) : goodRead (readSecondsTime r) r := by
  have h := readFull_good 4 r
  simp only [goodRead] at h ⊢
  unfold readSecondsTime
  split <;> simp_all

theorem readMillisecondsTime_good (r : Bytes) : goodRead (readMillisecondsTime r) r := by
  have h := readFull_good 8 r
  simp only [goodRead] at h ⊢
  unfold readMillisecondsTime
  split <;> simp_all

theorem readScore_good (type : UInt8) (r : Bytes) : goodRead (readScore type r) r := by
  have h8 := readFull_good 8 r
  have hb := readByte_good r
  simp only [goodRead] at h8 hb ⊢
  unfold readScore
  by_cases ht : type = typeZSet2
  · rw [if_pos ht]
    split <;> simp_all
  · rw [if_neg ht]
    rcases hr : readByte r with ⟨res, r1⟩
    rw [hr] at hb
    cases res with
    | error e => simp_all
    | ok l =>
      have hf := readFull_good l.toNat r1
      simp only [goodRead] at hf
      simp only at hb ⊢
      repeat' split
      all_goals simp_all
      all_goals omega

theorem ReadValue_good (v : valueReader) (r : Bytes) : goodRead (v.ReadValue r) r := by
  have h0 := readString_good r
  simp only [goodRead] at h0 ⊢
  rcases hr : readString r with ⟨res, r1⟩
  rw [hr] at h0
  have h1 := readString_good r1
  simp only [goodRead] at h1
  cases v with
  | string =>
    simp only [valueReader.ReadValue, hr]
    cases res <;> simp_all
  | sortedSet type =>
    have h2 := readScore_good type r1
    simp only [goodRead] at h2
    simp only [valueReader.ReadValue, hr]
    cases res with
    | error e => simp_all
    | ok member =>
      simp only at h0 ⊢
      split <;> simp_all <;> omega
  | hash =>
    simp only [valueReader.ReadValue, hr]
    cases res with
    | error e => simp_all
    | ok field =>
      simp only at h0 ⊢
      split <;> simp_all <;> omega

theorem seq_next_good (s : seqIterator) (r : Bytes) (hm : s.Mapper = defaultMapper) :
    (s.Next r).2.2.length ≤ r.length ∧
      ∀ e, (s.Next r).1 = .error e → e.isUnsupportedDataType = false := by
  have h0 := readLength_good r
  have h1 := ReadValue_good s.ValueReader r
  simp only [goodRead] at h0 h1
  simp only [seqIterator.Next, hm, defaultMapper]
  repeat' split
  all_goals simp_all [Err.isUnsupportedDataType]

theorem readUint32_good (r : Bytes) : goodRead (readUint32 r) r := by
  have h := readFull_good 4 r
  simp only [goodRead] at h ⊢
  unfold readUint32
  split <;> simp_all

theorem zipMap_readLength_error (buf : Bytes) (e : Err)
    (h : (zipMapIterator.readLength buf).1 = .error e) : e.isUnsupportedDataType = false := by
  have hb := readByte_good buf
  simp only [goodRead] at hb
  unfold zipMapIterator.readLength at h
  rcases hr : readByte buf with ⟨res, b1⟩
  rw [hr] at hb h
  cases res with
  | error e1 => simp_all
  | ok first =>
    have h4 := readUint32_good b1
    simp only [goodRead] at h4 h
    repeat' split at h
    all_goals simp_all [Err.isUnsupportedDataType]
    all_goals (subst h; rfl)


theorem zipMap_next_good (z : zipMapIterator) (r : Bytes) (hm : z.Mapper = defaultMapper) :
    (z.Next r).2.2.length ≤ r.length ∧
      ∀ e, (z.Next r).1 = .error e → e.isUnsupportedDataType = false := by
  by_cases hd : z.done = true
  · simp [zipMapIterator.Next, hd, Err.isUnsupportedDataType]
  cases hb : z.buf with
  | none =>
    have h0 := readString_good r
    simp only [goodRead] at h0
    rcases hr : readString r with ⟨res, r1⟩
    rw [hr] at h0
    cases res with
    | error e => simp_all [zipMapIterator.Next]
    | ok buf =>
      have h1 := readByte_good buf
      simp only [goodRead] at h1
      simp only [zipMapIterator.Next, hd, hb, hr, hm, defaultMapper]
      rcases hrb : readByte buf with ⟨x, y⟩
      rw [hrb] at h1
      cases x <;> simp_all
  | some buf =>
    simp only [zipMapIterator.Next, hd, hb, hm, defaultMapper, Bool.false_eq_true, if_false]
    have e1 := zipMap_readLength_error buf
    rcases h1 : zipMapIterator.readLength buf with ⟨res1, b1⟩
    rw [h1] at e1
    cases res1 with
    | error e =>
      have := e1 e rfl
      by_cases he : e = .EOF <;> simp_all
    | ok keyLength =>
      simp only
      have e2 := (readFull_good keyLength.toNat b1).2
      rcases h2 : readFull keyLength.toNat b1 with ⟨res2, b2⟩
      rw [h2] at e2
      cases res2 with
      | error e => simp_all
      | ok keyBuf =>
        simp only
        have e3 := zipMap_readLength_error b2
        rcases h3 : zipMapIterator.readLength b2 with ⟨res3, b3⟩
        rw [h3] at e3
        cases res3 with
        | error e =>
          have := e3 e rfl
          by_cases he : e = .EOF <;> simp_all [Err.isUnsupportedDataType]
        | ok valueLength =>
          simp only
          have e4 := (readByte_good b3).2
          rcases h4 : readByte b3 with ⟨res4, b4⟩
          rw [h4] at e4
          cases res4 with
          | error e => simp_all
          | ok free =>
            simp only
            have e5 := (readFull_good valueLength.toNat b4).2
            rcases h5 : readFull valueLength.toNat b4 with ⟨res5, b5⟩
            rw [h5] at e5
            cases res5 with
            | error e => simp_all
            | ok valueBuf => simp

theorem iterator_next_good (it : iterator) (r : Bytes) (hm : it.Mapper = defaultMapper) :
    (it.Next r).2.2.length ≤ r.length ∧
      ∀ e, (it.Next r).1 = .error e → e.isUnsupportedDataType = false := by
  cases it with
  | seq s => simpa [iterator.Next] using seq_next_good s r hm
  | zipMap z => simpa [iterator.Next] using zipMap_next_good z r hm


theorem verifyMagicString_good (r : Bytes) :
    (verifyMagicString r).2.length ≤ r.length ∧
      ∀ e, (verifyMagicString r).1 = some e → e.isUnsupportedDataType = false := by
  have h := readFull_good magicString.length r
  simp only [goodRead] at h
  unfold verifyMagicString
  rcases hr : readFull magicString.length r with ⟨res, r1⟩
  rw [hr] at h
  cases res with
  | error e => simp_all
  | ok buf =>
    simp only at h ⊢
    split <;> simp_all [Err.isUnsupportedDataType]

theorem verifyVersion_good (r : Bytes) :
    (verifyVersion r).2.length ≤ r.length ∧
      ∀ e, (verifyVersion r).1 = some e → e.isUnsupportedDataType = false := by
  have h := readFull_good 4 r
  simp only [goodRead] at h
  unfold verifyVersion
  rcases hr : readFull 4 r with ⟨res, r1⟩
  rw [hr] at h
  cases res with
  | error e => simp_all
  | ok buf =>
    simp only at h ⊢
    repeat' split
    all_goals simp_all [Err.isUnsupportedDataType]

/-- The header check: the reader does not grow, the error is not the
unsupported-data-type error, and a check that passes leaves the parser
initialized. -/
theorem header_good (p : Parser) :
    (p.header).2.reader.length ≤ p.reader.length ∧
      (∀ e, (p.header).1 = some e → e.isUnsupportedDataType = false) ∧
      ((p.header).1 = none → (p.header).2.initialized = true) := by
  have h1 := verifyMagicString_good p.reader
  unfold Parser.header
  cases hi : p.initialized with
  | true => simp [hi]
  | false =>
    simp only [Bool.not_false, if_true]
    rcases hm : verifyMagicString p.reader with ⟨oe, r1⟩
    rw [hm] at h1
    cases oe with
    | some e => simp_all
    | none =>
      simp only at h1 ⊢
      have h2 := verifyVersion_good r1
      rcases hv : verifyVersion r1 with ⟨oe2, r2⟩
      rw [hv] at h2
      cases oe2 with
      | some e => simp_all; omega
      | none => simp_all; omega

theorem readKey_measure (p : Parser) (b : UInt8) (r1 : Bytes)
    (hdt : p.dataType = none) (hr : r1.length + 1 ≤ p.reader.length) :
    (∀ p1, p.readKey b r1 = .loop p1 → p1.measure < p.measure) ∧
      ∀ e p1, p.readKey b r1 = .ret (.error e) p1 → e.isUnsupportedDataType = false := by
  have h := readString_good r1
  simp only [goodRead] at h
  unfold Parser.readKey
  rcases hs : readString r1 with ⟨res, r2⟩
  rw [hs] at h
  cases res with
  | error e => simp_all
  | ok key =>
    simp only at h ⊢
    refine ⟨?_, by simp⟩
    intro p1 hp1
    simp only [Step.loop.injEq] at hp1
    subst hp1
    simp only [Parser.measure, Parser.phase, hdt]
    split <;> omega


theorem body_none_good (p : Parser) (hdt : p.dataType = none) :
    (∀ p1, p.body = .loop p1 → p1.measure < p.measure) ∧
      ∀ e p1, p.body = .ret (.error e) p1 → e.isUnsupportedDataType = false := by
  cases hr : p.reader with
  | nil => simp [Parser.body, hdt, hr, readByte, Err.isUnsupportedDataType]
  | cons b r1 =>
    have hk := readKey_measure p b r1 hdt (by simp [hr])
    have hms := readMillisecondsTime_good r1
    have hs := readSecondsTime_good r1
    have hl := readLength_good r1
    have hb := readByte_good r1
    have hstr := readString_good r1
    simp only [goodRead] at hms hs hl hb hstr
    have hm : ∀ q : Parser, q.dataType = none → q.reader.length ≤ r1.length →
        q.measure < p.measure := by
      intro q hq hlen
      simp only [Parser.measure, Parser.phase, hq, hdt, hr, List.length_cons]
      omega
    simp only [Parser.body, hdt, hr]
    rw [show readByte (b :: r1) = (.ok b, r1) from rfl]
    simp only
    by_cases h1 : b = opCodeExpireTimeMS
    · rw [if_pos h1]
      rcases hx : readMillisecondsTime r1 with ⟨res, r2⟩
      rw [hx] at hms
      cases res with
      | error e =>
        refine ⟨by simp, fun e1 p1 hp => ?_⟩
        simp only [Step.ret.injEq, Except.error.injEq] at hp
        obtain ⟨rfl, -⟩ := hp
        exact hms.2 _ rfl
      | ok t => exact ⟨fun p1 hp => by cases hp; exact hm _ rfl hms.1, by simp⟩
    rw [if_neg h1]
    by_cases h2 : b = opCodeExpireTime
    · rw [if_pos h2]
      rcases hx : readSecondsTime r1 with ⟨res, r2⟩
      rw [hx] at hs
      cases res with
      | error e =>
        refine ⟨by simp, fun e1 p1 hp => ?_⟩
        simp only [Step.ret.injEq, Except.error.injEq] at hp
        obtain ⟨rfl, -⟩ := hp
        exact hs.2 _ rfl
      | ok t => exact ⟨fun p1 hp => by cases hp; exact hm _ rfl hs.1, by simp⟩
    rw [if_neg h2]
    by_cases h3 : b = opCodeIdle
    · rw [if_pos h3]
      rcases hx : readLength r1 with ⟨res, r2⟩
      rw [hx] at hl
      cases res with
      | error e =>
        refine ⟨by simp, fun e1 p1 hp => ?_⟩
        simp only [Step.ret.injEq, Except.error.injEq] at hp
        obtain ⟨rfl, -⟩ := hp
        exact hl.2 _ rfl
      | ok t => exact ⟨fun p1 hp => by cases hp; exact hm _ rfl hl.1, by simp⟩
    rw [if_neg h3]
    by_cases h4 : b = opCodeFreq
    · rw [if_pos h4]
      rcases hx : readByte r1 with ⟨res, r2⟩
      rw [hx] at hb
      cases res with
      | error e =>
        refine ⟨by simp, fun e1 p1 hp => ?_⟩
        simp only [Step.ret.injEq, Except.error.injEq] at hp
        obtain ⟨rfl, -⟩ := hp
        exact hb.2 _ rfl
      | ok t => exact ⟨fun p1 hp => by cases hp; exact hm _ rfl hb.1, by simp⟩
    rw [if_neg h4]
    by_cases h5 : b = opCodeSelectDB
    · rw [if_pos h5]
      rcases hx : readLength r1 with ⟨res, r2⟩
      rw [hx] at hl
      cases res with
      | error e =>
        refine ⟨by simp, fun e1 p1 hp => ?_⟩
        simp only [Step.ret.injEq, Except.error.injEq] at hp
        obtain ⟨rfl, -⟩ := hp
        exact hl.2 _ rfl
      | ok t => exact ⟨fun p1 hp => by cases hp; exact hm _ rfl hl.1, by simp⟩
    rw [if_neg h5]
    by_cases h6 : b = opCodeAux
    · rw [if_pos h6]
      rcases hx : readString r1 with ⟨res, r2⟩
      rw [hx] at hstr
      cases res with
      | error e => simp_all
      | ok key =>
        simp only
        have hv := readString_good r2
        simp only [goodRead] at hv
        rcases hy : readString r2 with ⟨res2, r3⟩
        rw [hy] at hv
        cases res2 <;> simp_all
    rw [if_neg h6]
    by_cases h7 : b = opCodeResizeDB
    · rw [if_pos h7]; exact hk
    rw [if_neg h7]
    by_cases h8 : b = opCodeModuleAux
    · rw [if_pos h8]; exact hk
    rw [if_neg h8]
    by_cases h9 : b = opCodeEOF
    · rw [if_pos h9]; simp [Err.isUnsupportedDataType]
    rw [if_neg h9]
    exact hk

/-- The passes of `readData`: a tail call lowers the measure, and the
unsupported-data-type error comes from the last line alone, with the parser
left as it was. -/
theorem readData_good (sel : Int) (p : Parser) (dt : UInt8) (hdt : p.dataType = some dt)
    (h : p.Inv sel) :
    (∀ p1, p.readData dt = .loop p1 → p1.measure < p.measure) ∧
      ∀ e p1, p.readData dt = .ret (.error e) p1 → e.isUnsupportedDataType = true →
        e = .unsupportedDataType dt ∧ p1 = p ∧ p.iterator = none ∧
          p.readData dt = .ret (.error (.unsupportedDataType dt)) p := by
  obtain ⟨-, -, hit⟩ := h
  cases hi : p.iterator with
  | some it =>
    obtain ⟨-, hm⟩ := hit it hi
    obtain ⟨g1, g2⟩ := iterator_next_good it p.reader hm
    rcases hn : it.Next p.reader with ⟨res, it1, r1⟩
    rw [hn] at g1 g2
    simp only at g1 g2
    cases res with
    | error e =>
      have hg := g2 e rfl
      by_cases he : e = .EOF
      · subst he
        simp only [Parser.readData, hi, hn, if_true]
        refine ⟨?_, by simp⟩
        intro p1 hp; cases hp
        simp only [Parser.measure, Parser.phase, hdt, hi]
        omega
      · simp only [Parser.readData, hi, hn, if_neg he]
        refine ⟨by simp, ?_⟩
        intro e1 p1 hp hu
        simp only [Step.ret.injEq, Except.error.injEq] at hp
        obtain ⟨rfl, -⟩ := hp
        rw [hg] at hu; exact absurd hu (by simp)
    | ok v => simp [Parser.readData, hi, hn]
  | none =>
    have hs := readString_good p.reader
    simp only [goodRead] at hs
    have hphase : ∀ it : iterator,
        Parser.measure { p with iterator := some it } < p.measure := by
      intro it
      simp only [Parser.measure, Parser.phase, hdt, hi]
      omega
    simp only [Parser.readData, hi]
    by_cases h0 : dt = typeString
    · rw [if_pos h0]
      rcases hx : readString p.reader with ⟨res, r1⟩
      rw [hx] at hs
      cases res with
      | error e =>
        refine ⟨by simp, ?_⟩
        intro e1 p1 hp hu
        simp only [Step.ret.injEq, Except.error.injEq] at hp
        obtain ⟨rfl, -⟩ := hp
        rw [hs.2 e rfl] at hu; exact absurd hu (by simp)
      | ok v => simp
    rw [if_neg h0]
    by_cases h1 : dt = typeList
    · rw [if_pos h1]; exact ⟨fun p1 hp => by cases hp; exact hphase _, by simp⟩
    rw [if_neg h1]
    by_cases h2 : dt = typeSet
    · rw [if_pos h2]; exact ⟨fun p1 hp => by cases hp; exact hphase _, by simp⟩
    rw [if_neg h2]
    by_cases h3 : dt = typeZSet ∨ dt = typeZSet2
    · rw [if_pos h3]; exact ⟨fun p1 hp => by cases hp; exact hphase _, by simp⟩
    rw [if_neg h3]
    by_cases h4 : dt = typeHash
    · rw [if_pos h4]; exact ⟨fun p1 hp => by cases hp; exact hphase _, by simp⟩
    rw [if_neg h4]
    by_cases h5 : dt = typeHashZipMap
    · rw [if_pos h5]; exact ⟨fun p1 hp => by cases hp; exact hphase _, by simp⟩
    rw [if_neg h5]
    refine ⟨by simp, ?_⟩
    intro e p1 hp _
    simp only [Step.ret.injEq, Except.error.injEq] at hp
    obtain ⟨rfl, rfl⟩ := hp
    simp


/-- One pass through `Next`: a tail call lowers the measure, and the
unsupported-data-type error leaves an initialized parser with that data type
pending, no iterator, and the same error due again. -/
theorem step_good (sel : Int) (p : Parser) (h : p.Inv sel) :
    (∀ p1, p.step = .loop p1 → p1.measure < p.measure) ∧
      ∀ dt p1, p.step = .ret (.error (.unsupportedDataType dt)) p1 →
        p1.initialized = true ∧ p1.dataType = some dt ∧ p1.iterator = none ∧
          p1.readData dt = .ret (.error (.unsupportedDataType dt)) p1 := by
  obtain ⟨f1, f2, f3, -, -⟩ := header_fields p
  obtain ⟨g1, g2, g3⟩ := header_good p
  rcases hh : p.header with ⟨oe, p'⟩
  rw [hh] at f1 f2 f3 g1 g2 g3
  simp only at f1 f2 f3 g1 g2 g3
  have h' : p'.Inv sel := by
    obtain ⟨hdb, hnone, hit⟩ := h
    exact ⟨by rw [f1]; exact hdb, by rw [f2, f3]; exact hnone, by rw [f3]; exact hit⟩
  have hle : p'.measure ≤ p.measure := by
    simp only [Parser.measure, Parser.phase, f2, f3]
    omega
  cases oe with
  | some e =>
    simp only [Parser.step, hh]
    refine ⟨by simp, ?_⟩
    intro dt p1 hp
    simp only [Step.ret.injEq, Except.error.injEq] at hp
    obtain ⟨rfl, -⟩ := hp
    have := g2 _ rfl
    simp [Err.isUnsupportedDataType] at this
  | none =>
    have hinit := g3 rfl
    simp only [Parser.step, hh]
    cases hdt : p'.dataType with
    | none =>
      obtain ⟨b1, b2⟩ := body_none_good p' hdt
      refine ⟨fun p1 hp => lt_of_lt_of_le (b1 p1 hp) hle, ?_⟩
      intro dt p1 hp
      have := b2 _ _ hp
      simp [Err.isUnsupportedDataType] at this
    | some dt' =>
      obtain ⟨b1, b2⟩ := readData_good sel p' dt' hdt h'
      simp only [Parser.body, hdt]
      refine ⟨fun p1 hp => lt_of_lt_of_le (b1 p1 hp) hle, ?_⟩
      intro dt p1 hp
      obtain ⟨he, rfl, hi, hr⟩ := b2 _ _ hp rfl
      simp only [Err.unsupportedDataType.injEq] at he
      subst he
      exact ⟨hinit, hdt, hi, hr⟩

theorem measure_lt (p : Parser) : p.measure < 3 * p.reader.length + 3 := by
  simp only [Parser.measure, Parser.phase]
  split <;> omega

theorem NextFuel_total (fuel : Nat) : ∀ (sel : Int) (p : Parser), p.Inv sel →
    p.measure < fuel → ∃ res p1, p.NextFuel fuel = some (res, p1) := by
  induction fuel with
  | zero => intro sel p _ h; omega
  | succ fuel ih =>
    intro sel p hinv hm
    cases hs : p.step with
    | ret res p1 => exact ⟨res, p1, by simp [Parser.NextFuel, hs]⟩
    | loop p1 =>
      have h1 := (step_good sel p hinv).1 p1 hs
      have h2 := (step_inv sel p hinv).1
      simp only [hs, Step.parser] at h2
      obtain ⟨res, p2, hn⟩ := ih _ p1 h2 (by omega)
      exact ⟨res, p2, by simp [Parser.NextFuel, hs, hn]⟩

/-- C19: for every parser state met in a sequence of calls that starts from
`NewParser`, on any finite input, a call to `Next` returns.  Every tail call
`return p.Next()` is entered with a smaller measure, three times the number of
unread bytes plus the phase (data type set and no iterator, iterator set,
nothing pending), because a pass either consumes an input byte or moves the
state forward; so the fuel `Next` is given, three passes for each unread byte
and three more, is never used up. -/
theorem Next_terminates (sel : Int) (p : Parser) (h : Tracked sel p) :
    (∀ p1, p.step = .loop p1 → p1.measure < p.measure) ∧
      ∃ res p1, p.Next = some (res, p1) :=
  ⟨(step_good sel p (tracked_inv sel p h)).1,
    NextFuel_total _ sel p (tracked_inv sel p h) (measure_lt p)⟩

theorem Next_terminates_witness :
    (∀ p1, (NewParser (header9 ++ [0xFE, 0, 9, 1, 0x61, 4, 2, 1, 0x6B, 1])).step = .loop p1 →
        p1.measure < (NewParser (header9 ++ [0xFE, 0, 9, 1, 0x61, 4, 2, 1, 0x6B, 1])).measure) ∧
      ∃ res p1, (NewParser (header9 ++ [0xFE, 0, 9, 1, 0x61, 4, 2, 1, 0x6B, 1])).Next
        = some (res, p1) :=
  Next_terminates (-1) (NewParser (header9 ++ [0xFE, 0, 9, 1, 0x61, 4, 2, 1, 0x6B, 1]))
    (Tracked.new _)

/-! ### The unsupported-data-type error, call after call -/

theorem NextFuel_unsupported (fuel : Nat) : ∀ (sel : Int) (p p1 : Parser) (dt : UInt8),
    p.Inv sel → p.NextFuel fuel = some (.error (.unsupportedDataType dt), p1) →
    p1.initialized = true ∧ p1.dataType = some dt ∧ p1.iterator = none ∧
      p1.readData dt = .ret (.error (.unsupportedDataType dt)) p1 := by
  induction fuel with
  | zero => intro sel p p1 dt _ h; simp [Parser.NextFuel] at h
  | succ fuel ih =>
    intro sel p p1 dt hinv h
    cases hs : p.step with
    | ret res p' =>
      simp only [Parser.NextFuel, hs, Option.some.injEq, Prod.mk.injEq] at h
      obtain ⟨rfl, rfl⟩ := h
      exact (step_good sel p hinv).2 dt p' hs
    | loop p' =>
      simp only [Parser.NextFuel, hs] at h
      have h2 := (step_inv sel p hinv).1
      simp only [hs, Step.parser] at h2
      exact ih _ p' p1 dt h2 h

theorem Next_unsupported_again (p : Parser) (dt : UInt8) (hinit : p.initialized = true)
    (hdt : p.dataType = some dt)
    (hr : p.readData dt = .ret (.error (.unsupportedDataType dt)) p) :
    p.Next = some (.error (.unsupportedDataType dt), p) := by
  have hstep : p.step = .ret (.error (.unsupportedDataType dt)) p := by
    rw [step_pending p dt hinit hdt, hr]
  rw [Parser.Next, show 3 * p.reader.length + 3 = (3 * p.reader.length + 2) + 1 by omega,
    NextFuel_ret _ _ _ _ hstep]

/-- C20: after a call to `Next`, on a parser met in a sequence of calls from
`NewParser`, has returned the unsupported-data-type error for a data type, the
parser has that data type pending and no iterator; the next call returns the
same error for the same data type and leaves the parser, its reader included,
exactly as it was, and so does every later call. -/
theorem unsupported_data_type_repeats (sel : Int) (p p1 : Parser) (dt : UInt8)
    (h : Tracked sel p) (hn : p.Next = some (.error (.unsupportedDataType dt), p1)) (n : Nat) :
    p1.dataType = some dt ∧ p1.iterator = none ∧
      p1.Next = some (.error (.unsupportedDataType dt), p1) ∧
      Parser.run n p1 = List.replicate n (some (.error (.unsupportedDataType dt))) := by
  obtain ⟨hinit, hdt, hit, hr⟩ :=
    NextFuel_unsupported _ sel p p1 dt (tracked_inv sel p h) hn
  have hnext := Next_unsupported_again p1 dt hinit hdt hr
  refine ⟨hdt, hit, hnext, ?_⟩
  induction n with
  | zero => rfl
  | succ n ih => simp [Parser.run, hnext, ih, List.replicate_succ]

theorem unsupported_data_type_repeats_witness :
    (Parser.mk [0xFF] (-1) true none (some 11) 0 0 [0x61] none).dataType = some 11 ∧
      (Parser.mk [0xFF] (-1) true none (some 11) 0 0 [0x61] none).iterator = none ∧
      (Parser.mk [0xFF] (-1) true none (some 11) 0 0 [0x61] none).Next
        = some (.error (.unsupportedDataType 11),
            Parser.mk [0xFF] (-1) true none (some 11) 0 0 [0x61] none) ∧
      Parser.run 3 (Parser.mk [0xFF] (-1) true none (some 11) 0 0 [0x61] none)
        = List.replicate 3 (some (.error (.unsupportedDataType 11))) :=
  unsupported_data_type_repeats (-1) (NewParser (header9 ++ [11, 1, 0x61, 0xFF]))
    (Parser.mk [0xFF] (-1) true none (some 11) 0 0 [0x61] none) 11 (Tracked.new _) (by rfl) 3


end Rdb
